import Mathlib

/-!
# CJelly: the OBJ geometry loader and the MTL material loader

A shallow embedding of `src/format/3d/obj.c` and `src/format/3d/mtl.c`.

Conventions of the embedding.

* A file is the list of its bytes (`List Char`); `fopen` is a partial map from
  file names to contents.
* The loaders read the input through `fgets`, one buffer at a time: the text up to and
  including the next newline, or 255 characters when the newline is further away
  (`fgets_all`).  The lines of a text are `text_lines`; when every line, its terminator
  included, has at most 255 characters (`ShortLines`) the buffers are the lines
  (`fgets_all_short`), and a longer line is read in several buffers, each of which the
  loaders treat as a line.  Theorems about the lines of an input assume `ShortLines`.
* A C string is the list of its characters up to, and without, the terminating NUL.
* A dynamically grown C array together with its element count is the list of the
  elements written so far; the count is the length of that list.  Capacities are kept
  as explicit fields.  Counts and capacities are natural numbers: the `int` overflow
  that more than `2^31` entries would cause is outside the embedding.
* `int` values scanned from text are mathematical integers; theorems about them carry
  the range of `int` as a hypothesis where the C arithmetic needs it.
* `float` is a type parameter, and the `%f` conversion of `sscanf` is a parameter of the
  loaders: the loaders only move scanned values around.
* `malloc`/`realloc` succeed or fail according to an oracle `alloc : Nat → Bool`, asked
  with the number of allocation requests made before the current one.
-/

namespace CJelly

/-! ## The C library functions the loaders call -/

/-- Constant `LINE_SIZE` of `obj.c` and `mtl.c`. -/
def LINE_SIZE : Nat := 256

/-- Function `isspace` in the C locale: space, `\t`, `\n`, `\v`, `\f`, `\r`. -/
def isspace (c : Char) : Bool :=
  c = ' ' || c = '\t' || c = '\n' || c = Char.ofNat 11 || c = Char.ofNat 12 || c = '\r'

/-- Function `isdigit`. -/
def isdigit (c : Char) : Bool := decide ('0'.toNat ≤ c.toNat) && decide (c.toNat ≤ '9'.toNat)

/-- Numeric value of a decimal digit character. -/
def digit_value (c : Char) : Nat := c.toNat - '0'.toNat

/-- Value of a run of decimal digits, most significant first. -/
def digits_value (ds : List Char) : Nat := ds.foldl (fun acc c => 10 * acc + digit_value c) 0

/-- The sequence of buffers that successive calls `fgets(line, LINE_SIZE, fp)` return on a
stream holding `text`: each call takes characters up to and including the next `\n`, but at
most `LINE_SIZE - 1` of them, and a call at end of file with nothing read returns `NULL`,
which ends the sequence.  `cur` holds, reversed, the characters of the buffer being filled. -/
def fgets_from : List Char → List Char → List (List Char)
  | [], cur => if cur = [] then [] else [cur.reverse]
  | c :: cs, cur =>
    if c = '\n' ∨ cur.length + 1 = LINE_SIZE - 1 then (c :: cur).reverse :: fgets_from cs []
    else fgets_from cs (c :: cur)

/-- All buffers read from a stream by the loop `while (fgets(line, LINE_SIZE, fp))`. -/
def fgets_all (text : List Char) : List (List Char) := fgets_from text []

/-- The NUL character. -/
def NUL : Char := Char.ofNat 0

/-- The characters at which the line ends: carriage return and newline, where the loaders cut
it, and NUL, which ends every C string. -/
def eol (c : Char) : Bool := c = '\r' || c = '\n' || c = NUL

/-- The C string left in `line` by `line[strcspn(line, "\r\n")] = 0` when `fgets` has just
stored `raw`: the characters before the first carriage return, newline or NUL. -/
def chomp (raw : List Char) : List Char :=
  raw.takeWhile (fun c => !eol c)

/-- The test `strncmp(line, p, strlen(p)) == 0` on a C string `line`. -/
def strncmp_eq (line : List Char) (p : String) : Bool := line.take p.length == p.toList

/-- The `%d` conversion of `sscanf` (and the scan done by `atoi`): skip white space, take an
optional sign and then a non-empty run of decimal digits.  Gives the value and the rest of the
input, or `none` when no digit is found.

The value is the mathematical integer that the numeral denotes.  It is the value that the C
code stores when it lies in the range of `int`; for a numeral outside that range the C
standard leaves the behaviour of `sscanf` and `atoi` undefined (the C library in use stores
a reduced value), and the embedding says nothing about what is stored then.  Theorems about
stored index values therefore assume `IntRange`; the corner counts, the element counts and
the returned codes do not depend on the values. -/
def scan_d (s : List Char) : Option (Int × List Char) :=
  let s1 := s.dropWhile isspace
  let neg : Bool := s1.head? = some '-'
  let s2 := if s1.head? = some '-' ∨ s1.head? = some '+' then s1.drop 1 else s1
  let ds := s2.takeWhile isdigit
  if ds = [] then none
  else some (if neg then - (digits_value ds : Int) else (digits_value ds : Int), s2.dropWhile isdigit)

/-- Function `atoi`: the scanned integer, or `0` when the string does not start with one. -/
def atoi (s : List Char) : Int :=
  match scan_d s with
  | some (v, _) => v
  | none => 0

/-- The call `sscanf(s, "%d %d %d", &v, &vt, &vn)` with `v`, `vt`, `vn` holding `v0`, `vt0`,
`vn0` before it: the number of conversions done and the three variables afterwards.  (An
input failure before the first conversion returns `EOF`; the caller only tests the result
against 3, so it is given as `0` here.) -/
def sscanf_ddd (s : List Char) (v0 vt0 vn0 : Int) : Nat × Int × Int × Int :=
  match scan_d s with
  | none => (0, v0, vt0, vn0)
  | some (a, r1) =>
    match scan_d r1 with
    | none => (1, a, vt0, vn0)
    | some (b, r2) =>
      match scan_d r2 with
      | none => (2, a, b, vn0)
      | some (c, _) => (3, a, b, c)

/-- The call `sscanf(s, "%Ns", buf)` with field width `width`: skip white space, then store the
following run of non-white-space characters, at most `width` of them; `none` when the input
ends before any such character. -/
def scan_s (width : Nat) (s : List Char) : Option (List Char) :=
  let t := (s.dropWhile isspace).takeWhile (fun c => !isspace c)
  if t = [] then none else some (t.take width)

/-- The tokens that `strtok(s, " ")` followed by repeated `strtok(NULL, " ")` returns: the
maximal non-empty runs of characters other than the space.  `cur` holds, reversed, the token
being read. -/
def strtok_from : List Char → List Char → List (List Char)
  | [], cur => if cur = [] then [] else [cur.reverse]
  | c :: cs, cur =>
    if c = ' ' then (if cur = [] then strtok_from cs [] else cur.reverse :: strtok_from cs [])
    else strtok_from cs (c :: cur)

/-- All tokens of `s` for the delimiter set `" "`. -/
def strtok_all (s : List Char) : List (List Char) := strtok_from s []

/-- The `float` side of the C library: the value with all bytes zero, and the `%f`
conversion of `sscanf` (value scanned and rest of the input, or `none` on failure). -/
structure FloatLib (F : Type) where
  zero : F
  scan_f : List Char → Option (F × List Char)

/-- The call `sscanf(s, "%f %f %f", ...)` when it returns 3, with the three values. -/
def sscanf_fff {F : Type} (L : FloatLib F) (s : List Char) : Option (F × F × F) :=
  match L.scan_f s with
  | none => none
  | some (a, r1) =>
    match L.scan_f r1 with
    | none => none
    | some (b, r2) =>
      match L.scan_f r2 with
      | none => none
      | some (c, _) => some (a, b, c)

/-- The call `sscanf(s, "%f %f", ...)` when it returns 2, with the two values. -/
def sscanf_ff {F : Type} (L : FloatLib F) (s : List Char) : Option (F × F) :=
  match L.scan_f s with
  | none => none
  | some (a, r1) =>
    match L.scan_f r1 with
    | none => none
    | some (b, _) => some (a, b)

/-- The call `sscanf(s, "%f", ...)` when it returns 1, with the value. -/
def sscanf_f {F : Type} (L : FloatLib F) (s : List Char) : Option F :=
  match L.scan_f s with
  | none => none
  | some (a, _) => some a

/-- A decimal numeral kept exactly: `mant / 10 ^ frac`. -/
structure Decimal where
  mant : Int
  frac : Nat
  deriving DecidableEq

/-- A `%f` conversion for plain decimal numerals (`12`, `-3`, `0.25`): white space, an optional
sign, digits and an optional fraction.  It is the instance at which the concrete scenarios are
evaluated; their numerals are all of this form and exactly representable as `float`. -/
def scan_decimal (s : List Char) : Option (Decimal × List Char) :=
  let s1 := s.dropWhile isspace
  let neg : Bool := s1.head? = some '-'
  let s2 := if s1.head? = some '-' ∨ s1.head? = some '+' then s1.drop 1 else s1
  let ds := s2.takeWhile isdigit
  if ds = [] then none
  else
    match s2.dropWhile isdigit with
    | '.' :: r1 =>
      let fs := r1.takeWhile isdigit
      let m : Int := digits_value (ds ++ fs)
      some (⟨if neg then - m else m, fs.length⟩, r1.dropWhile isdigit)
    | r => some (⟨if neg then - (digits_value ds : Int) else (digits_value ds : Int), 0⟩, r)

/-- The decimal instance of the float library. -/
def decimalLib : FloatLib Decimal := ⟨⟨0, 0⟩, scan_decimal⟩

/-! ## obj.h: the data model of the geometry loader -/

/-- Error codes of the OBJ loader. -/
inductive CJellyFormat3dObjError where
  | SUCCESS
  | ERR_FILE_NOT_FOUND
  | ERR_OUT_OF_MEMORY
  | ERR_INVALID_FORMAT
  deriving DecidableEq

/-- A vertex. -/
structure CJellyFormat3dObjVertex (F : Type) where
  x : F
  y : F
  z : F
  deriving DecidableEq

/-- A texture coordinate. -/
structure CJellyFormat3dObjTexCoord (F : Type) where
  u : F
  v : F
  deriving DecidableEq

/-- A normal. -/
structure CJellyFormat3dObjNormal (F : Type) where
  x : F
  y : F
  z : F
  deriving DecidableEq

/-- A face: the entries `vertex[0..count)`, `texcoord[0..count)`, `normal[0..count)` written
so far, and `count`.  Array slots at `count` and beyond are never written by the loader and
are not represented. -/
structure CJellyFormat3dObjFace where
  vertex : List Int
  texcoord : List Int
  normal : List Int
  count : Nat
  deriving DecidableEq

/-- A group or object. -/
structure CJellyFormat3dObjGroup where
  name : List Char
  start_face : Nat
  face_count : Nat
  deriving DecidableEq

/-- The model: each array with its capacity; the `*_count` fields are the lengths. -/
structure CJellyFormat3dObjModel (F : Type) where
  vertices : List (CJellyFormat3dObjVertex F)
  vertex_capacity : Nat
  texcoords : List (CJellyFormat3dObjTexCoord F)
  texcoord_capacity : Nat
  normals : List (CJellyFormat3dObjNormal F)
  normal_capacity : Nat
  faces : List CJellyFormat3dObjFace
  face_capacity : Nat
  groups : List CJellyFormat3dObjGroup
  group_capacity : Nat
  mtllib : List Char
  deriving DecidableEq

/-- Field `vertex_count`. -/
def CJellyFormat3dObjModel.vertex_count {F : Type} (m : CJellyFormat3dObjModel F) : Nat :=
  m.vertices.length

/-- Field `texcoord_count`. -/
def CJellyFormat3dObjModel.texcoord_count {F : Type} (m : CJellyFormat3dObjModel F) : Nat :=
  m.texcoords.length

/-- Field `normal_count`. -/
def CJellyFormat3dObjModel.normal_count {F : Type} (m : CJellyFormat3dObjModel F) : Nat :=
  m.normals.length

/-- Field `face_count`. -/
def CJellyFormat3dObjModel.face_count {F : Type} (m : CJellyFormat3dObjModel F) : Nat :=
  m.faces.length

/-- Field `group_count`. -/
def CJellyFormat3dObjModel.group_count {F : Type} (m : CJellyFormat3dObjModel F) : Nat :=
  m.groups.length

/-! ## obj.c: the face line -/

/-- The body of the `if (strchr(token, '/')) ... else ...` statement of the face loop: the
values of `vIndex`, `vtIndex`, `vnIndex` after it.  A token with a slash is copied into
`temp[64]` (its first 63 characters), its slashes are replaced by spaces and three integers
are scanned; when fewer than three are found `vtIndex` is reset to 0. -/
def parse_corner (token : List Char) : Int × Int × Int :=
  if '/' ∈ token then
    let temp := (token.take 63).map (fun c => if c = '/' then ' ' else c)
    match sscanf_ddd temp 0 0 0 with
    | (count, vIndex, vtIndex, vnIndex) => (vIndex, if count < 3 then 0 else vtIndex, vnIndex)
  else
    (atoi token, 0, 0)

/-- One iteration of the face loop: convert the indices of `token` and store them at
position `face.count`. -/
def add_corner (face : CJellyFormat3dObjFace) (token : List Char) : CJellyFormat3dObjFace :=
  match parse_corner token with
  | (vIndex, vtIndex, vnIndex) =>
    { vertex := face.vertex ++ [vIndex - 1]
      texcoord := face.texcoord ++ [if vtIndex ≠ 0 then vtIndex - 1 else -1]
      normal := face.normal ++ [if vnIndex ≠ 0 then vnIndex - 1 else -1]
      count := face.count + 1 }

/-- The loop `while (token != NULL && face.count < 4)` over the tokens still to come. -/
def face_loop : List (List Char) → CJellyFormat3dObjFace → CJellyFormat3dObjFace
  | [], face => face
  | token :: rest, face => if face.count < 4 then face_loop rest (add_corner face token) else face

/-- The face built from a line that starts with `f `. -/
def parse_face (line : List Char) : CJellyFormat3dObjFace :=
  face_loop (strtok_all (line.drop 2)) ⟨[], [], [], 0⟩

/-! ## obj.c: the loader -/

/-- The variables of the read loop: the model under construction, `current_group`, and the
number of allocation requests made so far. -/
structure ObjState (F : Type) where
  model : CJellyFormat3dObjModel F
  current_group : Int
  nalloc : Nat

/-- The statement `groups[i].face_count++`. -/
def incr_face_count : Nat → List CJellyFormat3dObjGroup → List CJellyFormat3dObjGroup
  | _, [] => []
  | 0, g :: gs => { g with face_count := g.face_count + 1 } :: gs
  | i + 1, g :: gs => g :: incr_face_count i gs

/-- The growth step in front of every append, `if (count >= capacity) { capacity *= 2;
realloc ... }`: the new capacity and number of allocation requests, or `none` when the
reallocation fails. -/
def grow (alloc : Nat → Bool) (count capacity nalloc : Nat) : Option (Nat × Nat) :=
  if count ≥ capacity then
    if alloc nalloc then some (capacity * 2, nalloc + 1) else none
  else some (capacity, nalloc)

/-- The body of the read loop of `cjelly_format_3d_obj_load` for one buffer `raw` returned by
`fgets`: the state after it, or the error code of the early `return`. -/
def obj_line {F : Type} (L : FloatLib F) (alloc : Nat → Bool) (st : ObjState F)
    (raw : List Char) : Except CJellyFormat3dObjError (ObjState F) :=
  let line := chomp raw
  let model := st.model
  if strncmp_eq line "v " then
    match sscanf_fff L (line.drop 2) with
    | some (x, y, z) =>
      match grow alloc model.vertices.length model.vertex_capacity st.nalloc with
      | none => .error .ERR_OUT_OF_MEMORY
      | some (cap, n) =>
        .ok { st with
          model := { model with vertex_capacity := cap, vertices := model.vertices ++ [⟨x, y, z⟩] }
          nalloc := n }
    | none => .ok st
  else if strncmp_eq line "vt " then
    match sscanf_ff L (line.drop 3) with
    | some (u, v) =>
      match grow alloc model.texcoords.length model.texcoord_capacity st.nalloc with
      | none => .error .ERR_OUT_OF_MEMORY
      | some (cap, n) =>
        .ok { st with
          model := { model with texcoord_capacity := cap, texcoords := model.texcoords ++ [⟨u, v⟩] }
          nalloc := n }
    | none => .ok st
  else if strncmp_eq line "vn " then
    match sscanf_fff L (line.drop 3) with
    | some (x, y, z) =>
      match grow alloc model.normals.length model.normal_capacity st.nalloc with
      | none => .error .ERR_OUT_OF_MEMORY
      | some (cap, n) =>
        .ok { st with
          model := { model with normal_capacity := cap, normals := model.normals ++ [⟨x, y, z⟩] }
          nalloc := n }
    | none => .ok st
  else if strncmp_eq line "f " then
    let face := parse_face line
    match grow alloc model.faces.length model.face_capacity st.nalloc with
    | none => .error .ERR_OUT_OF_MEMORY
    | some (cap, n) =>
      .ok { st with
        model := { model with
          face_capacity := cap
          faces := model.faces ++ [face]
          groups := if st.current_group ≥ 0 then incr_face_count st.current_group.toNat model.groups
                    else model.groups }
        nalloc := n }
  else if strncmp_eq line "g " || strncmp_eq line "o " then
    match scan_s 127 (line.drop 2) with
    | some name =>
      match grow alloc model.groups.length model.group_capacity st.nalloc with
      | none => .error .ERR_OUT_OF_MEMORY
      | some (cap, n) =>
        .ok { model := { model with
                group_capacity := cap
                groups := model.groups ++ [⟨name, model.faces.length, 0⟩] }
              current_group := model.groups.length
              nalloc := n }
    | none => .ok st
  else if strncmp_eq line "mtllib" then
    match scan_s 255 (line.drop 6) with
    | some name => .ok { st with model := { model with mtllib := name } }
    | none => .ok st
  else .ok st

/-- The read loop `while (fgets(line, LINE_SIZE, fp)) { ... }` over the buffers still to be
read. -/
def obj_loop {F : Type} (L : FloatLib F) (alloc : Nat → Bool) :
    List (List Char) → ObjState F → Except CJellyFormat3dObjError (ObjState F)
  | [], st => .ok st
  | raw :: rest, st =>
    match obj_line L alloc st raw with
    | .error e => .error e
    | .ok st1 => obj_loop L alloc rest st1

/-- The state at the head of the read loop, after the model and its five arrays have been
allocated (six allocation requests). -/
def obj_init (F : Type) : ObjState F :=
  { model :=
      { vertices := [], vertex_capacity := 128
        texcoords := [], texcoord_capacity := 128
        normals := [], normal_capacity := 128
        faces := [], face_capacity := 128
        groups := [], group_capacity := 16
        mtllib := [] }
    current_group := -1
    nalloc := 6 }

/-- What a call of the loader does: it returns `err`, having stored `out` through `outModel`
(`none`: the caller's pointer is not written), or its behaviour is undefined. -/
inductive ObjOutcome (F : Type) where
  | returned (err : CJellyFormat3dObjError) (out : Option (CJellyFormat3dObjModel F))
  | undefined
  deriving DecidableEq

/-- Function `cjelly_format_3d_obj_load(filename, outModel)`.  `filename` is `none` for a null
pointer, `outModel_ok` says that `outModel` is not null, and `fopen` gives the contents of the
files that can be opened.

When one of the allocations of the vertex, texcoord, normal or face array fails, the jump
to `ERROR_OUT_OF_MEMORY` calls `cjelly_format_3d_obj_free` on a model whose later array
pointers were never assigned: that call frees indeterminate pointers. -/
def cjelly_format_3d_obj_load {F : Type} (L : FloatLib F) (alloc : Nat → Bool)
    (fopen : List Char → Option (List Char)) (filename : Option (List Char))
    (outModel_ok : Bool) : ObjOutcome F :=
  match filename with
  | none => .returned .ERR_INVALID_FORMAT none
  | some path =>
    if !outModel_ok then .returned .ERR_INVALID_FORMAT none
    else
      match fopen path with
      | none => .returned .ERR_FILE_NOT_FOUND none
      | some text =>
        if !alloc 0 then .returned .ERR_OUT_OF_MEMORY none
        else if !alloc 1 then .undefined
        else if !alloc 2 then .undefined
        else if !alloc 3 then .undefined
        else if !alloc 4 then .undefined
        else if !alloc 5 then .returned .ERR_OUT_OF_MEMORY none
        else
          match obj_loop L alloc (fgets_all text) (obj_init F) with
          | .error e => .returned e none
          | .ok st => .returned .SUCCESS (some st.model)

/-! ## mtl.h: the data model of the material loader -/

/-- Error codes of the MTL loader. -/
inductive CJellyFormat3dMtlError where
  | SUCCESS
  | ERR_FILE_NOT_FOUND
  | ERR_OUT_OF_MEMORY
  | ERR_INVALID_FORMAT
  deriving DecidableEq

/-- A material definition. -/
structure CJellyFormat3dMtlMaterial (F : Type) where
  name : List Char
  Ka : F × F × F
  Kd : F × F × F
  Ks : F × F × F
  Ns : F
  d : F
  illum : Int
  deriving DecidableEq

/-- A material library: the pointer `materials` (`none` is `NULL`, otherwise the records of
the array that have been written) and `material_count`. -/
structure CJellyFormat3dMtl (F : Type) where
  materials : Option (List (CJellyFormat3dMtlMaterial F))
  material_count : Int
  deriving DecidableEq

/-! ## mtl.c: the loader -/

/-- The array `line` after `fgets` has stored the characters `raw` and a terminating NUL at
its start; the bytes behind them keep their previous contents. -/
def fgets_store (buf raw : List Char) : List Char :=
  raw ++ NUL :: buf.drop (raw.length + 1)

/-- The C string that starts at offset `off` of the array `buf`. -/
def cstr_at (buf : List Char) (off : Nat) : List Char :=
  (buf.drop off).takeWhile (fun c => !(c = NUL))

/-- The statement `line[strcspn(line, "\r\n")] = 0`. -/
def cut_line (buf : List Char) : List Char :=
  buf.set ((cstr_at buf 0).takeWhile (fun c => !(c = '\r' || c = '\n'))).length NUL

/-- The record left by `memset(current, 0, sizeof(CJellyFormat3dMtlMaterial))`. -/
def zero_material {F : Type} (L : FloatLib F) : CJellyFormat3dMtlMaterial F :=
  { name := []
    Ka := (L.zero, L.zero, L.zero)
    Kd := (L.zero, L.zero, L.zero)
    Ks := (L.zero, L.zero, L.zero)
    Ns := L.zero
    d := L.zero
    illum := 0 }

/-- An assignment through `current`: apply `f` to the record at index `k`. -/
def update_at {α : Type} (f : α → α) : Nat → List α → List α
  | _, [] => []
  | 0, a :: as => f a :: as
  | k + 1, a :: as => a :: update_at f k as

/-- The variables of the read loop of the material loader: the array `line`, whether
`materials->materials` is null, the records written so far (`count` is their number),
`capacity`, `current` (the index of the record it points to, `none` for `NULL`) and the number
of allocation requests made so far. -/
structure MtlState (F : Type) where
  line : List Char
  null_storage : Bool
  materials : List (CJellyFormat3dMtlMaterial F)
  capacity : Nat
  current : Option Nat
  nalloc : Nat

/-- How the read loop of the material loader is left before the end of the input: by a jump
to an error label, or by undefined behaviour. -/
inductive MtlStop where
  | error (err : CJellyFormat3dMtlError)
  | undefined
  deriving DecidableEq

/-- The body of the read loop of `cjelly_format_3d_mtl_load` for one buffer `raw` returned by
`fgets`. -/
def mtl_line {F : Type} (L : FloatLib F) (alloc : Nat → Bool) (st0 : MtlState F)
    (raw : List Char) : Except MtlStop (MtlState F) :=
  let buf := cut_line (fgets_store st0.line raw)
  let line := cstr_at buf 0
  let st : MtlState F := { st0 with line := buf }
  if line.head? = some '#' ∨ line = [] then .ok st
  else if strncmp_eq line "newmtl" then
    match grow alloc st.materials.length st.capacity st.nalloc with
    | none => .error (.error .ERR_OUT_OF_MEMORY)
    | some (cap, n) =>
      if st.null_storage then .error .undefined
      else
        match scan_s 127 (cstr_at buf 7) with
        | none => .error (.error .ERR_INVALID_FORMAT)
        | some name =>
          .ok { st with
            capacity := cap
            nalloc := n
            current := some st.materials.length
            materials := st.materials ++ [{ zero_material L with name := name }] }
  else
    match st.current with
    | none => .ok st
    | some k =>
      if strncmp_eq line "Ka" then
        match sscanf_fff L (cstr_at buf 2) with
        | none => .error (.error .ERR_INVALID_FORMAT)
        | some v => .ok { st with materials := update_at (fun m => { m with Ka := v }) k st.materials }
      else if strncmp_eq line "Kd" then
        match sscanf_fff L (cstr_at buf 2) with
        | none => .error (.error .ERR_INVALID_FORMAT)
        | some v => .ok { st with materials := update_at (fun m => { m with Kd := v }) k st.materials }
      else if strncmp_eq line "Ks" then
        match sscanf_fff L (cstr_at buf 2) with
        | none => .error (.error .ERR_INVALID_FORMAT)
        | some v => .ok { st with materials := update_at (fun m => { m with Ks := v }) k st.materials }
      else if strncmp_eq line "Ns" then
        match sscanf_f L (cstr_at buf 2) with
        | none => .error (.error .ERR_INVALID_FORMAT)
        | some v => .ok { st with materials := update_at (fun m => { m with Ns := v }) k st.materials }
      else if line.head? = some 'd' ∧ (line.get? 1 = some ' ' ∨ line.get? 1 = some '\t') then
        match sscanf_f L (cstr_at buf 1) with
        | none => .error (.error .ERR_INVALID_FORMAT)
        | some v => .ok { st with materials := update_at (fun m => { m with d := v }) k st.materials }
      else if strncmp_eq line "illum" then
        match scan_d (cstr_at buf 5) with
        | none => .error (.error .ERR_INVALID_FORMAT)
        | some (v, _) =>
          .ok { st with materials := update_at (fun m => { m with illum := v }) k st.materials }
      else .ok st

/-- The read loop of the material loader over the buffers still to be read. -/
def mtl_loop {F : Type} (L : FloatLib F) (alloc : Nat → Bool) :
    List (List Char) → MtlState F → Except MtlStop (MtlState F)
  | [], st => .ok st
  | raw :: rest, st =>
    match mtl_line L alloc st raw with
    | .error e => .error e
    | .ok st1 => mtl_loop L alloc rest st1

/-- The state at the head of the read loop of the material loader.  The result of the first
`malloc` is stored without being tested (the test that follows it is on `materials`, which
is known not to be null), so a failed allocation leaves null storage.  `line0` is the
indeterminate initial content of the array `line`. -/
def mtl_init (F : Type) (alloc : Nat → Bool) (line0 : List Char) : MtlState F :=
  { line := line0
    null_storage := !alloc 0
    materials := []
    capacity := 10
    current := none
    nalloc := 1 }

/-- What a call of the material loader does: it returns `err` and leaves the caller's library
as `lib` (`none` when the pointer `materials` is null), or its behaviour is undefined. -/
inductive MtlOutcome (F : Type) where
  | returned (err : CJellyFormat3dMtlError) (lib : Option (CJellyFormat3dMtl F))
  | undefined
  deriving DecidableEq

/-- Function `cjelly_format_3d_mtl_load(filename, materials)`.  `filename` is `none` for a null
pointer; `materials` is `none` for a null pointer and otherwise the caller's library as it is
before the call. -/
def cjelly_format_3d_mtl_load {F : Type} (L : FloatLib F) (alloc : Nat → Bool)
    (fopen : List Char → Option (List Char)) (line0 : List Char)
    (filename : Option (List Char)) (materials : Option (CJellyFormat3dMtl F)) : MtlOutcome F :=
  match filename, materials with
  | none, _ => .returned .ERR_INVALID_FORMAT materials
  | some _, none => .returned .ERR_INVALID_FORMAT none
  | some path, some _ =>
    match fopen path with
    | none => .returned .ERR_FILE_NOT_FOUND (some ⟨none, 0⟩)
    | some text =>
      match mtl_loop L alloc (fgets_all text) (mtl_init F alloc line0) with
      | .error (.error err) => .returned err (some ⟨none, 0⟩)
      | .error .undefined => .undefined
      | .ok st =>
        .returned .SUCCESS
          (some ⟨if st.null_storage then none else some st.materials, st.materials.length⟩)

/-! ## The error-to-text functions -/

/-- The integer value of an error code of the geometry loader: the enumeration of `obj.h`
starts at 0. -/
def CJellyFormat3dObjError.code : CJellyFormat3dObjError → Int
  | .SUCCESS => 0
  | .ERR_FILE_NOT_FOUND => 1
  | .ERR_OUT_OF_MEMORY => 2
  | .ERR_INVALID_FORMAT => 3

/-- The integer value of an error code of the material loader: the enumeration of `mtl.h`
starts at 0. -/
def CJellyFormat3dMtlError.code : CJellyFormat3dMtlError → Int
  | .SUCCESS => 0
  | .ERR_FILE_NOT_FOUND => 1
  | .ERR_OUT_OF_MEMORY => 2
  | .ERR_INVALID_FORMAT => 3

/-- Function `cjelly_format_3d_obj_strerror(err)`.  The argument is the integer value of `err`:
a C caller can pass any value of the enumeration's integer type, and the `switch` has a
`default` label for the values that are no enumerator. -/
def cjelly_format_3d_obj_strerror (err : Int) : String :=
  if err = CJellyFormat3dObjError.SUCCESS.code then "No error"
  else if err = CJellyFormat3dObjError.ERR_FILE_NOT_FOUND.code then "OBJ file not found"
  else if err = CJellyFormat3dObjError.ERR_OUT_OF_MEMORY.code then "Out of memory"
  else if err = CJellyFormat3dObjError.ERR_INVALID_FORMAT.code then "Invalid OBJ file format"
  else "Unknown error"

/-- Function `cjelly_format_3d_mtl_strerror(err)`, on the integer value of `err`. -/
def cjelly_format_3d_mtl_strerror (err : Int) : String :=
  if err = CJellyFormat3dMtlError.SUCCESS.code then "No error"
  else if err = CJellyFormat3dMtlError.ERR_FILE_NOT_FOUND.code then "Material file not found"
  else if err = CJellyFormat3dMtlError.ERR_OUT_OF_MEMORY.code then "Out of memory"
  else if err = CJellyFormat3dMtlError.ERR_INVALID_FORMAT.code then "Invalid material file format"
  else "Unknown error"

/-! ## mtl.c: the release function -/

/-- The memory that `cjelly_format_3d_mtl_free` works on: the two fields of the structure its
argument points to (`materials` is the address of the array, `none` for `NULL`), and the
addresses of the blocks that are allocated and not yet freed. -/
structure MtlMemory where
  materials : Option Nat
  material_count : Int
  live : List Nat
  deriving DecidableEq

/-- Function `free(p)` of the C library on the blocks `live`: nothing happens for `NULL`, an
allocated block is released, and for any other pointer the behaviour is undefined (`none`). -/
def free (live : List Nat) (p : Option Nat) : Option (List Nat) :=
  match p with
  | none => some live
  | some a => if a ∈ live then some (live.filter (fun b => b ≠ a)) else none

/-- Function `cjelly_format_3d_mtl_free(materials)` for an argument that points to a
structure: `free(materials->materials)`, then the pointer is set to `NULL` and the count to
0.  The result is `none` when the behaviour is undefined. -/
def cjelly_format_3d_mtl_free (mem : MtlMemory) : Option MtlMemory :=
  match free mem.live mem.materials with
  | none => none
  | some live => some { materials := none, material_count := 0, live := live }

/-! ## Notions used to state the properties -/

/-- The decimal numeral of an integer: a minus sign for a negative one, then the digits of
its absolute value without leading zeros. -/
def int_token (i : Int) : List Char :=
  if i < 0 then '-' :: Nat.toDigits 10 i.natAbs else Nat.toDigits 10 i.natAbs

/-- A run of characters that are all decimal digits. -/
def AllDigits (ds : List Char) : Prop := ∀ c ∈ ds, isdigit c = true

/-- What may follow a numeral for the scan to stop there: the end of the string or a
character that is not a digit. -/
def NoDigitHead (rest : List Char) : Prop := ∀ c, rest.head? = some c → isdigit c = false

/-- The integers `i` of type `int` for which `i - 1` is an `int` as well. -/
def IntRange (i : Int) : Prop := -2147483648 < i ∧ i ≤ 2147483647

/-- The fields of `s` for the separators `sep`: the non-empty maximal runs of characters that
are not separators, in order. -/
def fields (sep : Char → Bool) (s : List Char) : List (List Char) :=
  (s.splitOnP sep).filter (fun t => !t.isEmpty)

/-- An input file for every file name. -/
def one_file (text : String) : List Char → Option (List Char) := fun _ => some text.toList

/-- The allocator that never fails. -/
def alloc_ok : Nat → Bool := fun _ => true

/-- The vertex that a buffer contributes: the three floats of a `v ` line that scans. -/
def vertex_of {F : Type} (L : FloatLib F) (raw : List Char) : Option (CJellyFormat3dObjVertex F) :=
  if strncmp_eq (chomp raw) "v " then
    (sscanf_fff L ((chomp raw).drop 2)).map (fun p => ⟨p.1, p.2.1, p.2.2⟩)
  else none

/-- The texture coordinate that a buffer contributes: the two floats of a `vt ` line that
scans. -/
def texcoord_of {F : Type} (L : FloatLib F) (raw : List Char) :
    Option (CJellyFormat3dObjTexCoord F) :=
  if strncmp_eq (chomp raw) "vt " then
    (sscanf_ff L ((chomp raw).drop 3)).map (fun p => ⟨p.1, p.2⟩)
  else none

/-- The normal that a buffer contributes: the three floats of a `vn ` line that scans. -/
def normal_of {F : Type} (L : FloatLib F) (raw : List Char) : Option (CJellyFormat3dObjNormal F) :=
  if strncmp_eq (chomp raw) "vn " then
    (sscanf_fff L ((chomp raw).drop 3)).map (fun p => ⟨p.1, p.2.1, p.2.2⟩)
  else none

/-- The face that a buffer contributes: every `f ` line gives one. -/
def face_of (raw : List Char) : Option CJellyFormat3dObjFace :=
  if strncmp_eq (chomp raw) "f " then some (parse_face (chomp raw)) else none

/-- The group name that a buffer declares: the name token of a `g ` or `o ` line that has
one. -/
def group_of (raw : List Char) : Option (List Char) :=
  if strncmp_eq (chomp raw) "g " || strncmp_eq (chomp raw) "o " then scan_s 127 ((chomp raw).drop 2)
  else none

/-- The library name that a buffer declares: the token of a `mtllib` line that has one. -/
def mtllib_of (raw : List Char) : Option (List Char) :=
  if strncmp_eq (chomp raw) "mtllib" then scan_s 255 ((chomp raw).drop 6) else none

/-- Consecutive groups are adjacent: the first ends where the second starts. -/
def Adjacent (a b : CJellyFormat3dObjGroup) : Prop := a.start_face + a.face_count = b.start_face

/-- The invariant of the read loop on groups: `current_group` is the index of the last group
(`-1` when there is none), consecutive groups are adjacent, and the last group ends at the
current number of faces. -/
def GroupsInv {F : Type} (st : ObjState F) : Prop :=
  st.current_group = (st.model.groups.length : Int) - 1 ∧
  List.Chain' Adjacent st.model.groups ∧
  ∀ g, st.model.groups.getLast? = some g → g.start_face + g.face_count = st.model.faces.length

/-- The buffer holds a `newmtl` line: it starts a new material. -/
def is_newmtl (raw : List Char) : Bool := strncmp_eq (chomp raw) "newmtl"

/-- The buffer holds a line that the material loader dispatches to the ambient color. -/
def sets_Ka (raw : List Char) : Bool := strncmp_eq (chomp raw) "Ka"

/-- The buffer holds a line that the material loader dispatches to the diffuse color. -/
def sets_Kd (raw : List Char) : Bool := strncmp_eq (chomp raw) "Kd"

/-- The buffer holds a line that the material loader dispatches to the specular color. -/
def sets_Ks (raw : List Char) : Bool := strncmp_eq (chomp raw) "Ks"

/-- The buffer holds a line that the material loader dispatches to the specular exponent. -/
def sets_Ns (raw : List Char) : Bool := strncmp_eq (chomp raw) "Ns"

/-- The buffer holds a line that the material loader dispatches to the dissolve: `d` followed
by a space or a tab. -/
def sets_d (raw : List Char) : Bool :=
  (chomp raw).head? = some 'd' ∧ ((chomp raw).get? 1 = some ' ' ∨ (chomp raw).get? 1 = some '\t')

/-- The buffer holds a line that the material loader dispatches to the illumination model. -/
def sets_illum (raw : List Char) : Bool := strncmp_eq (chomp raw) "illum"

/-- The variables of the read loop of the material loader other than the array `line`. -/
def MtlState.vars {F : Type} (st : MtlState F) :
    Bool × List (CJellyFormat3dMtlMaterial F) × Nat × Option Nat × Nat :=
  (st.null_storage, st.materials, st.capacity, st.current, st.nalloc)

/-- Every `newmtl` line of the buffers has a character behind the keyword, so that the name
is scanned inside the line. -/
def NamesInLine (lines : List (List Char)) : Prop :=
  ∀ raw ∈ lines, is_newmtl raw = true → 7 ≤ (chomp raw).length

/-- The allocator whose first request fails and whose later requests succeed. -/
def alloc_first_fails : Nat → Bool := fun k => decide (k ≠ 0)

/-- The buffer holds a line that the material loader skips: a comment or an empty line. -/
def is_skipped (raw : List Char) : Bool :=
  (chomp raw).head? = some '#' ∨ chomp raw = []

/-- What a line does to the current material once it is neither skipped nor a `newmtl` line:
`none` when it is dispatched to no field, `some none` when it is dispatched to a field and its
payload does not scan, `some (some f)` when the payload scans and `f` is the assignment. -/
def property_update {F : Type} (L : FloatLib F) (raw : List Char) :
    Option (Option (CJellyFormat3dMtlMaterial F → CJellyFormat3dMtlMaterial F)) :=
  if sets_Ka raw then
    some ((sscanf_fff L ((chomp raw).drop 2)).map (fun v m => { m with Ka := v }))
  else if sets_Kd raw then
    some ((sscanf_fff L ((chomp raw).drop 2)).map (fun v m => { m with Kd := v }))
  else if sets_Ks raw then
    some ((sscanf_fff L ((chomp raw).drop 2)).map (fun v m => { m with Ks := v }))
  else if sets_Ns raw then
    some ((sscanf_f L ((chomp raw).drop 2)).map (fun v m => { m with Ns := v }))
  else if sets_d raw then
    some ((sscanf_f L ((chomp raw).drop 1)).map (fun v m => { m with d := v }))
  else if sets_illum raw then
    some ((scan_d ((chomp raw).drop 5)).map (fun p m => { m with illum := p.1 }))
  else none

/-- A property line whose payload does not scan into the values its keyword expects. -/
def Malformed {F : Type} (L : FloatLib F) (raw : List Char) : Prop :=
  (sets_Ka raw = true ∧ sscanf_fff L ((chomp raw).drop 2) = none) ∨
  (sets_Kd raw = true ∧ sscanf_fff L ((chomp raw).drop 2) = none) ∨
  (sets_Ks raw = true ∧ sscanf_fff L ((chomp raw).drop 2) = none) ∨
  (sets_Ns raw = true ∧ sscanf_f L ((chomp raw).drop 2) = none) ∨
  (sets_d raw = true ∧ sscanf_f L ((chomp raw).drop 1) = none) ∨
  (sets_illum raw = true ∧ scan_d ((chomp raw).drop 5) = none)

/-- The invariant of the read loop of the material loader on `current`: it is null while
there is no material, and points to the last material afterwards. -/
def MtlInv {F : Type} (st : MtlState F) : Prop :=
  match st.current with
  | none => st.materials = []
  | some k => k + 1 = st.materials.length


/-- The string `token` is the first white-space-delimited token of `s`: `s` is white space,
then `token`, which is not empty and has no white space, then the end of `s` or a white-space
character. -/
def FirstToken (s token : List Char) : Prop :=
  ∃ ws rest, s = ws ++ token ++ rest ∧ (∀ c ∈ ws, isspace c = true) ∧ token ≠ [] ∧
    (∀ c ∈ token, isspace c = false) ∧ (∀ c, rest.head? = some c → isspace c = true)

/-- The capacity `cap` of a sequence of `count` elements that starts with the capacity `base`
and doubles: the count is within the capacity, and the capacity is the smallest number of the
form `base * 2 ^ k` that is at least the count. -/
def CapInv (base count cap : Nat) : Prop :=
  count ≤ cap ∧ ∃ k, cap = base * 2 ^ k ∧ ∀ j, count ≤ base * 2 ^ j → cap ≤ base * 2 ^ j

/-- The capacity invariant of the five sequences of a model. -/
def ObjCaps {F : Type} (m : CJellyFormat3dObjModel F) : Prop :=
  CapInv 128 m.vertex_count m.vertex_capacity ∧
  CapInv 128 m.texcoord_count m.texcoord_capacity ∧
  CapInv 128 m.normal_count m.normal_capacity ∧
  CapInv 128 m.face_count m.face_capacity ∧
  CapInv 16 m.group_count m.group_capacity

/-- The text whose lines are `ls`, each terminated by a newline. -/
def lf_text (ls : List (List Char)) : List Char := (ls.map (fun l => l ++ ['\n'])).flatten

/-- The text whose lines are `ls`, each terminated by a carriage return and a newline. -/
def crlf_text (ls : List (List Char)) : List Char :=
  (ls.map (fun l => l ++ ['\r', '\n'])).flatten

/-- A read loop `while (fgets(...)) { ... }` with the body `step`, over the buffers still to
be read; `obj_loop` and `mtl_loop` are of this form. -/
def read_loop {S E : Type} (step : S → List Char → Except E S) :
    List (List Char) → S → Except E S
  | [], s => .ok s
  | raw :: rest, s =>
    match step s raw with
    | .error e => .error e
    | .ok s1 => read_loop step rest s1

/-- The C string that the name of a `newmtl` line is scanned from when the buffer `raw` has
at least 7 characters: what follows the 7th character of the line, and, when the line was cut
right behind the keyword, what follows the character at which it was cut. -/
def name_text (raw : List Char) : List Char :=
  if 7 ≤ (chomp raw).length then (chomp raw).drop 7
  else (raw.drop 7).takeWhile (fun c => !(c = NUL))

/-- The lines of a text from the position reached: a line runs up to and including the next
newline, and the last line may lack it.  `cur` holds, reversed, the characters of the line
being read. -/
def lines_from : List Char → List Char → List (List Char)
  | [], cur => if cur = [] then [] else [cur.reverse]
  | c :: cs, cur =>
    if c = '\n' then (c :: cur).reverse :: lines_from cs [] else lines_from cs (c :: cur)

/-- The lines of a text, each with its terminator. -/
def text_lines (text : List Char) : List (List Char) := lines_from text []

/-- Every line of the text, its terminator included, has at most 255 characters: it fits
into the array `line` of `LINE_SIZE` bytes, so that `fgets` reads it in one piece. -/
def ShortLines (text : List Char) : Prop := ∀ l ∈ text_lines text, l.length ≤ 255
/-! ## Decimal numerals and the integer scan -/

theorem digitChar_isdigit (d : Nat) (h : d < 10) :
    isdigit (Nat.digitChar d) = true ∧ digit_value (Nat.digitChar d) = d := by
  interval_cases d <;> decide

theorem digits_value_snoc (ds : List Char) (c : Char) :
    digits_value (ds ++ [c]) = 10 * digits_value ds + digit_value c := by
  simp [digits_value, List.foldl_append]

theorem toDigitsCore_spec : ∀ (fuel n : Nat) (acc : List Char), n < fuel →
    ∃ ds, Nat.toDigitsCore 10 fuel n acc = ds ++ acc ∧ ds ≠ [] ∧ AllDigits ds ∧
      digits_value ds = n ∧ (ds.length = 1 ∨ 10 ^ (ds.length - 1) ≤ n) := by
  intro fuel
  induction fuel with
  | zero => intro n acc h; omega
  | succ f ih =>
    intro n acc h
    have hd := digitChar_isdigit (n % 10) (Nat.mod_lt _ (by decide))
    by_cases h0 : n / 10 = 0
    · refine ⟨[Nat.digitChar (n % 10)], ?_, by simp, ?_, ?_, Or.inl rfl⟩
      · simp [Nat.toDigitsCore, h0]
      · intro c hc
        simp at hc
        rw [hc]; exact hd.1
      · simp [digits_value, hd.2]
        omega
    · obtain ⟨ds, h1, h2, h3, h4, h5⟩ := ih (n / 10) (Nat.digitChar (n % 10) :: acc) (by omega)
      refine ⟨ds ++ [Nat.digitChar (n % 10)], ?_, by simp, ?_, ?_, Or.inr ?_⟩
      · simp [Nat.toDigitsCore, h0, h1]
      · intro c hc
        rcases List.mem_append.1 hc with hc | hc
        · exact h3 c hc
        · simp at hc
          rw [hc]; exact hd.1
      · rw [digits_value_snoc, h4, hd.2]
        omega
      · simp only [List.length_append, List.length_singleton, Nat.add_sub_cancel]
        rcases h5 with h5 | h5
        · rw [h5]; omega
        · have hl : 1 ≤ ds.length := by
            cases ds with
            | nil => exact absurd rfl h2
            | cons a t => simp
          have : 10 ^ ds.length = 10 * 10 ^ (ds.length - 1) := by
            rw [← pow_succ']
            congr 1
            omega
          omega

theorem toDigits_spec (n : Nat) :
    ∃ ds, Nat.toDigits 10 n = ds ∧ ds ≠ [] ∧ AllDigits ds ∧
      digits_value ds = n ∧ (ds.length = 1 ∨ 10 ^ (ds.length - 1) ≤ n) := by
  obtain ⟨ds, h1, h2⟩ := toDigitsCore_spec (n + 1) n [] (by omega)
  exact ⟨ds, by simpa [Nat.toDigits] using h1, h2⟩

theorem isdigit_ne_of_not (c d : Char) (h : isdigit c = true) (hd : isdigit d = false) : c ≠ d := by
  rintro rfl
  simp [h] at hd

theorem isdigit_not_space (c : Char) (h : isdigit c = true) :
    isspace c = false ∧ c ≠ '-' ∧ c ≠ '+' ∧ c ≠ '/' ∧ c ≠ ' ' := by
  have e1 := isdigit_ne_of_not c ' ' h (by decide)
  have e2 := isdigit_ne_of_not c '\t' h (by decide)
  have e3 := isdigit_ne_of_not c '\n' h (by decide)
  have e4 := isdigit_ne_of_not c (Char.ofNat 11) h (by decide)
  have e5 := isdigit_ne_of_not c (Char.ofNat 12) h (by decide)
  have e6 := isdigit_ne_of_not c '\r' h (by decide)
  refine ⟨?_, isdigit_ne_of_not c '-' h (by decide), isdigit_ne_of_not c '+' h (by decide),
    isdigit_ne_of_not c '/' h (by decide), e1⟩
  simp [isspace, e1, e2, e3, e4, e5, e6]

theorem span_digits (ds rest : List Char) (h : AllDigits ds) (hr : NoDigitHead rest) :
    (ds ++ rest).takeWhile isdigit = ds ∧ (ds ++ rest).dropWhile isdigit = rest := by
  induction ds with
  | nil =>
    cases rest with
    | nil => simp
    | cons c t =>
      have hc : isdigit c = false := hr c rfl
      simp [List.takeWhile, List.dropWhile, hc]
  | cons d t ih =>
    have hd : isdigit d = true := h d (by simp)
    have ih1 := ih (fun c hc => h c (by simp [hc]))
    simp [List.takeWhile, List.dropWhile, hd, ih1.1, ih1.2]

theorem scan_d_digits (ds rest : List Char) (hne : ds ≠ []) (h : AllDigits ds)
    (hr : NoDigitHead rest) :
    scan_d (ds ++ rest) = some ((digits_value ds : Int), rest) ∧
    scan_d ('-' :: (ds ++ rest)) = some (-(digits_value ds : Int), rest) := by
  obtain ⟨d, t, rfl⟩ := List.exists_cons_of_ne_nil hne
  have hd : isdigit d = true := h d (by simp)
  obtain ⟨s1, s2, s3, -, -⟩ := isdigit_not_space d hd
  have sp := span_digits (d :: t) rest h hr
  simp only [List.cons_append] at sp
  have hm : isspace '-' = false := by decide
  constructor
  · have : (d :: t ++ rest).dropWhile isspace = d :: t ++ rest := by
      simp [List.dropWhile, s1]
    simp only [scan_d, this]
    simp [s2, s3, hd, sp.1, sp.2]
  · have : ('-' :: (d :: t ++ rest)).dropWhile isspace = '-' :: (d :: t ++ rest) := by
      simp [List.dropWhile, hm]
    simp only [scan_d, this]
    simp [hd, sp.1, sp.2]

theorem scan_d_space (s : List Char) : scan_d (' ' :: s) = scan_d s := by
  have : isspace ' ' = true := by decide
  simp [scan_d, List.dropWhile, this]

/-- The characters of a decimal numeral: digits after an optional minus sign; its value. -/
theorem int_token_spec (i : Int) :
    ∃ ds, ds ≠ [] ∧ AllDigits ds ∧ (digits_value ds : Int) = |i| ∧
      (ds.length = 1 ∨ 10 ^ (ds.length - 1) ≤ i.natAbs) ∧
      int_token i = if i < 0 then '-' :: ds else ds := by
  obtain ⟨ds, h1, h2, h3, h4, h5⟩ := toDigits_spec i.natAbs
  refine ⟨ds, h2, h3, ?_, h5, ?_⟩
  · rw [h4]; simp
  · simp [int_token, h1]

theorem scan_d_int_token (i : Int) (rest : List Char) (hr : NoDigitHead rest) :
    scan_d (int_token i ++ rest) = some (i, rest) := by
  obtain ⟨ds, h1, h2, h3, -, h5⟩ := int_token_spec i
  have := scan_d_digits ds rest h1 h2 hr
  by_cases hi : i < 0
  · rw [h5, if_pos hi, List.cons_append, this.2, h3, abs_of_neg hi, neg_neg]
  · rw [h5, if_neg hi, this.1, h3, abs_of_nonneg (not_lt.1 hi)]

theorem int_token_no_slash (i : Int) : ∀ c ∈ int_token i, c ≠ '/' ∧ c ≠ ' ' := by
  obtain ⟨ds, -, h2, -, -, h5⟩ := int_token_spec i
  intro c hc
  have hds : ∀ c ∈ ds, c ≠ '/' ∧ c ≠ ' ' := fun c hc =>
    ⟨(isdigit_not_space c (h2 c hc)).2.2.2.1, (isdigit_not_space c (h2 c hc)).2.2.2.2⟩
  rw [h5] at hc
  split at hc
  · rcases List.mem_cons.1 hc with rfl | hc
    · exact ⟨by decide, by decide⟩
    · exact hds c hc
  · exact hds c hc

theorem int_token_length (i : Int) (hi : IntRange i) : (int_token i).length ≤ 11 := by
  obtain ⟨ds, -, -, -, h4, h5⟩ := int_token_spec i
  have hn : i.natAbs < 10 ^ 10 := by
    have := hi.1
    have := hi.2
    omega
  have hl : ds.length ≤ 10 := by
    rcases h4 with h4 | h4
    · omega
    · by_contra hcon
      have : 10 ^ 10 ≤ 10 ^ (ds.length - 1) := Nat.pow_le_pow_right (by decide) (by omega)
      omega
  rw [h5]
  split <;> simp <;> omega

/-! ## Reading the file line by line -/

theorem fgets_from_line (l rest cur : List Char) (hl : '\n' ∉ l)
    (hlen : cur.length + l.length + 1 ≤ 255) :
    fgets_from (l ++ '\n' :: rest) cur = (cur.reverse ++ l ++ ['\n']) :: fgets_from rest [] := by
  induction l generalizing cur with
  | nil => simp [fgets_from]
  | cons c l ih =>
    have hc : c ≠ '\n' := fun h => hl (by simp [h])
    have hl1 : '\n' ∉ l := fun h => hl (by simp [h])
    have hlen1 : ¬ (cur.length + 1 = LINE_SIZE - 1) := by
      simp only [List.length_cons] at hlen
      simp only [LINE_SIZE]
      omega
    have := ih (c :: cur) hl1 (by simp only [List.length_cons] at hlen ⊢; omega)
    simp [fgets_from, hc, hlen1, this]

/-- A text whose lines are shorter than 255 characters, each ended by a newline, is read one
line per buffer. -/
theorem fgets_all_lines (ls : List (List Char))
    (h : ∀ l ∈ ls, '\n' ∉ l ∧ l.length < 255) :
    fgets_all ((ls.map (fun l => l ++ ['\n'])).flatten) = ls.map (fun l => l ++ ['\n']) := by
  unfold fgets_all
  induction ls with
  | nil => rfl
  | cons l ls ih =>
    have h1 := h l (by simp)
    have := fgets_from_line l ((ls.map (fun l => l ++ ['\n'])).flatten) [] h1.1
      (by simp; omega)
    simp only [List.map_cons, List.flatten_cons, List.append_assoc, List.singleton_append]
    rw [this, ih (fun l hl => h l (by simp [hl]))]
    simp

theorem lines_from_head_length (cs cur : List Char) (h : cs ≠ []) :
    ∃ l ∈ lines_from cs cur, cur.length + 1 ≤ l.length := by
  induction cs generalizing cur with
  | nil => exact absurd rfl h
  | cons c cs ih =>
    by_cases hc : c = '\n'
    · refine ⟨(c :: cur).reverse, ?_, by simp⟩
      rw [lines_from, if_pos hc]
      simp
    · rw [lines_from, if_neg hc]
      by_cases hcs : cs = []
      · subst hcs
        refine ⟨(c :: cur).reverse, ?_, by simp⟩
        simp [lines_from]
      · obtain ⟨l, hl, hlen⟩ := ih (c :: cur) hcs
        exact ⟨l, hl, by simp only [List.length_cons] at hlen; omega⟩

theorem fgets_from_short (text cur : List Char)
    (h : ∀ l ∈ lines_from text cur, l.length ≤ 255) :
    fgets_from text cur = lines_from text cur := by
  induction text generalizing cur with
  | nil => rfl
  | cons c cs ih =>
    rw [fgets_from]
    by_cases hc : c = '\n'
    · rw [lines_from, if_pos hc] at h ⊢
      rw [if_pos (Or.inl hc), ih [] (fun l hl => h l (by simp [hl]))]
    · rw [lines_from, if_neg hc] at h ⊢
      by_cases hfull : cur.length + 1 = LINE_SIZE - 1
      · rw [if_pos (Or.inr hfull)]
        simp only [LINE_SIZE] at hfull
        by_cases hcs : cs = []
        · subst hcs
          simp [fgets_from, lines_from]
        · obtain ⟨l, hl, hlen⟩ := lines_from_head_length cs (c :: cur) hcs
          have := h l hl
          simp only [List.length_cons] at hlen
          omega
      · rw [if_neg (by simp [hc, hfull])]
        exact ih (c :: cur) h

/-- A text whose lines, terminators included, have at most 255 characters is read one line
per buffer. -/
theorem fgets_all_short (text : List Char) (h : ShortLines text) :
    fgets_all text = text_lines text :=
  fgets_from_short text [] h

/-! ## Face corners -/

theorem noDigitHead_nil : NoDigitHead [] := by
  intro c hc
  simp at hc

theorem noDigitHead_space (s : List Char) : NoDigitHead (' ' :: s) := by
  intro c hc
  simp at hc
  rw [← hc]
  decide

theorem scan_d_nil : scan_d [] = none := by decide

theorem map_slash_int_token (i : Int) :
    (int_token i).map (fun c => if c = '/' then ' ' else c) = int_token i := by
  have h := int_token_no_slash i
  calc (int_token i).map (fun c => if c = '/' then ' ' else c)
      = (int_token i).map id := List.map_congr_left (fun c hc => by simp [(h c hc).1])
    _ = int_token i := List.map_id _

theorem slash_not_mem_int_token (i : Int) : '/' ∉ int_token i :=
  fun h => (int_token_no_slash i '/' h).1 rfl

theorem scan_d_int_token_end (i : Int) : scan_d (int_token i) = some (i, []) := by
  have := scan_d_int_token i [] noDigitHead_nil
  simpa using this

theorem parse_corner_bare (i : Int) : parse_corner (int_token i) = (i, 0, 0) := by
  simp [parse_corner, slash_not_mem_int_token, atoi, scan_d_int_token_end]

theorem parse_corner_full (v vt vn : Int) (hv : IntRange v) (hvt : IntRange vt)
    (hvn : IntRange vn) :
    parse_corner (int_token v ++ '/' :: (int_token vt ++ '/' :: int_token vn)) = (v, vt, vn) := by
  have l1 := int_token_length v hv
  have l2 := int_token_length vt hvt
  have l3 := int_token_length vn hvn
  have hmem : '/' ∈ int_token v ++ '/' :: (int_token vt ++ '/' :: int_token vn) := by simp
  have htake : (int_token v ++ '/' :: (int_token vt ++ '/' :: int_token vn)).take 63
      = int_token v ++ '/' :: (int_token vt ++ '/' :: int_token vn) :=
    List.take_of_length_le (by simp; omega)
  have s1 := scan_d_int_token v (' ' :: (int_token vt ++ ' ' :: int_token vn)) (noDigitHead_space _)
  have s2 := scan_d_int_token vt (' ' :: int_token vn) (noDigitHead_space _)
  simp only [parse_corner, if_pos hmem, htake, List.map_append, List.map_cons,
    map_slash_int_token, if_true, sscanf_ddd, s1, scan_d_space, s2, scan_d_int_token_end]
  simp

theorem parse_corner_pair (v vt : Int) (hv : IntRange v) (hvt : IntRange vt) :
    parse_corner (int_token v ++ '/' :: int_token vt) = (v, 0, 0) := by
  have l1 := int_token_length v hv
  have l2 := int_token_length vt hvt
  have hmem : '/' ∈ int_token v ++ '/' :: int_token vt := by simp
  have htake : (int_token v ++ '/' :: int_token vt).take 63 = int_token v ++ '/' :: int_token vt :=
    List.take_of_length_le (by simp; omega)
  have s1 := scan_d_int_token v (' ' :: int_token vt) (noDigitHead_space _)
  simp only [parse_corner, if_pos hmem, htake, List.map_append, List.map_cons,
    map_slash_int_token, if_true, sscanf_ddd, s1, scan_d_space, scan_d_int_token_end, scan_d_nil]
  simp

theorem parse_corner_skip (v vn : Int) (hv : IntRange v) (hvn : IntRange vn) :
    parse_corner (int_token v ++ '/' :: '/' :: int_token vn) = (v, 0, 0) := by
  have l1 := int_token_length v hv
  have l2 := int_token_length vn hvn
  have hmem : '/' ∈ int_token v ++ '/' :: '/' :: int_token vn := by simp
  have htake : (int_token v ++ '/' :: '/' :: int_token vn).take 63
      = int_token v ++ '/' :: '/' :: int_token vn :=
    List.take_of_length_le (by simp; omega)
  have s1 := scan_d_int_token v (' ' :: ' ' :: int_token vn) (noDigitHead_space _)
  simp only [parse_corner, if_pos hmem, htake, List.map_append, List.map_cons,
    map_slash_int_token, if_true, sscanf_ddd, s1, scan_d_space, scan_d_int_token_end, scan_d_nil]
  simp

/-- Claim C1.  A bare integer token `i`, negative ones included, is stored as vertex index
`i - 1` with texcoord and normal `-1`; a token `v/vt/vn` of three integers is stored as vertex
`v - 1`, texcoord `vt - 1` if `vt` is non-zero and `-1` otherwise, normal `vn - 1` if `vn` is
non-zero and `-1` otherwise.  The integers are those of type `int` whose predecessor is an
`int`, written as decimal numerals.  The input of scenario A gives 3 vertices and one face
with vertex indices 0, 1, 2 and texcoord and normal indices `-1`. -/
theorem C1_face_corner_indices (face : CJellyFormat3dObjFace) (i v vt vn : Int)
    (hi : IntRange i) (hv : IntRange v) (hvt : IntRange vt) (hvn : IntRange vn) :
    add_corner face (int_token i)
      = ⟨face.vertex ++ [i - 1], face.texcoord ++ [-1], face.normal ++ [-1], face.count + 1⟩ ∧
    add_corner face (int_token v ++ '/' :: (int_token vt ++ '/' :: int_token vn))
      = ⟨face.vertex ++ [v - 1], face.texcoord ++ [if vt ≠ 0 then vt - 1 else -1],
          face.normal ++ [if vn ≠ 0 then vn - 1 else -1], face.count + 1⟩ ∧
    ∃ m, cjelly_format_3d_obj_load decimalLib alloc_ok
        (one_file "v 0 0 0\nv 1 0 0\nv 0 1 0\nf 1 2 3\n") (some "a.obj".toList) true
          = .returned .SUCCESS (some m) ∧
      m.vertex_count = 3 ∧ m.faces = [⟨[0, 1, 2], [-1, -1, -1], [-1, -1, -1], 3⟩] := by
  have _ := hi
  refine ⟨?_, ?_, ?_⟩
  · simp [add_corner, parse_corner_bare]
  · simp [add_corner, parse_corner_full v vt vn hv hvt hvn]
  · refine ⟨_, rfl, ?_, ?_⟩ <;> decide

theorem C1_face_corner_indices_witness :
    IntRange (-1) ∧ IntRange 7 ∧ IntRange 0 ∧ IntRange 3 ∧
    add_corner ⟨[], [], [], 0⟩ (int_token (-1)) = ⟨[-2], [-1], [-1], 1⟩ ∧
    add_corner ⟨[], [], [], 0⟩ (int_token 7 ++ '/' :: (int_token 0 ++ '/' :: int_token 3))
      = ⟨[6], [-1], [2], 1⟩ := by
  have h1 : IntRange (-1) := by unfold IntRange; omega
  have h2 : IntRange 7 := by unfold IntRange; omega
  have h3 : IntRange 0 := by unfold IntRange; omega
  have h4 : IntRange 3 := by unfold IntRange; omega
  have h := C1_face_corner_indices ⟨[], [], [], 0⟩ (-1) 7 0 3 h1 h2 h3 h4
  refine ⟨h1, h2, h3, h4, ?_, ?_⟩
  · rw [h.1]; simp
  · rw [h.2.1]; simp

/-- Claim C2.  What the loader does on the input of scenario B: the face line `f 1/1 2/2 3/3`
is stored with texcoord indices `-1, -1, -1`, not `0, 1, 2`.  The scan of a two-component
token finds two integers, and the branch taken when fewer than three are found resets the
texcoord index to 0, which is then stored as absent. -/
theorem C2_two_component_texcoord_lost :
    ∃ m, cjelly_format_3d_obj_load decimalLib alloc_ok
        (one_file "v 0 0 0\nv 1 0 0\nv 0 1 0\nvt 0 0\nvt 1 0\nvt 0 1\nf 1/1 2/2 3/3\n")
        (some "b.obj".toList) true = .returned .SUCCESS (some m) ∧
      m.faces = [⟨[0, 1, 2], [-1, -1, -1], [-1, -1, -1], 3⟩] ∧
      m.faces.map (fun f => f.texcoord) ≠ [[0, 1, 2]] := by
  refine ⟨_, rfl, ?_, ?_⟩ <;> decide

/-- The defect behind C2 at every token: a token `v/vt` is stored with texcoord `-1`, whatever
`vt` is. -/
theorem add_corner_pair (face : CJellyFormat3dObjFace) (v vt : Int) (hv : IntRange v)
    (hvt : IntRange vt) :
    add_corner face (int_token v ++ '/' :: int_token vt)
      = ⟨face.vertex ++ [v - 1], face.texcoord ++ [-1], face.normal ++ [-1], face.count + 1⟩ := by
  simp [add_corner, parse_corner_pair v vt hv hvt]

/-- Claim C3.  What the loader does on a face line of tokens `v//vn`: `f 1//1 2//2 3//3` is
stored with normal indices `-1, -1, -1`, not `0, 1, 2`.  The two integers found are read as
`v` and `vt`; the branch for fewer than three integers resets the texcoord index and leaves
the normal index at 0, so the normal is stored as absent. -/
theorem C3_skipped_texcoord_normal_lost :
    ∃ m, cjelly_format_3d_obj_load decimalLib alloc_ok
        (one_file "v 0 0 0\nv 1 0 0\nv 0 1 0\nvn 0 0 1\nf 1//1 2//1 3//1\n")
        (some "c.obj".toList) true = .returned .SUCCESS (some m) ∧
      m.faces = [⟨[0, 1, 2], [-1, -1, -1], [-1, -1, -1], 3⟩] ∧
      m.faces.map (fun f => f.normal) ≠ [[0, 0, 0]] := by
  refine ⟨_, rfl, ?_, ?_⟩ <;> decide

/-- The defect behind C3 at every token: a token `v//vn` is stored with normal `-1`, whatever
`vn` is. -/
theorem add_corner_skip (face : CJellyFormat3dObjFace) (v vn : Int) (hv : IntRange v)
    (hvn : IntRange vn) :
    add_corner face (int_token v ++ '/' :: '/' :: int_token vn)
      = ⟨face.vertex ++ [v - 1], face.texcoord ++ [-1], face.normal ++ [-1], face.count + 1⟩ := by
  simp [add_corner, parse_corner_skip v vn hv hvn]

/-! ## Face lines -/

theorem strtok_from_eq (s cur : List Char) :
    strtok_from s cur
      = (List.splitOnP.go (fun c => c == ' ') s cur).filter (fun t => !t.isEmpty) := by
  induction s generalizing cur with
  | nil =>
    cases cur with
    | nil => simp [strtok_from, List.splitOnP.go]
    | cons a t =>
      have hne : (t.reverse ++ [a]).isEmpty = false := by cases t.reverse <;> rfl
      simp [strtok_from, List.splitOnP.go, List.filter, hne]
  | cons c cs ih =>
    by_cases hc : c = ' '
    · subst hc
      cases cur with
      | nil => simp [strtok_from, List.splitOnP.go, ih, List.filter]
      | cons a t =>
        have hne : (t.reverse ++ [a]).isEmpty = false := by cases t.reverse <;> rfl
        simp [strtok_from, List.splitOnP.go, ih, List.filter, hne]
    · simp [strtok_from, List.splitOnP.go, ih, hc]

theorem strtok_all_eq_fields (s : List Char) : strtok_all s = fields (fun c => c == ' ') s := by
  simp [strtok_all, fields, List.splitOnP, strtok_from_eq]

theorem add_corner_count (face : CJellyFormat3dObjFace) (token : List Char) :
    (add_corner face token).count = face.count + 1 ∧
    (add_corner face token).vertex.length = face.vertex.length + 1 ∧
    (add_corner face token).texcoord.length = face.texcoord.length + 1 ∧
    (add_corner face token).normal.length = face.normal.length + 1 := by
  rcases h : parse_corner token with ⟨a, b, c⟩
  simp [add_corner, h]

theorem face_loop_eq (toks : List (List Char)) (face : CJellyFormat3dObjFace) :
    face_loop toks face = (toks.take (4 - face.count)).foldl add_corner face := by
  induction toks generalizing face with
  | nil => simp [face_loop]
  | cons t ts ih =>
    by_cases h : face.count < 4
    · have h4 : 4 - face.count = (4 - (face.count + 1)) + 1 := by omega
      rw [face_loop, if_pos h, ih, (add_corner_count face t).1, h4, List.take_succ_cons,
        List.foldl_cons]
    · have h4 : 4 - face.count = 0 := by omega
      rw [face_loop, if_neg h, h4]
      simp

theorem foldl_add_corner_count (toks : List (List Char)) (face : CJellyFormat3dObjFace) :
    (toks.foldl add_corner face).count = face.count + toks.length ∧
    (toks.foldl add_corner face).vertex.length = face.vertex.length + toks.length ∧
    (toks.foldl add_corner face).texcoord.length = face.texcoord.length + toks.length ∧
    (toks.foldl add_corner face).normal.length = face.normal.length + toks.length := by
  induction toks generalizing face with
  | nil => simp
  | cons t ts ih =>
    have h := add_corner_count face t
    have h2 := ih (add_corner face t)
    simp only [List.foldl_cons, List.length_cons]
    omega

theorem parse_face_eq (line : List Char) :
    parse_face line
      = ((fields (fun c => c == ' ') (line.drop 2)).take 4).foldl add_corner ⟨[], [], [], 0⟩ := by
  simp [parse_face, face_loop_eq, strtok_all_eq_fields]

theorem parse_face_count (line : List Char) :
    (parse_face line).count = min (fields (fun c => c == ' ') (line.drop 2)).length 4 ∧
    (parse_face line).vertex.length = (parse_face line).count ∧
    (parse_face line).texcoord.length = (parse_face line).count ∧
    (parse_face line).normal.length = (parse_face line).count := by
  rw [parse_face_eq]
  have h := foldl_add_corner_count ((fields (fun c => c == ' ') (line.drop 2)).take 4)
    ⟨[], [], [], 0⟩
  simp only [List.length_take, List.length_nil] at h
  rw [h.1, h.2.1, h.2.2.1, h.2.2.2]
  simp [Nat.min_comm]

/-! ## The dispatch on the line prefix -/

theorem strncmp_eq_take2 (line : List Char) (p : String) (hp : 2 ≤ p.length)
    (h : strncmp_eq line p = true) : line.take 2 = p.toList.take 2 := by
  have h1 : line.take p.length = p.toList := by simpa [strncmp_eq] using h
  rw [← h1, List.take_take, Nat.min_eq_left hp]

theorem strncmp_excl (line : List Char) (p q : String) (hp : 2 ≤ p.length) (hq : 2 ≤ q.length)
    (hne : p.toList.take 2 ≠ q.toList.take 2) (h : strncmp_eq line p = true) :
    strncmp_eq line q = false := by
  by_contra hcon
  have hq1 : strncmp_eq line q = true := by simpa using hcon
  exact hne ((strncmp_eq_take2 line p hp h).symm.trans (strncmp_eq_take2 line q hq hq1))

/-- At most one of the seven prefixes tested by the geometry loader matches a line. -/
theorem obj_dispatch_cases (line : List Char) :
    (strncmp_eq line "v " = true ∧ strncmp_eq line "vt " = false ∧ strncmp_eq line "vn " = false ∧
      strncmp_eq line "f " = false ∧ strncmp_eq line "g " = false ∧ strncmp_eq line "o " = false ∧
      strncmp_eq line "mtllib" = false) ∨
    (strncmp_eq line "v " = false ∧ strncmp_eq line "vt " = true ∧ strncmp_eq line "vn " = false ∧
      strncmp_eq line "f " = false ∧ strncmp_eq line "g " = false ∧ strncmp_eq line "o " = false ∧
      strncmp_eq line "mtllib" = false) ∨
    (strncmp_eq line "v " = false ∧ strncmp_eq line "vt " = false ∧ strncmp_eq line "vn " = true ∧
      strncmp_eq line "f " = false ∧ strncmp_eq line "g " = false ∧ strncmp_eq line "o " = false ∧
      strncmp_eq line "mtllib" = false) ∨
    (strncmp_eq line "v " = false ∧ strncmp_eq line "vt " = false ∧ strncmp_eq line "vn " = false ∧
      strncmp_eq line "f " = true ∧ strncmp_eq line "g " = false ∧ strncmp_eq line "o " = false ∧
      strncmp_eq line "mtllib" = false) ∨
    (strncmp_eq line "v " = false ∧ strncmp_eq line "vt " = false ∧ strncmp_eq line "vn " = false ∧
      strncmp_eq line "f " = false ∧ strncmp_eq line "g " = true ∧ strncmp_eq line "o " = false ∧
      strncmp_eq line "mtllib" = false) ∨
    (strncmp_eq line "v " = false ∧ strncmp_eq line "vt " = false ∧ strncmp_eq line "vn " = false ∧
      strncmp_eq line "f " = false ∧ strncmp_eq line "g " = false ∧ strncmp_eq line "o " = true ∧
      strncmp_eq line "mtllib" = false) ∨
    (strncmp_eq line "v " = false ∧ strncmp_eq line "vt " = false ∧ strncmp_eq line "vn " = false ∧
      strncmp_eq line "f " = false ∧ strncmp_eq line "g " = false ∧ strncmp_eq line "o " = false ∧
      strncmp_eq line "mtllib" = true) ∨
    (strncmp_eq line "v " = false ∧ strncmp_eq line "vt " = false ∧ strncmp_eq line "vn " = false ∧
      strncmp_eq line "f " = false ∧ strncmp_eq line "g " = false ∧ strncmp_eq line "o " = false ∧
      strncmp_eq line "mtllib" = false) := by
  have ex : ∀ p q : String, 2 ≤ p.length → 2 ≤ q.length → p.toList.take 2 ≠ q.toList.take 2 →
      strncmp_eq line p = true → strncmp_eq line q = false :=
    fun p q => strncmp_excl line p q
  by_cases h1 : strncmp_eq line "v " = true
  · exact Or.inl ⟨h1, ex _ _ (by decide) (by decide) (by decide) h1,
      ex _ _ (by decide) (by decide) (by decide) h1, ex _ _ (by decide) (by decide) (by decide) h1,
      ex _ _ (by decide) (by decide) (by decide) h1, ex _ _ (by decide) (by decide) (by decide) h1,
      ex _ _ (by decide) (by decide) (by decide) h1⟩
  by_cases h2 : strncmp_eq line "vt " = true
  · exact Or.inr (Or.inl ⟨by simpa using h1, h2,
      ex _ _ (by decide) (by decide) (by decide) h2, ex _ _ (by decide) (by decide) (by decide) h2,
      ex _ _ (by decide) (by decide) (by decide) h2, ex _ _ (by decide) (by decide) (by decide) h2,
      ex _ _ (by decide) (by decide) (by decide) h2⟩)
  by_cases h3 : strncmp_eq line "vn " = true
  · exact Or.inr (Or.inr (Or.inl ⟨by simpa using h1, by simpa using h2, h3,
      ex _ _ (by decide) (by decide) (by decide) h3, ex _ _ (by decide) (by decide) (by decide) h3,
      ex _ _ (by decide) (by decide) (by decide) h3, ex _ _ (by decide) (by decide) (by decide) h3⟩))
  by_cases h4 : strncmp_eq line "f " = true
  · exact Or.inr (Or.inr (Or.inr (Or.inl ⟨by simpa using h1, by simpa using h2,
      by simpa using h3, h4,
      ex _ _ (by decide) (by decide) (by decide) h4, ex _ _ (by decide) (by decide) (by decide) h4,
      ex _ _ (by decide) (by decide) (by decide) h4⟩)))
  by_cases h5 : strncmp_eq line "g " = true
  · exact Or.inr (Or.inr (Or.inr (Or.inr (Or.inl ⟨by simpa using h1, by simpa using h2,
      by simpa using h3, by simpa using h4, h5,
      ex _ _ (by decide) (by decide) (by decide) h5,
      ex _ _ (by decide) (by decide) (by decide) h5⟩))))
  by_cases h6 : strncmp_eq line "o " = true
  · exact Or.inr (Or.inr (Or.inr (Or.inr (Or.inr (Or.inl ⟨by simpa using h1, by simpa using h2,
      by simpa using h3, by simpa using h4, by simpa using h5, h6,
      ex _ _ (by decide) (by decide) (by decide) h6⟩)))))
  by_cases h7 : strncmp_eq line "mtllib" = true
  · exact Or.inr (Or.inr (Or.inr (Or.inr (Or.inr (Or.inr (Or.inl ⟨by simpa using h1,
      by simpa using h2, by simpa using h3, by simpa using h4, by simpa using h5,
      by simpa using h6, h7⟩))))))
  · exact Or.inr (Or.inr (Or.inr (Or.inr (Or.inr (Or.inr (Or.inr ⟨by simpa using h1,
      by simpa using h2, by simpa using h3, by simpa using h4, by simpa using h5,
      by simpa using h6, by simpa using h7⟩))))))

/-! ## One pass of the read loop of the geometry loader -/

/-- What one buffer does to the state when the loop body completes. -/
theorem obj_line_spec {F : Type} (L : FloatLib F) (alloc : Nat → Bool) (st st1 : ObjState F)
    (raw : List Char) (h : obj_line L alloc st raw = .ok st1) :
    st1.model.vertices = st.model.vertices ++ (vertex_of L raw).toList ∧
    st1.model.texcoords = st.model.texcoords ++ (texcoord_of L raw).toList ∧
    st1.model.normals = st.model.normals ++ (normal_of L raw).toList ∧
    st1.model.faces = st.model.faces ++ (face_of raw).toList ∧
    st1.model.groups =
      (match group_of raw with
       | some name => st.model.groups ++ [⟨name, st.model.faces.length, 0⟩]
       | none =>
         if (face_of raw).isSome = true ∧ st.current_group ≥ 0 then
           incr_face_count st.current_group.toNat st.model.groups
         else st.model.groups) ∧
    st1.current_group =
      (match group_of raw with
       | some _ => (st.model.groups.length : Int)
       | none => st.current_group) ∧
    st1.model.mtllib = (mtllib_of raw).getD st.model.mtllib := by
  unfold obj_line at h
  rcases obj_dispatch_cases (chomp raw) with
    ⟨h1, h2, h3, h4, h5, h6, h7⟩ | ⟨h1, h2, h3, h4, h5, h6, h7⟩ | ⟨h1, h2, h3, h4, h5, h6, h7⟩ |
    ⟨h1, h2, h3, h4, h5, h6, h7⟩ | ⟨h1, h2, h3, h4, h5, h6, h7⟩ | ⟨h1, h2, h3, h4, h5, h6, h7⟩ |
    ⟨h1, h2, h3, h4, h5, h6, h7⟩ | ⟨h1, h2, h3, h4, h5, h6, h7⟩
  all_goals simp only [h1, h2, h3, h4, h5, h6, h7, vertex_of, texcoord_of, normal_of, face_of,
    group_of, mtllib_of] at h ⊢
  all_goals simp at h ⊢
  all_goals (repeat' split at h)
  all_goals cases h
  all_goals first | (simp_all; done) | (simp_all; split <;> first | rfl | omega)

theorem grow_ok (alloc : Nat → Bool) (h : ∀ k, alloc k = true) (count capacity nalloc : Nat) :
    grow alloc count capacity nalloc ≠ none := by
  unfold grow
  split <;> simp [h]

/-- With an allocator that never fails the loop body completes on every buffer. -/
theorem obj_line_total {F : Type} (L : FloatLib F) (alloc : Nat → Bool)
    (h : ∀ k, alloc k = true) (st : ObjState F) (raw : List Char) :
    ∃ st1, obj_line L alloc st raw = .ok st1 := by
  have hg := grow_ok alloc h
  unfold obj_line
  simp only []
  repeat' split
  all_goals first | exact ⟨_, rfl⟩ | (exfalso; exact hg _ _ _ (by assumption))

theorem obj_loop_total {F : Type} (L : FloatLib F) (alloc : Nat → Bool)
    (h : ∀ k, alloc k = true) (lines : List (List Char)) (st : ObjState F) :
    ∃ st1, obj_loop L alloc lines st = .ok st1 := by
  induction lines generalizing st with
  | nil => exact ⟨st, rfl⟩
  | cons raw rest ih =>
    obtain ⟨s1, h1⟩ := obj_line_total L alloc h st raw
    obtain ⟨s2, h2⟩ := ih s1
    exact ⟨s2, by simp [obj_loop, h1, h2]⟩

theorem obj_loop_cons {F : Type} (L : FloatLib F) (alloc : Nat → Bool) (raw : List Char)
    (rest : List (List Char)) (st st2 : ObjState F)
    (h : obj_loop L alloc (raw :: rest) st = .ok st2) :
    ∃ st1, obj_line L alloc st raw = .ok st1 ∧ obj_loop L alloc rest st1 = .ok st2 := by
  rw [obj_loop] at h
  split at h
  · cases h
  · exact ⟨_, by assumption, h⟩

theorem obj_loop_append {F : Type} (L : FloatLib F) (alloc : Nat → Bool)
    (pre rest : List (List Char)) (st st2 : ObjState F)
    (h : obj_loop L alloc (pre ++ rest) st = .ok st2) :
    ∃ st1, obj_loop L alloc pre st = .ok st1 ∧ obj_loop L alloc rest st1 = .ok st2 := by
  induction pre generalizing st with
  | nil => exact ⟨st, rfl, h⟩
  | cons raw pre ih =>
    obtain ⟨s1, h1, h2⟩ := obj_loop_cons L alloc raw (pre ++ rest) st st2 h
    obtain ⟨s3, h3, h4⟩ := ih s1 h2
    exact ⟨s3, by simp [obj_loop, h1, h3], h4⟩

/-- The four element sequences after the loop: what was there, then what each buffer
contributes, in order. -/
theorem obj_loop_spec {F : Type} (L : FloatLib F) (alloc : Nat → Bool)
    (lines : List (List Char)) (st st1 : ObjState F) (h : obj_loop L alloc lines st = .ok st1) :
    st1.model.vertices = st.model.vertices ++ lines.filterMap (vertex_of L) ∧
    st1.model.texcoords = st.model.texcoords ++ lines.filterMap (texcoord_of L) ∧
    st1.model.normals = st.model.normals ++ lines.filterMap (normal_of L) ∧
    st1.model.faces = st.model.faces ++ lines.filterMap face_of := by
  induction lines generalizing st with
  | nil =>
    cases h
    simp
  | cons raw rest ih =>
    obtain ⟨s1, h1, h2⟩ := obj_loop_cons L alloc raw rest st st1 h
    obtain ⟨a1, a2, a3, a4, -⟩ := obj_line_spec L alloc st s1 raw h1
    obtain ⟨b1, b2, b3, b4⟩ := ih s1 h2
    rw [b1, b2, b3, b4, a1, a2, a3, a4]
    refine ⟨?_, ?_, ?_, ?_⟩
    · cases hv : vertex_of L raw <;> simp [List.filterMap_cons, hv]
    · cases hv : texcoord_of L raw <;> simp [List.filterMap_cons, hv]
    · cases hv : normal_of L raw <;> simp [List.filterMap_cons, hv]
    · cases hv : face_of raw <;> simp [List.filterMap_cons, hv]

/-- A successful call has opened a file and run the read loop to its end. -/
theorem obj_load_success {F : Type} (L : FloatLib F) (alloc : Nat → Bool)
    (fopen : List Char → Option (List Char)) (path text : List Char) (ok : Bool)
    (m : CJellyFormat3dObjModel F) (ht : fopen path = some text)
    (h : cjelly_format_3d_obj_load L alloc fopen (some path) ok = .returned .SUCCESS (some m)) :
    ∃ st, obj_loop L alloc (fgets_all text) (obj_init F) = .ok st ∧ st.model = m := by
  unfold cjelly_format_3d_obj_load at h
  simp only [ht] at h
  repeat' split at h
  all_goals cases h
  exact ⟨_, by assumption, rfl⟩

/-- With an allocator that never fails, a call on a file that opens succeeds. -/
theorem obj_load_total {F : Type} (L : FloatLib F) (alloc : Nat → Bool)
    (fopen : List Char → Option (List Char)) (path text : List Char)
    (ht : fopen path = some text) (h : ∀ k, alloc k = true) :
    ∃ m, cjelly_format_3d_obj_load L alloc fopen (some path) true = .returned .SUCCESS (some m) := by
  obtain ⟨st, hst⟩ := obj_loop_total L alloc h (fgets_all text) (obj_init F)
  exact ⟨st.model, by simp [cjelly_format_3d_obj_load, ht, h, hst]⟩

set_option maxRecDepth 100000 in
/-- Claim C4 as stated fails in two ways.  With tokens separated by white space it fails on a
face line whose tokens are separated by tabs: `f 1<TAB>2<TAB>3` has three
white-space-separated tokens and is stored as a face with one corner, since the tokenizer is
given the space as its only delimiter.  And it fails on a face line longer than the line
array: the line `f 1`, 252 spaces, `2 3` has three tokens and is stored as a face with one
corner, since `fgets` hands over its first 255 characters only. -/
theorem C4_tab_separated_counterexample :
    fields isspace ((chomp "f 1\t2\t3\n".toList).drop 2) = ["1".toList, "2".toList, "3".toList] ∧
    (∃ m, cjelly_format_3d_obj_load decimalLib alloc_ok (one_file "f 1\t2\t3\n")
        (some "d.obj".toList) true = .returned .SUCCESS (some m) ∧
      m.faces = [⟨[0], [-1], [-1], 1⟩]) ∧
    (parse_face (chomp "f 1\t2\t3\n".toList)).count
      ≠ min (fields isspace ((chomp "f 1\t2\t3\n".toList).drop 2)).length 4 ∧
    text_lines ("f 1".toList ++ List.replicate 252 ' ' ++ "2 3\n".toList)
      = ["f 1".toList ++ List.replicate 252 ' ' ++ "2 3\n".toList] ∧
    fields (fun c => c == ' ')
        ((chomp ("f 1".toList ++ List.replicate 252 ' ' ++ "2 3\n".toList)).drop 2)
      = ["1".toList, "2".toList, "3".toList] ∧
    (∃ m, cjelly_format_3d_obj_load decimalLib alloc_ok
        (fun _ => some ("f 1".toList ++ List.replicate 252 ' ' ++ "2 3\n".toList))
        (some "d.obj".toList) true = .returned .SUCCESS (some m) ∧
      m.faces = [⟨[0], [-1], [-1], 1⟩]) := by
  refine ⟨by decide, ⟨_, rfl, by decide⟩, by decide, by decide, by decide, ⟨_, rfl, by decide⟩⟩

/-- Claim C4, amended.  For a text whose lines, terminators included, have at most 255
characters: the faces of a successfully returned model are the faces of the face lines of the
text, one for each, in order; for a face line with `n` tokens separated by space characters
after the `f ` prefix, the face has the corner count `min n 4` and its corners are those of
the first `min n 4` tokens, in order, later tokens being ignored; and the parse succeeds
whenever no allocation fails. -/
theorem C4_face_corner_count {F : Type} (L : FloatLib F) (alloc : Nat → Bool)
    (fopen : List Char → Option (List Char)) (path text : List Char)
    (ht : fopen path = some text) (hshort : ShortLines text) :
    (∀ m, cjelly_format_3d_obj_load L alloc fopen (some path) true = .returned .SUCCESS (some m) →
      m.faces = (text_lines text).filterMap face_of) ∧
    (∀ raw ∈ text_lines text, strncmp_eq (chomp raw) "f " = true →
      ∃ face, face_of raw = some face ∧
        face = ((fields (fun c => c == ' ') ((chomp raw).drop 2)).take 4).foldl add_corner
          ⟨[], [], [], 0⟩ ∧
        face.count = min (fields (fun c => c == ' ') ((chomp raw).drop 2)).length 4 ∧
        face.vertex.length = face.count ∧ face.texcoord.length = face.count ∧
        face.normal.length = face.count) ∧
    ((∀ k, alloc k = true) →
      ∃ m, cjelly_format_3d_obj_load L alloc fopen (some path) true
        = .returned .SUCCESS (some m)) := by
  have hb := fgets_all_short text hshort
  refine ⟨?_, ?_, obj_load_total L alloc fopen path text ht⟩
  · intro m h
    obtain ⟨st, h1, rfl⟩ := obj_load_success L alloc fopen path text true m ht h
    have hs := (obj_loop_spec L alloc _ _ _ h1).2.2.2
    rw [hb] at hs
    simpa [obj_init] using hs
  · intro raw _ hf
    have hc := parse_face_count (chomp raw)
    exact ⟨parse_face (chomp raw), by simp [face_of, hf], parse_face_eq _, hc.1, hc.2.1,
      hc.2.2.1, hc.2.2.2⟩

theorem C4_face_corner_count_witness :
    ∃ m, cjelly_format_3d_obj_load decimalLib alloc_ok (one_file "f 1 2 3 4 5\nf 7 8\n")
        (some "c.obj".toList) true = .returned .SUCCESS (some m) ∧
      m.faces = [⟨[0, 1, 2, 3], [-1, -1, -1, -1], [-1, -1, -1, -1], 4⟩,
        ⟨[6, 7], [-1, -1], [-1, -1], 2⟩] := by
  have hshort : ShortLines "f 1 2 3 4 5\nf 7 8\n".toList := by
    unfold ShortLines
    decide
  have h := C4_face_corner_count decimalLib alloc_ok (one_file "f 1 2 3 4 5\nf 7 8\n")
    "c.obj".toList "f 1 2 3 4 5\nf 7 8\n".toList rfl hshort
  obtain ⟨m, hm⟩ := h.2.2 (fun _ => rfl)
  exact ⟨m, hm, (h.1 m hm).trans (by decide)⟩

/-- Claim C5 as stated fails: the face lines `f 1 2` and `f ` are appended to the face sequence
of a successfully returned model, with corner counts 2 and 0. -/
theorem C5_short_face_counterexample :
    ∃ m, cjelly_format_3d_obj_load decimalLib alloc_ok (one_file "v 0 0 0\nv 1 0 0\nf 1 2\nf \n")
        (some "e.obj".toList) true = .returned .SUCCESS (some m) ∧
      m.faces = [⟨[0, 1], [-1, -1], [-1, -1], 2⟩, ⟨[], [], [], 0⟩] ∧
      ¬ (∀ f ∈ m.faces, 3 ≤ f.count ∧ f.count ≤ 4) := by
  refine ⟨_, rfl, by decide, by decide⟩

/-- Claim C5, amended.  The face sequence of a successfully returned model holds one face for
every face line, in order, whatever its number of corners; every stored face has a corner
count between 0 and 4, and that many vertex, texcoord and normal entries. -/
theorem C5_face_count_at_most_four {F : Type} (L : FloatLib F) (alloc : Nat → Bool)
    (fopen : List Char → Option (List Char)) (path text : List Char)
    (m : CJellyFormat3dObjModel F) (ht : fopen path = some text)
    (h : cjelly_format_3d_obj_load L alloc fopen (some path) true = .returned .SUCCESS (some m)) :
    m.faces = (fgets_all text).filterMap face_of ∧
    ∀ f ∈ m.faces, f.count ≤ 4 ∧ f.vertex.length = f.count ∧ f.texcoord.length = f.count ∧
      f.normal.length = f.count := by
  obtain ⟨st, h1, rfl⟩ := obj_load_success L alloc fopen path text true m ht h
  have hs := (obj_loop_spec L alloc _ _ _ h1).2.2.2
  have hf : st.model.faces = (fgets_all text).filterMap face_of := by
    simpa [obj_init] using hs
  refine ⟨hf, ?_⟩
  intro f hmem
  rw [hf, List.mem_filterMap] at hmem
  obtain ⟨raw, -, hraw⟩ := hmem
  unfold face_of at hraw
  split at hraw
  · cases hraw
    have hc := parse_face_count (chomp raw)
    exact ⟨by rw [hc.1]; exact Nat.min_le_right _ _, hc.2.1, hc.2.2.1, hc.2.2.2⟩
  · cases hraw

theorem C5_face_count_at_most_four_witness :
    ∃ m : CJellyFormat3dObjModel Decimal,
      m.faces = (fgets_all "f 1 2\nf 1 2 3 4 5\n".toList).filterMap face_of ∧
      ∀ f ∈ m.faces, f.count ≤ 4 ∧ f.vertex.length = f.count ∧ f.texcoord.length = f.count ∧
        f.normal.length = f.count :=
  ⟨_, C5_face_count_at_most_four decimalLib alloc_ok (one_file "f 1 2\nf 1 2 3 4 5\n")
    "e.obj".toList "f 1 2\nf 1 2 3 4 5\n".toList _ rfl rfl⟩

theorem length_filterMap_eq_countP {α β : Type} (f : α → Option β) (l : List α) :
    (l.filterMap f).length = l.countP (fun a => (f a).isSome) := by
  induction l with
  | nil => rfl
  | cons a t ih =>
    cases h : f a <;> simp [List.filterMap_cons, h, ih]

set_option maxRecDepth 100000 in
/-- Claim C7 as stated fails on a line longer than the line array: the text that consists of
the one line of 255 characters `#` followed by `v 1 2 3` has no `v ` line, and the loader
returns a model with one vertex, since `fgets` hands over the last 8 characters of the line
as a buffer of their own. -/
theorem C7_long_line_counterexample :
    text_lines (List.replicate 255 '#' ++ "v 1 2 3\n".toList)
      = [List.replicate 255 '#' ++ "v 1 2 3\n".toList] ∧
    vertex_of decimalLib (List.replicate 255 '#' ++ "v 1 2 3\n".toList) = none ∧
    (∃ m, cjelly_format_3d_obj_load decimalLib alloc_ok
        (fun _ => some (List.replicate 255 '#' ++ "v 1 2 3\n".toList)) (some "l.obj".toList) true
          = .returned .SUCCESS (some m) ∧
      m.vertices = [⟨⟨1, 0⟩, ⟨2, 0⟩, ⟨3, 0⟩⟩] ∧ m.vertex_count = 1) := by
  refine ⟨by decide, by decide, ⟨_, rfl, by decide, by decide⟩⟩

/-- Claim C7, amended.  On a geometry input whose lines, terminators included, have at most
255 characters, whenever the loader succeeds the vertex (texcoord, normal) sequence is the
list, in input order, of the values of the `v ` (`vt `, `vn `) lines whose payload scans as 3
(2, 3) floats; the counts are the numbers of such lines, and lines that fail to scan
contribute nothing.  On every input the loader succeeds when no allocation fails.  No bound
on the number of entries is assumed, so this holds across every growth of the arrays; a file
of 129 vertex lines gives the 129 vertices in order, in an array grown to capacity 256. -/
theorem C7_vertex_sequences {F : Type} (L : FloatLib F) (alloc : Nat → Bool)
    (fopen : List Char → Option (List Char)) (path text : List Char)
    (ht : fopen path = some text) :
    (ShortLines text →
      ∀ m, cjelly_format_3d_obj_load L alloc fopen (some path) true = .returned .SUCCESS (some m) →
      m.vertices = (text_lines text).filterMap (vertex_of L) ∧
      m.texcoords = (text_lines text).filterMap (texcoord_of L) ∧
      m.normals = (text_lines text).filterMap (normal_of L) ∧
      m.vertex_count = (text_lines text).countP (fun raw => (vertex_of L raw).isSome) ∧
      m.texcoord_count = (text_lines text).countP (fun raw => (texcoord_of L raw).isSome) ∧
      m.normal_count = (text_lines text).countP (fun raw => (normal_of L raw).isSome)) ∧
    ((∀ k, alloc k = true) →
      ∃ m, cjelly_format_3d_obj_load L alloc fopen (some path) true
        = .returned .SUCCESS (some m)) ∧
    (∃ m, cjelly_format_3d_obj_load decimalLib alloc_ok
        (fun _ => some (List.replicate 129 "v 1 2 3\n".toList).flatten) (some "big.obj".toList)
        true = .returned .SUCCESS (some m) ∧
      m.vertices = List.replicate 129 ⟨⟨1, 0⟩, ⟨2, 0⟩, ⟨3, 0⟩⟩ ∧ m.vertex_capacity = 256) := by
  refine ⟨?_, obj_load_total L alloc fopen path text ht, ?_⟩
  swap
  · refine ⟨_, rfl, ?_, ?_⟩ <;> decide
  intro hshort m h
  obtain ⟨st, h1, rfl⟩ := obj_load_success L alloc fopen path text true m ht h
  rw [fgets_all_short text hshort] at h1
  obtain ⟨a1, a2, a3, -⟩ := obj_loop_spec L alloc _ _ _ h1
  simp only [obj_init, List.nil_append] at a1 a2 a3
  refine ⟨a1, a2, a3, ?_, ?_, ?_⟩
  · rw [CJellyFormat3dObjModel.vertex_count, a1, length_filterMap_eq_countP]
  · rw [CJellyFormat3dObjModel.texcoord_count, a2, length_filterMap_eq_countP]
  · rw [CJellyFormat3dObjModel.normal_count, a3, length_filterMap_eq_countP]

theorem C7_vertex_sequences_witness :
    ∃ m, cjelly_format_3d_obj_load decimalLib alloc_ok (one_file "v 1 2 3\nv 1 2\nvt 0.5 1\n")
        (some "f.obj".toList) true = .returned .SUCCESS (some m) ∧
      m.vertices = [⟨⟨1, 0⟩, ⟨2, 0⟩, ⟨3, 0⟩⟩] ∧ m.texcoords = [⟨⟨5, 1⟩, ⟨1, 0⟩⟩] ∧ m.normals = [] := by
  have hshort : ShortLines "v 1 2 3\nv 1 2\nvt 0.5 1\n".toList := by
    unfold ShortLines
    decide
  have h := C7_vertex_sequences decimalLib alloc_ok (one_file "v 1 2 3\nv 1 2\nvt 0.5 1\n")
    "f.obj".toList "v 1 2 3\nv 1 2\nvt 0.5 1\n".toList rfl
  obtain ⟨m, hm⟩ := h.2.1 (fun _ => rfl)
  obtain ⟨a1, a2, a3, -⟩ := h.1 hshort m hm
  refine ⟨m, hm, ?_, ?_, ?_⟩
  · rw [a1]; decide
  · rw [a2]; decide
  · rw [a3]; decide

/-! ## The geometry loader has no content-dependent failure -/

theorem obj_line_error {F : Type} (L : FloatLib F) (alloc : Nat → Bool) (st : ObjState F)
    (raw : List Char) (e : CJellyFormat3dObjError) (h : obj_line L alloc st raw = .error e) :
    e = .ERR_OUT_OF_MEMORY := by
  unfold obj_line at h
  simp only [] at h
  repeat' split at h
  all_goals cases h
  all_goals rfl

theorem obj_loop_error {F : Type} (L : FloatLib F) (alloc : Nat → Bool)
    (lines : List (List Char)) (st : ObjState F) (e : CJellyFormat3dObjError)
    (h : obj_loop L alloc lines st = .error e) : e = .ERR_OUT_OF_MEMORY := by
  induction lines generalizing st with
  | nil => cases h
  | cons raw rest ih =>
    rw [obj_loop] at h
    split at h
    · cases h
      exact obj_line_error L alloc st raw _ (by assumption)
    · exact ih _ h

/-- Claim C8.  For every input text, when the arguments are not null, the file opens and every
allocation succeeds, the geometry loader returns `SUCCESS` with a model; and whatever the
allocator does, it never returns `ERR_INVALID_FORMAT` on such a call. -/
theorem C8_no_content_failure {F : Type} (L : FloatLib F) (alloc : Nat → Bool)
    (fopen : List Char → Option (List Char)) (path text : List Char)
    (ht : fopen path = some text) :
    ((∀ k, alloc k = true) →
      ∃ m, cjelly_format_3d_obj_load L alloc fopen (some path) true
        = .returned .SUCCESS (some m)) ∧
    ∀ out, cjelly_format_3d_obj_load L alloc fopen (some path) true
      ≠ .returned .ERR_INVALID_FORMAT out := by
  refine ⟨obj_load_total L alloc fopen path text ht, ?_⟩
  intro out h
  unfold cjelly_format_3d_obj_load at h
  cases hl : obj_loop L alloc (fgets_all text) (obj_init F) with
  | error e =>
    have he := obj_loop_error L alloc _ _ _ hl
    subst he
    simp only [ht, hl, Bool.not_true, Bool.false_eq_true, if_false] at h
    repeat' split at h
    all_goals cases h
  | ok st =>
    simp only [ht, hl, Bool.not_true, Bool.false_eq_true, if_false] at h
    repeat' split at h
    all_goals cases h

theorem C8_no_content_failure_witness :
    (∃ m, cjelly_format_3d_obj_load decimalLib alloc_ok
        (one_file "v 1 x\nvt\nf a/b//c\nbogus line\ng\nmtllib\n") (some "g.obj".toList) true
          = .returned .SUCCESS (some m)) ∧
    ∀ out, cjelly_format_3d_obj_load decimalLib alloc_ok
        (one_file "v 1 x\nvt\nf a/b//c\nbogus line\ng\nmtllib\n") (some "g.obj".toList) true
          ≠ .returned .ERR_INVALID_FORMAT out :=
  ⟨(C8_no_content_failure decimalLib alloc_ok (one_file "v 1 x\nvt\nf a/b//c\nbogus line\ng\nmtllib\n")
      "g.obj".toList "v 1 x\nvt\nf a/b//c\nbogus line\ng\nmtllib\n".toList rfl).1 (fun _ => rfl),
   (C8_no_content_failure decimalLib alloc_ok (one_file "v 1 x\nvt\nf a/b//c\nbogus line\ng\nmtllib\n")
      "g.obj".toList "v 1 x\nvt\nf a/b//c\nbogus line\ng\nmtllib\n".toList rfl).2⟩

/-! ## Groups -/

theorem incr_face_count_append (A : List CJellyFormat3dObjGroup) (x : CJellyFormat3dObjGroup) :
    incr_face_count A.length (A ++ [x]) = A ++ [{ x with face_count := x.face_count + 1 }] := by
  induction A with
  | nil => rfl
  | cons a t ih => simp [incr_face_count, ih]

theorem incr_face_count_nil (k : Nat) : incr_face_count k [] = [] := by
  cases k <;> rfl

theorem group_face_excl (raw : List Char) (name : List Char) (h : group_of raw = some name) :
    face_of raw = none := by
  unfold group_of at h
  unfold face_of
  rcases obj_dispatch_cases (chomp raw) with
    ⟨h1, h2, h3, h4, h5, h6, h7⟩ | ⟨h1, h2, h3, h4, h5, h6, h7⟩ | ⟨h1, h2, h3, h4, h5, h6, h7⟩ |
    ⟨h1, h2, h3, h4, h5, h6, h7⟩ | ⟨h1, h2, h3, h4, h5, h6, h7⟩ | ⟨h1, h2, h3, h4, h5, h6, h7⟩ |
    ⟨h1, h2, h3, h4, h5, h6, h7⟩ | ⟨h1, h2, h3, h4, h5, h6, h7⟩
  all_goals simp_all

/-- The loop body on a state whose groups end with `x`, the current group. -/
theorem obj_line_tail {F : Type} (L : FloatLib F) (alloc : Nat → Bool) (st st1 : ObjState F)
    (raw : List Char) (h : obj_line L alloc st raw = .ok st1)
    (A : List CJellyFormat3dObjGroup) (x : CJellyFormat3dObjGroup)
    (hg : st.model.groups = A ++ [x]) (hc : st.current_group = (A.length : Int)) :
    (∀ name, group_of raw = some name →
      st1.model.groups = (A ++ [x]) ++ [⟨name, st.model.faces.length, 0⟩] ∧
      st1.current_group = ((A ++ [x]).length : Int)) ∧
    (group_of raw = none →
      st1.model.groups
        = A ++ [{ x with face_count := x.face_count + (face_of raw).toList.length }] ∧
      st1.current_group = (A.length : Int)) := by
  obtain ⟨-, -, -, -, a5, a6, -⟩ := obj_line_spec L alloc st st1 raw h
  constructor
  · intro name hn
    rw [hn] at a5 a6
    simp only at a5 a6
    rw [a5, a6, hg]
    exact ⟨rfl, rfl⟩
  · intro hn
    rw [hn] at a5 a6
    simp only at a5 a6
    refine ⟨?_, by rw [a6, hc]⟩
    rw [a5, hg, hc]
    cases hf : face_of raw with
    | none => simp
    | some f =>
      simp only [Option.isSome_some, true_and, Int.toNat_ofNat, Option.toList_some,
        List.length_singleton]
      rw [if_pos (by omega), incr_face_count_append]

/-- The group invariant is kept by the loop body. -/
theorem obj_line_inv {F : Type} (L : FloatLib F) (alloc : Nat → Bool) (st st1 : ObjState F)
    (raw : List Char) (h : obj_line L alloc st raw = .ok st1) (hi : GroupsInv st) :
    GroupsInv st1 := by
  obtain ⟨i1, i2, i3⟩ := hi
  obtain ⟨-, -, -, a4, a5, a6, -⟩ := obj_line_spec L alloc st st1 raw h
  rcases List.eq_nil_or_concat st.model.groups with hnil | ⟨A, x, hA⟩
  · -- no group yet
    rw [hnil] at i1 a5 a6
    cases hn : group_of raw with
    | none =>
      rw [hn] at a5 a6
      simp only [incr_face_count_nil, ite_self] at a5 a6
      refine ⟨by rw [a6, a5, i1], by rw [a5]; exact List.chain'_nil, ?_⟩
      intro g hg
      rw [a5] at hg
      cases hg
    | some name =>
      rw [hn] at a5 a6
      simp only [List.nil_append] at a5 a6
      have hf := group_face_excl raw name hn
      rw [hf] at a4
      refine ⟨by rw [a6, a5]; simp, by rw [a5]; exact List.chain'_singleton _, ?_⟩
      intro g hg
      rw [a5] at hg
      simp at hg
      subst hg
      simp [a4]
  · -- the last group is the current one
    rw [List.concat_eq_append] at hA
    have hc : st.current_group = (A.length : Int) := by
      rw [i1, hA]; simp
    have ht := obj_line_tail L alloc st st1 raw h A x hA hc
    have hlast : x.start_face + x.face_count = st.model.faces.length :=
      i3 x (by rw [hA]; simp)
    rw [hA] at i2
    cases hn : group_of raw with
    | none =>
      obtain ⟨g1, g2⟩ := ht.2 hn
      refine ⟨by rw [g2, g1]; simp, ?_, ?_⟩
      · rw [g1]
        rw [List.chain'_append] at i2 ⊢
        refine ⟨i2.1, List.chain'_singleton _, ?_⟩
        intro a ha b hb
        simp at hb
        subst hb
        exact i2.2.2 a ha x (by simp)
      · intro g hg
        rw [g1] at hg
        simp at hg
        subst hg
        rw [a4]
        simp
        omega
    | some name =>
      obtain ⟨g1, g2⟩ := ht.1 name hn
      have hf := group_face_excl raw name hn
      rw [hf] at a4
      refine ⟨by rw [g2, g1]; simp; omega, ?_, ?_⟩
      · rw [g1, List.chain'_append]
        refine ⟨i2, List.chain'_singleton _, ?_⟩
        intro a ha b hb
        simp at ha hb
        subst ha hb
        exact hlast
      · intro g hg
        rw [g1] at hg
        simp at hg
        subst hg
        simp [a4]

theorem obj_loop_inv {F : Type} (L : FloatLib F) (alloc : Nat → Bool)
    (lines : List (List Char)) (st st1 : ObjState F) (h : obj_loop L alloc lines st = .ok st1)
    (hi : GroupsInv st) : GroupsInv st1 := by
  induction lines generalizing st with
  | nil => cases h; exact hi
  | cons raw rest ih =>
    obtain ⟨s1, h1, h2⟩ := obj_loop_cons L alloc raw rest st st1 h
    exact ih s1 h2 (obj_line_inv L alloc st s1 raw h1 hi)

theorem obj_init_inv (F : Type) : GroupsInv (obj_init F) := by
  refine ⟨by simp [obj_init], by simp [obj_init], ?_⟩
  intro g hg
  simp [obj_init] at hg

theorem incr_face_count_length (k : Nat) (gs : List CJellyFormat3dObjGroup) :
    (incr_face_count k gs).length = gs.length := by
  induction gs generalizing k with
  | nil => cases k <;> rfl
  | cons a t ih =>
    cases k with
    | zero => rfl
    | succ k => simp [incr_face_count, ih]

/-- The number of groups grows by the number of declarations read. -/
theorem obj_loop_group_count {F : Type} (L : FloatLib F) (alloc : Nat → Bool)
    (lines : List (List Char)) (st st1 : ObjState F) (h : obj_loop L alloc lines st = .ok st1) :
    st1.model.groups.length = st.model.groups.length + (lines.filterMap group_of).length := by
  induction lines generalizing st with
  | nil => cases h; simp
  | cons raw rest ih =>
    obtain ⟨s1, h1, h2⟩ := obj_loop_cons L alloc raw rest st st1 h
    obtain ⟨-, -, -, -, a5, -, -⟩ := obj_line_spec L alloc st s1 raw h1
    rw [ih s1 h2, a5]
    cases hn : group_of raw with
    | none =>
      simp only [List.filterMap_cons, hn]
      split <;> simp [incr_face_count_length]
    | some name =>
      simp [List.filterMap_cons, hn]
      omega

/-- While no group is declared, the current group only gains the faces read. -/
theorem obj_loop_mid {F : Type} (L : FloatLib F) (alloc : Nat → Bool)
    (mid : List (List Char)) (st st1 : ObjState F) (h : obj_loop L alloc mid st = .ok st1)
    (hmid : ∀ r ∈ mid, group_of r = none)
    (A : List CJellyFormat3dObjGroup) (x : CJellyFormat3dObjGroup)
    (hg : st.model.groups = A ++ [x]) (hc : st.current_group = (A.length : Int)) :
    st1.model.groups
      = A ++ [{ x with face_count := x.face_count + (mid.filterMap face_of).length }] ∧
    st1.current_group = (A.length : Int) := by
  induction mid generalizing st x with
  | nil =>
    cases h
    simp [hg, hc]
  | cons raw rest ih =>
    obtain ⟨s1, h1, h2⟩ := obj_loop_cons L alloc raw rest st st1 h
    have hn : group_of raw = none := hmid raw (by simp)
    obtain ⟨g1, g2⟩ := (obj_line_tail L alloc st s1 raw h1 A x hg hc).2 hn
    obtain ⟨r1, r2⟩ := ih s1 h2 (fun r hr => hmid r (by simp [hr])) _ g1 g2
    refine ⟨?_, r2⟩
    rw [r1]
    cases hf : face_of raw with
    | none => simp [List.filterMap_cons, hf]
    | some f =>
      simp [List.filterMap_cons, hf]
      omega

/-- The groups before the current one are never changed again. -/
theorem obj_loop_keep {F : Type} (L : FloatLib F) (alloc : Nat → Bool)
    (lines : List (List Char)) (st st1 : ObjState F) (h : obj_loop L alloc lines st = .ok st1)
    (A : List CJellyFormat3dObjGroup) (x : CJellyFormat3dObjGroup)
    (hg : st.model.groups = A ++ [x]) (hc : st.current_group = (A.length : Int)) :
    ∃ T, st1.model.groups = A ++ T := by
  induction lines generalizing st A x with
  | nil =>
    cases h
    exact ⟨[x], hg⟩
  | cons raw rest ih =>
    obtain ⟨s1, h1, h2⟩ := obj_loop_cons L alloc raw rest st st1 h
    have ht := obj_line_tail L alloc st s1 raw h1 A x hg hc
    cases hn : group_of raw with
    | none =>
      obtain ⟨g1, g2⟩ := ht.2 hn
      exact ih s1 h2 A _ g1 g2
    | some name =>
      obtain ⟨g1, g2⟩ := ht.1 name hn
      obtain ⟨T, hT⟩ := ih s1 h2 (A ++ [x]) _ g1 g2
      exact ⟨[x] ++ T, by rw [hT]; simp⟩

theorem chain_adjacent_head_le (a : CJellyFormat3dObjGroup) (l : List CJellyFormat3dObjGroup)
    (h : List.Chain' Adjacent (a :: l)) : ∀ g ∈ a :: l, a.start_face ≤ g.start_face := by
  induction l generalizing a with
  | nil =>
    intro g hg
    simp at hg
    rw [hg]
  | cons b t ih =>
    intro g hg
    rw [List.chain'_cons] at h
    rcases List.mem_cons.1 hg with rfl | hg
    · exact Nat.le_refl _
    · have h1 := ih b h.2 g hg
      have h2 : a.start_face + a.face_count = b.start_face := h.1
      omega

theorem chain_adjacent_get (l : List CJellyFormat3dObjGroup) (h : List.Chain' Adjacent l)
    (k : Nat) (g g1 : CJellyFormat3dObjGroup) (hk : l[k]? = some g) (hk1 : l[k + 1]? = some g1) :
    g.start_face + g.face_count = g1.start_face := by
  induction l generalizing k with
  | nil => simp at hk
  | cons a t ih =>
    cases k with
    | zero =>
      cases t with
      | nil => simp at hk1
      | cons b t =>
        simp at hk hk1
        subst hk hk1
        exact (List.chain'_cons.1 h).1
    | succ k =>
      simp at hk hk1
      exact ih (List.Chain'.tail h) k hk hk1

set_option maxRecDepth 100000 in
/-- Claim C6 as stated fails on a line longer than the line array: in the text `g a`
followed by the one line of 255 characters `#` and `f 1 2 3`, no face line follows the
declaration of the group `a`, and the group is returned with face count 1, since `fgets`
hands over the last 8 characters of the long line as a buffer of their own. -/
theorem C6_long_line_counterexample :
    text_lines ("g a\n".toList ++ List.replicate 255 '#' ++ "f 1 2 3\n".toList)
      = ["g a\n".toList, List.replicate 255 '#' ++ "f 1 2 3\n".toList] ∧
    face_of (List.replicate 255 '#' ++ "f 1 2 3\n".toList) = none ∧
    (∃ m, cjelly_format_3d_obj_load decimalLib alloc_ok
        (fun _ => some ("g a\n".toList ++ List.replicate 255 '#' ++ "f 1 2 3\n".toList))
        (some "l.obj".toList) true = .returned .SUCCESS (some m) ∧
      m.groups = [⟨"a".toList, 0, 1⟩] ∧ m.face_count = 1) := by
  refine ⟨by decide, by decide, ⟨_, rfl, by decide, by decide⟩⟩

/-- Claim C6, amended.  After a successful geometry parse: consecutive groups are adjacent;
the last group ends at the model's face count; a face index below the first group's
`start_face` lies in the range of no group; and, when the lines of the text, terminators
included, have at most 255 characters, for every group declaration line (a `g ` or `o ` line
with a name), the group it creates starts at the number of face lines before it, counts the
face lines after it and before the next group declaration (or the end of the input), and
the faces in that range are the faces of exactly those lines, in order. -/
theorem C6_groups_partition_faces {F : Type} (L : FloatLib F) (alloc : Nat → Bool)
    (fopen : List Char → Option (List Char)) (path text : List Char)
    (m : CJellyFormat3dObjModel F) (ht : fopen path = some text)
    (h : cjelly_format_3d_obj_load L alloc fopen (some path) true = .returned .SUCCESS (some m)) :
    (∀ k g g1, m.groups[k]? = some g → m.groups[k + 1]? = some g1 →
      g.start_face + g.face_count = g1.start_face) ∧
    (∀ g, m.groups.getLast? = some g → g.start_face + g.face_count = m.face_count) ∧
    (∀ g0 g i, m.groups.head? = some g0 → g ∈ m.groups → i < g0.start_face →
      ¬ (g.start_face ≤ i ∧ i < g.start_face + g.face_count)) ∧
    (ShortLines text →
      ∀ pre decl mid post name, text_lines text = pre ++ decl :: (mid ++ post) →
      group_of decl = some name → (∀ r ∈ mid, group_of r = none) →
      (∀ d, post.head? = some d → (group_of d).isSome = true) →
      ∃ g, m.groups[(pre.filterMap group_of).length]? = some g ∧ g.name = name ∧
        g.start_face = (pre.filterMap face_of).length ∧
        g.face_count = (mid.filterMap face_of).length ∧
        (m.faces.drop g.start_face).take g.face_count = mid.filterMap face_of) := by
  obtain ⟨st, h1, rfl⟩ := obj_load_success L alloc fopen path text true m ht h
  obtain ⟨-, i2, i3⟩ := obj_loop_inv L alloc _ _ _ h1 (obj_init_inv F)
  refine ⟨fun k g g1 => chain_adjacent_get _ i2 k g g1, i3, ?_, ?_⟩
  · intro g0 g i h0 hg hi
    cases hgs : st.model.groups with
    | nil => rw [hgs] at hg; cases hg
    | cons a t =>
      rw [hgs] at h0 hg i2
      simp at h0
      subst h0
      have := chain_adjacent_head_le a t i2 g hg
      omega
  · intro hshort pre decl mid post name hsplit hdecl hmid hpost
    rw [fgets_all_short text hshort, hsplit] at h1
    obtain ⟨s1, p1, p2⟩ := obj_loop_append L alloc pre _ _ _ h1
    obtain ⟨s2, p3, p4⟩ := obj_loop_cons L alloc decl _ _ _ p2
    obtain ⟨s3, p5, p6⟩ := obj_loop_append L alloc mid post _ _ p4
    -- the state when the declaration is read
    have f1 : s1.model.faces = pre.filterMap face_of := by
      simpa [obj_init] using (obj_loop_spec L alloc _ _ _ p1).2.2.2
    have c1 : s1.model.groups.length = (pre.filterMap group_of).length := by
      simpa [obj_init] using obj_loop_group_count L alloc _ _ _ p1
    obtain ⟨-, -, -, -, a5, a6, -⟩ := obj_line_spec L alloc s1 s2 decl p3
    rw [hdecl] at a5 a6
    simp only at a5 a6
    -- the lines up to the next declaration
    obtain ⟨m1, m2⟩ := obj_loop_mid L alloc mid s2 s3 p5 hmid _ _ a5 a6
    -- the rest of the input
    have hfin : ∃ T, st.model.groups = s1.model.groups ++
        ({ name := name, start_face := s1.model.faces.length,
           face_count := 0 + (mid.filterMap face_of).length } : CJellyFormat3dObjGroup) :: T := by
      cases post with
      | nil =>
        cases p6
        exact ⟨[], m1⟩
      | cons d rest =>
        obtain ⟨s4, q1, q2⟩ := obj_loop_cons L alloc d rest _ _ p6
        obtain ⟨dn, hdn⟩ := Option.isSome_iff_exists.1 (hpost d rfl)
        obtain ⟨g1, g2⟩ := (obj_line_tail L alloc s3 s4 d q1 _ _ m1 m2).1 dn hdn
        obtain ⟨T, hT⟩ := obj_loop_keep L alloc rest s4 st q2 _ _ g1 g2
        exact ⟨T, by rw [hT]; simp⟩
    obtain ⟨T, hT⟩ := hfin
    have hfaces : st.model.faces
        = pre.filterMap face_of ++ (mid.filterMap face_of ++ post.filterMap face_of) := by
      have := (obj_loop_spec L alloc _ _ _ h1).2.2.2
      simpa [obj_init, List.filterMap_append, List.filterMap_cons,
        group_face_excl decl name hdecl] using this
    refine ⟨⟨name, s1.model.faces.length, 0 + (mid.filterMap face_of).length⟩, ?_, rfl, ?_, ?_, ?_⟩
    · rw [hT, ← c1, List.getElem?_append_right (Nat.le_refl _)]
      simp
    · simp [f1]
    · simp
    · simp only [f1, Nat.zero_add]
      rw [hfaces, List.drop_left, List.take_left]

theorem C6_groups_partition_faces_witness :
    ∃ m, cjelly_format_3d_obj_load decimalLib alloc_ok
        (one_file "f 1 2 3\ng a\nf 1 2 3\nf 2 3 4\no b\ng\nf 3 4 5\n") (some "h.obj".toList) true
          = .returned .SUCCESS (some m) ∧
      m.groups = [⟨"a".toList, 1, 2⟩, ⟨"b".toList, 3, 1⟩] ∧
      (∀ k g g1, m.groups[k]? = some g → m.groups[k + 1]? = some g1 →
        g.start_face + g.face_count = g1.start_face) ∧
      (∀ g, m.groups.getLast? = some g → g.start_face + g.face_count = m.face_count) ∧
      (∃ g, m.groups[(["f 1 2 3\n".toList].filterMap group_of).length]? = some g ∧
        g.name = "a".toList ∧
        g.start_face = (["f 1 2 3\n".toList].filterMap face_of).length ∧
        g.face_count = (["f 1 2 3\n".toList, "f 2 3 4\n".toList].filterMap face_of).length ∧
        (m.faces.drop g.start_face).take g.face_count
          = ["f 1 2 3\n".toList, "f 2 3 4\n".toList].filterMap face_of) := by
  have hshort : ShortLines "f 1 2 3\ng a\nf 1 2 3\nf 2 3 4\no b\ng\nf 3 4 5\n".toList := by
    unfold ShortLines
    decide
  refine ⟨_, rfl, by decide, ?_⟩
  have h := C6_groups_partition_faces decimalLib alloc_ok
    (one_file "f 1 2 3\ng a\nf 1 2 3\nf 2 3 4\no b\ng\nf 3 4 5\n") "h.obj".toList
    "f 1 2 3\ng a\nf 1 2 3\nf 2 3 4\no b\ng\nf 3 4 5\n".toList _ rfl rfl
  have hs : text_lines "f 1 2 3\ng a\nf 1 2 3\nf 2 3 4\no b\ng\nf 3 4 5\n".toList
      = ["f 1 2 3\n".toList] ++ "g a\n".toList ::
        (["f 1 2 3\n".toList, "f 2 3 4\n".toList]
          ++ ["o b\n".toList, "g\n".toList, "f 3 4 5\n".toList]) := by decide
  have h4 := h.2.2.2 hshort ["f 1 2 3\n".toList] "g a\n".toList
    ["f 1 2 3\n".toList, "f 2 3 4\n".toList] ["o b\n".toList, "g\n".toList, "f 3 4 5\n".toList]
    "a".toList hs
  exact ⟨h.1, h.2.1, h4 (by decide) (by decide) (by decide)⟩

/-! ## The line buffer of the material loader -/

theorem takeWhile_append_stop {α : Type} (p : α → Bool) (c : List α) (t0 : α) (t : List α)
    (hc : ∀ a ∈ c, p a = true) (ht : p t0 = false) : (c ++ t0 :: t).takeWhile p = c := by
  induction c with
  | nil => simp [List.takeWhile, ht]
  | cons a c ih =>
    have ha : p a = true := hc a (by simp)
    simp [List.takeWhile, ha, ih (fun b hb => hc b (by simp [hb]))]

theorem takeWhile_takeWhile {α : Type} (q r : α → Bool) (l : List α) :
    (l.takeWhile r).takeWhile q = l.takeWhile (fun a => r a && q a) := by
  induction l with
  | nil => rfl
  | cons a l ih =>
    cases hr : r a <;> cases hq : q a <;> simp [List.takeWhile, hr, hq, ih]

theorem set_append_length {α : Type} (c : List α) (a b : α) (t : List α) :
    (c ++ a :: t).set c.length b = c ++ b :: t := by
  induction c with
  | nil => rfl
  | cons x c ih => simp [ih]

theorem chomp_not_eol (raw : List Char) : ∀ a ∈ chomp raw, eol a = false := by
  induction raw with
  | nil => intro a ha; simp [chomp] at ha
  | cons x r ih =>
    intro a ha
    cases hx : eol x with
    | true => simp [chomp, List.takeWhile, hx] at ha
    | false =>
      simp only [chomp, List.takeWhile, hx, Bool.not_false, List.mem_cons] at ha
      rcases ha with rfl | ha
      · exact hx
      · exact ih a ha

/-- The array after `fgets`: the line, then a character that ends it. -/
theorem fgets_store_split (raw rest : List Char) :
    ∃ t0 t, raw ++ NUL :: rest = chomp raw ++ t0 :: t ∧ eol t0 = true := by
  induction raw with
  | nil => exact ⟨NUL, rest, rfl, by decide⟩
  | cons x r ih =>
    cases hx : eol x with
    | true => exact ⟨x, r ++ NUL :: rest, by simp [chomp, List.takeWhile, hx], hx⟩
    | false =>
      obtain ⟨t0, t, h1, h2⟩ := ih
      refine ⟨t0, t, ?_, h2⟩
      simp only [chomp, List.takeWhile, hx, Bool.not_false, List.cons_append]
      rw [h1]
      rfl

/-- After `fgets` and the cut at the first carriage return or newline, the array holds the
line, a NUL, and further bytes. -/
theorem buffer_after_fgets (buf raw : List Char) :
    ∃ t, cut_line (fgets_store buf raw) = chomp raw ++ NUL :: t := by
  obtain ⟨t0, t, ht, hstop⟩ := fgets_store_split raw (buf.drop (raw.length + 1))
  have hc := chomp_not_eol raw
  have hlen : ((cstr_at (fgets_store buf raw) 0).takeWhile
      (fun c => !(c = '\r' || c = '\n'))).length = (chomp raw).length := by
    rw [cstr_at, List.drop_zero, takeWhile_takeWhile, fgets_store, ht]
    congr 1
    apply takeWhile_append_stop
    · intro a ha
      have := hc a ha
      simp [eol] at this
      simp [this]
    · simp [eol] at hstop
      rcases hstop with (h | h) | h <;> simp [h]
  exact ⟨t, by rw [cut_line, hlen, fgets_store, ht, set_append_length]⟩

/-- The C string at an offset `k` inside the line is the line without its first `k`
characters, whatever the array held before. -/
theorem cstr_after_fgets (buf raw : List Char) (k : Nat) (hk : k ≤ (chomp raw).length) :
    cstr_at (cut_line (fgets_store buf raw)) k = (chomp raw).drop k := by
  obtain ⟨t, ht⟩ := buffer_after_fgets buf raw
  have hnul : ∀ a ∈ (chomp raw).drop k, (!(decide (a = NUL))) = true := by
    intro a ha
    have := chomp_not_eol raw a (List.mem_of_mem_drop ha)
    simp [eol] at this
    simp [this]
  rw [ht, cstr_at, List.drop_append_of_le_length hk]
  exact takeWhile_append_stop _ _ _ _ hnul (by simp)

/-- After `fgets` and the cut at the first carriage return or newline, the C string in
`line` is the buffer read up to its first carriage return, newline or NUL, whatever the array
held before. -/
theorem line_after_fgets (buf raw : List Char) :
    cstr_at (cut_line (fgets_store buf raw)) 0 = chomp raw := by
  simpa using cstr_after_fgets buf raw 0 (Nat.zero_le _)

/-! ## One pass of the read loop of the material loader -/

theorem update_at_id {α : Type} (k : Nat) (l : List α) : update_at (fun a => a) k l = l := by
  induction l generalizing k with
  | nil => cases k <;> rfl
  | cons a t ih => cases k <;> simp [update_at, ih]

theorem newmtl_not_skipped (line : List Char) (h : strncmp_eq line "newmtl" = true) :
    ¬ (line.head? = some '#' ∨ line = []) := by
  have h1 : line.take 6 = "newmtl".toList := by simpa [strncmp_eq] using h
  rintro (h2 | h2)
  · cases line with
    | nil => simp at h2
    | cons a t =>
      simp at h2
      subst h2
      simp at h1
  · subst h2
    simp at h1

/-- What one buffer does to the state of the material loader when the loop body completes. -/
theorem mtl_line_spec {F : Type} (L : FloatLib F) (alloc : Nat → Bool) (st st1 : MtlState F)
    (raw : List Char) (h : mtl_line L alloc st raw = .ok st1) :
    st1.null_storage = st.null_storage ∧
    (is_newmtl raw = true → st.null_storage = false ∧
      ∃ name, st1.materials = st.materials ++ [{ zero_material L with name := name }] ∧
        st1.current = some st.materials.length) ∧
    (is_newmtl raw = false → st1.current = st.current ∧
      ∃ f : CJellyFormat3dMtlMaterial F → CJellyFormat3dMtlMaterial F,
        st1.materials = (match st.current with
          | some k => update_at f k st.materials
          | none => st.materials) ∧
        (∀ m, (f m).name = m.name) ∧
        (sets_Ka raw = false → ∀ m, (f m).Ka = m.Ka) ∧
        (sets_Kd raw = false → ∀ m, (f m).Kd = m.Kd) ∧
        (sets_Ks raw = false → ∀ m, (f m).Ks = m.Ks) ∧
        (sets_Ns raw = false → ∀ m, (f m).Ns = m.Ns) ∧
        (sets_d raw = false → ∀ m, (f m).d = m.d) ∧
        (sets_illum raw = false → ∀ m, (f m).illum = m.illum)) := by
  unfold mtl_line at h
  simp only [line_after_fgets] at h
  by_cases hn : strncmp_eq (chomp raw) "newmtl" = true
  · have hs := newmtl_not_skipped _ hn
    simp only [hs, if_false, hn, if_true] at h
    repeat' split at h
    all_goals cases h
    refine ⟨rfl, fun _ => ⟨by simp_all, _, rfl, rfl⟩, fun hc => ?_⟩
    simp [is_newmtl, hn] at hc
  · have hn1 : is_newmtl raw = false := by simpa [is_newmtl] using hn
    simp only [hn, Bool.false_eq_true, if_false] at h
    refine ⟨?_, fun hc => by simp [hn1] at hc, fun _ => ?_⟩
    · repeat' split at h
      all_goals cases h
      all_goals rfl
    · repeat' split at h
      all_goals cases h
      all_goals first
        | (refine ⟨rfl, fun a => a, ?_, fun _ => rfl, fun _ _ => rfl, fun _ _ => rfl,
            fun _ _ => rfl, fun _ _ => rfl, fun _ _ => rfl, fun _ _ => rfl⟩
           split <;> simp [update_at_id]
           done)
        | (refine ⟨rfl, _, (by simp only [*]; rfl), ?_, ?_, ?_, ?_, ?_, ?_, ?_⟩
           all_goals first
             | (intro m; rfl)
             | (intro _ m; rfl)
             | (intro hc; simp_all [sets_Ka, sets_Kd, sets_Ks, sets_Ns, sets_d, sets_illum]))

theorem update_at_length {α : Type} (f : α → α) (k : Nat) (l : List α) :
    (update_at f k l).length = l.length := by
  induction l generalizing k with
  | nil => cases k <;> rfl
  | cons a t ih => cases k <;> simp [update_at, ih]

theorem update_at_append {α : Type} (f : α → α) (A : List α) (x : α) :
    update_at f A.length (A ++ [x]) = A ++ [f x] := by
  induction A with
  | nil => rfl
  | cons a t ih => simp [update_at, ih]

theorem mtl_loop_cons {F : Type} (L : FloatLib F) (alloc : Nat → Bool) (raw : List Char)
    (rest : List (List Char)) (st st2 : MtlState F)
    (h : mtl_loop L alloc (raw :: rest) st = .ok st2) :
    ∃ st1, mtl_line L alloc st raw = .ok st1 ∧ mtl_loop L alloc rest st1 = .ok st2 := by
  rw [mtl_loop] at h
  split at h
  · cases h
  · exact ⟨_, by assumption, h⟩

theorem mtl_loop_append {F : Type} (L : FloatLib F) (alloc : Nat → Bool)
    (pre rest : List (List Char)) (st st2 : MtlState F)
    (h : mtl_loop L alloc (pre ++ rest) st = .ok st2) :
    ∃ st1, mtl_loop L alloc pre st = .ok st1 ∧ mtl_loop L alloc rest st1 = .ok st2 := by
  induction pre generalizing st with
  | nil => exact ⟨st, rfl, h⟩
  | cons raw pre ih =>
    obtain ⟨s1, h1, h2⟩ := mtl_loop_cons L alloc raw (pre ++ rest) st st2 h
    obtain ⟨s3, h3, h4⟩ := ih s1 h2
    exact ⟨s3, by simp [mtl_loop, h1, h3], h4⟩

theorem mtl_loop_null_storage {F : Type} (L : FloatLib F) (alloc : Nat → Bool)
    (lines : List (List Char)) (st st1 : MtlState F) (h : mtl_loop L alloc lines st = .ok st1) :
    st1.null_storage = st.null_storage := by
  induction lines generalizing st with
  | nil => cases h; rfl
  | cons raw rest ih =>
    obtain ⟨s1, h1, h2⟩ := mtl_loop_cons L alloc raw rest st st1 h
    rw [ih s1 h2, (mtl_line_spec L alloc st s1 raw h1).1]

/-- The number of materials grows by the number of `newmtl` lines read. -/
theorem mtl_loop_count {F : Type} (L : FloatLib F) (alloc : Nat → Bool)
    (lines : List (List Char)) (st st1 : MtlState F) (h : mtl_loop L alloc lines st = .ok st1) :
    st1.materials.length = st.materials.length + (lines.filter is_newmtl).length := by
  induction lines generalizing st with
  | nil => cases h; simp
  | cons raw rest ih =>
    obtain ⟨s1, h1, h2⟩ := mtl_loop_cons L alloc raw rest st st1 h
    obtain ⟨-, a2, a3⟩ := mtl_line_spec L alloc st s1 raw h1
    rw [ih s1 h2]
    cases hn : is_newmtl raw with
    | true =>
      obtain ⟨-, name, e1, -⟩ := a2 hn
      simp [List.filter_cons, hn, e1]
      omega
    | false =>
      obtain ⟨-, f, e1, -⟩ := a3 hn
      have : s1.materials.length = st.materials.length := by
        rw [e1]
        split <;> simp [update_at_length]
      simp [List.filter_cons, hn, this]

/-- A property line on a state whose materials end with `x`, the current material: only `x`
changes, and only in the field the line is dispatched to. -/
theorem mtl_line_tail {F : Type} (L : FloatLib F) (alloc : Nat → Bool) (st st1 : MtlState F)
    (raw : List Char) (h : mtl_line L alloc st raw = .ok st1) (hn : is_newmtl raw = false)
    (A : List (CJellyFormat3dMtlMaterial F)) (x : CJellyFormat3dMtlMaterial F)
    (hm : st.materials = A ++ [x]) (hc : st.current = some A.length) :
    ∃ x1, st1.materials = A ++ [x1] ∧ st1.current = some A.length ∧ x1.name = x.name ∧
      (sets_Ka raw = false → x1.Ka = x.Ka) ∧ (sets_Kd raw = false → x1.Kd = x.Kd) ∧
      (sets_Ks raw = false → x1.Ks = x.Ks) ∧ (sets_Ns raw = false → x1.Ns = x.Ns) ∧
      (sets_d raw = false → x1.d = x.d) ∧ (sets_illum raw = false → x1.illum = x.illum) := by
  obtain ⟨e0, f, e1, f0, f1, f2, f3, f4, f5, f6⟩ := (mtl_line_spec L alloc st st1 raw h).2.2 hn
  rw [hc] at e1
  simp only [hm, update_at_append] at e1
  exact ⟨f x, e1, by rw [e0, hc], f0 x, fun h => f1 h x, fun h => f2 h x, fun h => f3 h x,
    fun h => f4 h x, fun h => f5 h x, fun h => f6 h x⟩

/-- While no `newmtl` line is read, only the current material changes, and a field of it
only through a line dispatched to that field. -/
theorem mtl_loop_mid {F : Type} (L : FloatLib F) (alloc : Nat → Bool)
    (mid : List (List Char)) (st st1 : MtlState F) (h : mtl_loop L alloc mid st = .ok st1)
    (hmid : ∀ r ∈ mid, is_newmtl r = false)
    (A : List (CJellyFormat3dMtlMaterial F)) (x : CJellyFormat3dMtlMaterial F)
    (hm : st.materials = A ++ [x]) (hc : st.current = some A.length) :
    ∃ x1, st1.materials = A ++ [x1] ∧ st1.current = some A.length ∧ x1.name = x.name ∧
      ((∀ r ∈ mid, sets_Ka r = false) → x1.Ka = x.Ka) ∧
      ((∀ r ∈ mid, sets_Kd r = false) → x1.Kd = x.Kd) ∧
      ((∀ r ∈ mid, sets_Ks r = false) → x1.Ks = x.Ks) ∧
      ((∀ r ∈ mid, sets_Ns r = false) → x1.Ns = x.Ns) ∧
      ((∀ r ∈ mid, sets_d r = false) → x1.d = x.d) ∧
      ((∀ r ∈ mid, sets_illum r = false) → x1.illum = x.illum) := by
  induction mid generalizing st x with
  | nil =>
    cases h
    exact ⟨x, hm, hc, rfl, fun _ => rfl, fun _ => rfl, fun _ => rfl, fun _ => rfl, fun _ => rfl,
      fun _ => rfl⟩
  | cons raw rest ih =>
    obtain ⟨s1, h1, h2⟩ := mtl_loop_cons L alloc raw rest st st1 h
    obtain ⟨x1, a1, a2, a3, b1, b2, b3, b4, b5, b6⟩ :=
      mtl_line_tail L alloc st s1 raw h1 (hmid raw (by simp)) A x hm hc
    obtain ⟨x2, c1, c2, c3, d1, d2, d3, d4, d5, d6⟩ :=
      ih s1 h2 (fun r hr => hmid r (by simp [hr])) x1 a1 a2
    refine ⟨x2, c1, c2, c3.trans a3, ?_, ?_, ?_, ?_, ?_, ?_⟩
    · exact fun hh => (d1 (fun r hr => hh r (by simp [hr]))).trans (b1 (hh raw (by simp)))
    · exact fun hh => (d2 (fun r hr => hh r (by simp [hr]))).trans (b2 (hh raw (by simp)))
    · exact fun hh => (d3 (fun r hr => hh r (by simp [hr]))).trans (b3 (hh raw (by simp)))
    · exact fun hh => (d4 (fun r hr => hh r (by simp [hr]))).trans (b4 (hh raw (by simp)))
    · exact fun hh => (d5 (fun r hr => hh r (by simp [hr]))).trans (b5 (hh raw (by simp)))
    · exact fun hh => (d6 (fun r hr => hh r (by simp [hr]))).trans (b6 (hh raw (by simp)))

/-- The materials before the current one are never changed again. -/
theorem mtl_loop_keep {F : Type} (L : FloatLib F) (alloc : Nat → Bool)
    (lines : List (List Char)) (st st1 : MtlState F) (h : mtl_loop L alloc lines st = .ok st1)
    (A : List (CJellyFormat3dMtlMaterial F)) (x : CJellyFormat3dMtlMaterial F)
    (hm : st.materials = A ++ [x]) (hc : st.current = some A.length) :
    ∃ T, st1.materials = A ++ T := by
  induction lines generalizing st A x with
  | nil =>
    cases h
    exact ⟨[x], hm⟩
  | cons raw rest ih =>
    obtain ⟨s1, h1, h2⟩ := mtl_loop_cons L alloc raw rest st st1 h
    cases hn : is_newmtl raw with
    | false =>
      obtain ⟨x1, a1, a2, -⟩ := mtl_line_tail L alloc st s1 raw h1 hn A x hm hc
      exact ih s1 h2 A x1 a1 a2
    | true =>
      obtain ⟨-, name, e1, e2⟩ := (mtl_line_spec L alloc st s1 raw h1).2.1 hn
      rw [hm] at e1 e2
      obtain ⟨T, hT⟩ := ih s1 h2 (A ++ [x]) _ e1 e2
      exact ⟨[x] ++ T, by rw [hT]; simp⟩

theorem mtl_line_error {F : Type} (L : FloatLib F) (alloc : Nat → Bool) (st : MtlState F)
    (raw : List Char) (e : CJellyFormat3dMtlError) (h : mtl_line L alloc st raw = .error (.error e)) :
    e = .ERR_OUT_OF_MEMORY ∨ e = .ERR_INVALID_FORMAT := by
  unfold mtl_line at h
  simp only [] at h
  repeat' split at h
  all_goals cases h
  all_goals simp

theorem mtl_loop_error {F : Type} (L : FloatLib F) (alloc : Nat → Bool)
    (lines : List (List Char)) (st : MtlState F) (e : CJellyFormat3dMtlError)
    (h : mtl_loop L alloc lines st = .error (.error e)) :
    e = .ERR_OUT_OF_MEMORY ∨ e = .ERR_INVALID_FORMAT := by
  induction lines generalizing st with
  | nil => cases h
  | cons raw rest ih =>
    rw [mtl_loop] at h
    split at h
    · cases h
      exact mtl_line_error L alloc st raw _ (by assumption)
    · exact ih _ h

/-- A successful call has opened a file and run the read loop to its end. -/
theorem mtl_load_success {F : Type} (L : FloatLib F) (alloc : Nat → Bool)
    (fopen : List Char → Option (List Char)) (line0 path text : List Char)
    (lib0 lib : CJellyFormat3dMtl F) (ht : fopen path = some text)
    (h : cjelly_format_3d_mtl_load L alloc fopen line0 (some path) (some lib0)
      = .returned .SUCCESS (some lib)) :
    ∃ st, mtl_loop L alloc (fgets_all text) (mtl_init F alloc line0) = .ok st ∧
      lib = ⟨if st.null_storage then none else some st.materials, st.materials.length⟩ := by
  unfold cjelly_format_3d_mtl_load at h
  cases hl : mtl_loop L alloc (fgets_all text) (mtl_init F alloc line0) with
  | error e =>
    cases e with
    | error err =>
      simp only [ht, hl] at h
      injection h with h1 h2
      subst h1
      rcases mtl_loop_error L alloc _ _ _ hl with h3 | h3 <;> cases h3
    | undefined =>
      simp only [ht, hl] at h
      cases h
  | ok st =>
    simp only [ht, hl] at h
    injection h with h1 h2
    injection h2 with h3
    exact ⟨st, rfl, h3.symm⟩

/-! ## The material loader and the previous content of the line array -/

theorem strncmp_eq_length (line : List Char) (p : String) (h : strncmp_eq line p = true) :
    p.length ≤ line.length := by
  have h1 : line.take p.length = p.toList := by simpa [strncmp_eq] using h
  have h2 := congrArg List.length h1
  simp at h2
  omega

theorem payload_after_keyword (buf raw : List Char) (p : String)
    (h : strncmp_eq (chomp raw) p = true) :
    cstr_at (cut_line (fgets_store buf raw)) p.length = (chomp raw).drop p.length :=
  cstr_after_fgets buf raw _ (strncmp_eq_length _ _ h)

theorem payload_of_d (buf raw : List Char) (h : (chomp raw).head? = some 'd') :
    cstr_at (cut_line (fgets_store buf raw)) 1 = (chomp raw).drop 1 := by
  apply cstr_after_fgets
  cases hc : chomp raw with
  | nil => simp [hc] at h
  | cons a t => simp

/-- The loop body does not depend on what the array `line` held before, provided a `newmtl`
line has a character behind the keyword. -/
theorem mtl_line_vars {F : Type} (L : FloatLib F) (alloc : Nat → Bool) (st st1 : MtlState F)
    (raw : List Char) (hv : st.vars = st1.vars)
    (h7 : is_newmtl raw = true → 7 ≤ (chomp raw).length) :
    (mtl_line L alloc st raw).map MtlState.vars = (mtl_line L alloc st1 raw).map MtlState.vars := by
  obtain ⟨l, ns, ms, cap, cur, na⟩ := st
  obtain ⟨l1, ns1, ms1, cap1, cur1, na1⟩ := st1
  simp only [MtlState.vars, Prod.mk.injEq] at hv
  obtain ⟨rfl, rfl, rfl, rfl, rfl⟩ := hv
  unfold mtl_line
  simp only [line_after_fgets]
  by_cases hs : (chomp raw).head? = some '#' ∨ chomp raw = []
  · simp only [hs, if_true]
    rfl
  simp only [hs, if_false]
  by_cases hn : strncmp_eq (chomp raw) "newmtl" = true
  · have e7 := fun b => cstr_after_fgets b raw 7 (h7 hn)
    simp only [hn, if_true, e7]
    repeat' split
    all_goals rfl
  simp only [hn, Bool.false_eq_true, if_false]
  cases cur with
  | none => rfl
  | some k =>
    simp only []
    by_cases h1 : strncmp_eq (chomp raw) "Ka" = true
    · have e := fun b => payload_after_keyword b raw "Ka" h1
      have e2 : "Ka".length = 2 := rfl
      rw [e2] at e
      simp only [h1, if_true, e]
      split <;> rfl
    simp only [h1, Bool.false_eq_true, if_false]
    by_cases h2 : strncmp_eq (chomp raw) "Kd" = true
    · have e := fun b => payload_after_keyword b raw "Kd" h2
      have e2 : "Kd".length = 2 := rfl
      rw [e2] at e
      simp only [h2, if_true, e]
      split <;> rfl
    simp only [h2, Bool.false_eq_true, if_false]
    by_cases h3 : strncmp_eq (chomp raw) "Ks" = true
    · have e := fun b => payload_after_keyword b raw "Ks" h3
      have e2 : "Ks".length = 2 := rfl
      rw [e2] at e
      simp only [h3, if_true, e]
      split <;> rfl
    simp only [h3, Bool.false_eq_true, if_false]
    by_cases h4 : strncmp_eq (chomp raw) "Ns" = true
    · have e := fun b => payload_after_keyword b raw "Ns" h4
      have e2 : "Ns".length = 2 := rfl
      rw [e2] at e
      simp only [h4, if_true, e]
      split <;> rfl
    simp only [h4, Bool.false_eq_true, if_false]
    by_cases h5 : (chomp raw).head? = some 'd' ∧
        ((chomp raw).get? 1 = some ' ' ∨ (chomp raw).get? 1 = some '\t')
    · have e := fun b => payload_of_d b raw h5.1
      simp only [if_pos h5, e]
      split <;> rfl
    simp only [if_neg h5]
    by_cases h6 : strncmp_eq (chomp raw) "illum" = true
    · have e := fun b => payload_after_keyword b raw "illum" h6
      have e2 : "illum".length = 5 := rfl
      rw [e2] at e
      simp only [h6, if_true, e]
      split <;> rfl
    simp only [h6, Bool.false_eq_true, if_false]
    rfl

theorem mtl_loop_vars {F : Type} (L : FloatLib F) (alloc : Nat → Bool)
    (lines : List (List Char)) (st st1 : MtlState F) (hv : st.vars = st1.vars)
    (hl : NamesInLine lines) :
    (mtl_loop L alloc lines st).map MtlState.vars
      = (mtl_loop L alloc lines st1).map MtlState.vars := by
  induction lines generalizing st st1 with
  | nil => simp [mtl_loop, Except.map, hv]
  | cons raw rest ih =>
    have h1 := mtl_line_vars L alloc st st1 raw hv (hl raw (by simp))
    have hrest : NamesInLine rest := fun r hr => hl r (by simp [hr])
    rw [mtl_loop, mtl_loop]
    cases ha : mtl_line L alloc st raw with
    | error e =>
      cases hb : mtl_line L alloc st1 raw with
      | error e1 =>
        rw [ha, hb] at h1
        simp only [Except.map] at h1
        injection h1 with h1
        subst h1
        rfl
      | ok b =>
        rw [ha, hb] at h1
        simp [Except.map] at h1
    | ok a =>
      cases hb : mtl_line L alloc st1 raw with
      | error e1 =>
        rw [ha, hb] at h1
        simp [Except.map] at h1
      | ok b =>
        rw [ha, hb] at h1
        simp only [Except.map] at h1
        injection h1 with h1
        exact ih a b h1 hrest

/-- The result of the material loader does not depend on the initial content of the array
`line` when every `newmtl` line of the file has a character behind the keyword. -/
theorem mtl_load_line0 {F : Type} (L : FloatLib F) (alloc : Nat → Bool)
    (fopen : List Char → Option (List Char)) (line0 line1 : List Char)
    (filename : Option (List Char)) (materials : Option (CJellyFormat3dMtl F))
    (hl : ∀ path text, filename = some path → fopen path = some text →
      NamesInLine (fgets_all text)) :
    cjelly_format_3d_mtl_load L alloc fopen line0 filename materials
      = cjelly_format_3d_mtl_load L alloc fopen line1 filename materials := by
  unfold cjelly_format_3d_mtl_load
  cases filename with
  | none => rfl
  | some path =>
    cases materials with
    | none => rfl
    | some lib =>
      simp only []
      cases ht : fopen path with
      | none => rfl
      | some text =>
        simp only []
        have h := mtl_loop_vars L alloc (fgets_all text) (mtl_init F alloc line0)
          (mtl_init F alloc line1) rfl (hl path text rfl ht)
        cases ha : mtl_loop L alloc (fgets_all text) (mtl_init F alloc line0) with
        | error e =>
          cases hb : mtl_loop L alloc (fgets_all text) (mtl_init F alloc line1) with
          | error e1 =>
            rw [ha, hb] at h
            simp only [Except.map] at h
            injection h with h
            subst h
            rfl
          | ok b =>
            rw [ha, hb] at h
            simp [Except.map] at h
        | ok a =>
          cases hb : mtl_loop L alloc (fgets_all text) (mtl_init F alloc line1) with
          | error e1 =>
            rw [ha, hb] at h
            simp [Except.map] at h
          | ok b =>
            rw [ha, hb] at h
            simp only [Except.map, MtlState.vars] at h
            injection h with h
            simp only [Prod.mk.injEq] at h
            obtain ⟨h1, h2, -⟩ := h
            simp only [h1, h2]

/-! ## Fields of a material that no line sets -/

/-- The material created by a `newmtl` line, in a successfully parsed library: it sits at the
index given by the number of earlier `newmtl` lines, and each of its numeric fields that no
line up to the next `newmtl` line is dispatched to still has the value given by `memset`. -/
theorem mtl_unset_fields {F : Type} (L : FloatLib F) (alloc : Nat → Bool)
    (fopen : List Char → Option (List Char)) (line0 path text : List Char)
    (lib0 lib : CJellyFormat3dMtl F) (ht : fopen path = some text)
    (h : cjelly_format_3d_mtl_load L alloc fopen line0 (some path) (some lib0)
      = .returned .SUCCESS (some lib))
    (pre : List (List Char)) (decl : List Char) (mid post : List (List Char))
    (hsplit : fgets_all text = pre ++ decl :: (mid ++ post)) (hdecl : is_newmtl decl = true)
    (hmid : ∀ r ∈ mid, is_newmtl r = false)
    (hpost : ∀ d, post.head? = some d → is_newmtl d = true) :
    ∃ ms mat, lib.materials = some ms ∧ lib.material_count = ms.length ∧
      ms[(pre.filter is_newmtl).length]? = some mat ∧
      ((∀ r ∈ mid, sets_Ka r = false) → mat.Ka = (L.zero, L.zero, L.zero)) ∧
      ((∀ r ∈ mid, sets_Kd r = false) → mat.Kd = (L.zero, L.zero, L.zero)) ∧
      ((∀ r ∈ mid, sets_Ks r = false) → mat.Ks = (L.zero, L.zero, L.zero)) ∧
      ((∀ r ∈ mid, sets_Ns r = false) → mat.Ns = L.zero) ∧
      ((∀ r ∈ mid, sets_d r = false) → mat.d = L.zero) ∧
      ((∀ r ∈ mid, sets_illum r = false) → mat.illum = 0) := by
  obtain ⟨st, h1, rfl⟩ := mtl_load_success L alloc fopen line0 path text lib0 lib ht h
  rw [hsplit] at h1
  obtain ⟨s1, p1, p2⟩ := mtl_loop_append L alloc pre _ _ _ h1
  obtain ⟨s2, p3, p4⟩ := mtl_loop_cons L alloc decl _ _ _ p2
  obtain ⟨s3, p5, p6⟩ := mtl_loop_append L alloc mid post _ _ p4
  have c1 : s1.materials.length = (pre.filter is_newmtl).length := by
    simpa [mtl_init] using mtl_loop_count L alloc _ _ _ p1
  obtain ⟨n0, n1, -⟩ := mtl_line_spec L alloc s1 s2 decl p3
  obtain ⟨hnull, name, e1, e2⟩ := n1 hdecl
  have hns : st.null_storage = false := by
    rw [mtl_loop_null_storage L alloc _ _ _ p4, n0, hnull]
  obtain ⟨x1, m1, m2, -, b1, b2, b3, b4, b5, b6⟩ :=
    mtl_loop_mid L alloc mid s2 s3 p5 hmid _ _ e1 e2
  have hfin : ∃ T, st.materials = s1.materials ++ x1 :: T := by
    cases post with
    | nil =>
      cases p6
      exact ⟨[], m1⟩
    | cons d rest =>
      obtain ⟨s4, q1, q2⟩ := mtl_loop_cons L alloc d rest _ _ p6
      obtain ⟨-, dn, g1, g2⟩ := (mtl_line_spec L alloc s3 s4 d q1).2.1 (hpost d rfl)
      rw [m1] at g1 g2
      obtain ⟨T, hT⟩ := mtl_loop_keep L alloc rest s4 st q2 _ _ g1 g2
      exact ⟨T, by rw [hT]; simp⟩
  obtain ⟨T, hT⟩ := hfin
  refine ⟨st.materials, x1, by simp [hns], rfl, ?_, ?_, ?_, ?_, ?_, ?_, ?_⟩
  · rw [hT, ← c1, List.getElem?_append_right (Nat.le_refl _)]
    simp
  · exact fun hh => b1 hh
  · exact fun hh => b2 hh
  · exact fun hh => b3 hh
  · exact fun hh => b4 hh
  · exact fun hh => b5 hh
  · exact fun hh => b6 hh

theorem scenario_C_names_in_line (path text : List Char)
    (h1 : one_file "newmtl red\nKd 1 0 0\n" path = some text) : NamesInLine (fgets_all text) := by
  simp only [one_file, Option.some.injEq] at h1
  subst h1
  unfold NamesInLine
  decide

set_option maxRecDepth 100000 in
/-- Claim C9 as stated fails on a line longer than the line array: in the text `newmtl a`
followed by the one line of 255 characters `#` and `Ka 1 1 1`, a comment line, no property
line sets the ambient color, and the material is returned with ambient color `(1,1,1)`,
since `fgets` hands over the last 9 characters of the long line as a buffer of their own. -/
theorem C9_long_line_counterexample :
    text_lines ("newmtl a\n".toList ++ List.replicate 255 '#' ++ "Ka 1 1 1\n".toList)
      = ["newmtl a\n".toList, List.replicate 255 '#' ++ "Ka 1 1 1\n".toList] ∧
    sets_Ka (List.replicate 255 '#' ++ "Ka 1 1 1\n".toList) = false ∧
    is_skipped (List.replicate 255 '#' ++ "Ka 1 1 1\n".toList) = true ∧
    cjelly_format_3d_mtl_load decimalLib alloc_ok
        (fun _ => some ("newmtl a\n".toList ++ List.replicate 255 '#' ++ "Ka 1 1 1\n".toList)) []
        (some "l.mtl".toList) (some ⟨none, 0⟩)
      = .returned .SUCCESS (some ⟨some [{ zero_material decimalLib with
          name := "a".toList, Ka := (⟨1, 0⟩, ⟨1, 0⟩, ⟨1, 0⟩) }], 1⟩) := by
  refine ⟨by decide, by decide, by decide, rfl⟩

/-- Claim C9, amended.  In a successfully parsed library whose text has lines of at most 255
characters, terminators included, the material created by a `newmtl` line has ambient,
diffuse and specular color `(0,0,0)`, specular exponent 0, dissolve 0 and illumination model
0 in every field to which no line between its `newmtl` line and the next one (or the end of
the input) is dispatched.  The input `newmtl red`, `Kd 1 0 0` gives exactly one material,
named `red`, with diffuse `(1,0,0)` and every other numeric field zero. -/
theorem C9_unset_fields_zero {F : Type} (L : FloatLib F) (alloc : Nat → Bool)
    (fopen : List Char → Option (List Char)) (line0 path text : List Char)
    (lib0 lib : CJellyFormat3dMtl F) (ht : fopen path = some text)
    (h : cjelly_format_3d_mtl_load L alloc fopen line0 (some path) (some lib0)
      = .returned .SUCCESS (some lib)) :
    (ShortLines text →
      ∀ pre decl mid post, text_lines text = pre ++ decl :: (mid ++ post) →
      is_newmtl decl = true → (∀ r ∈ mid, is_newmtl r = false) →
      (∀ d, post.head? = some d → is_newmtl d = true) →
      ∃ ms mat, lib.materials = some ms ∧ ms[(pre.filter is_newmtl).length]? = some mat ∧
        ((∀ r ∈ mid, sets_Ka r = false) → mat.Ka = (L.zero, L.zero, L.zero)) ∧
        ((∀ r ∈ mid, sets_Kd r = false) → mat.Kd = (L.zero, L.zero, L.zero)) ∧
        ((∀ r ∈ mid, sets_Ks r = false) → mat.Ks = (L.zero, L.zero, L.zero)) ∧
        ((∀ r ∈ mid, sets_Ns r = false) → mat.Ns = L.zero) ∧
        ((∀ r ∈ mid, sets_d r = false) → mat.d = L.zero) ∧
        ((∀ r ∈ mid, sets_illum r = false) → mat.illum = 0)) ∧
    (∀ (junk : List Char) (old : CJellyFormat3dMtl Decimal),
      cjelly_format_3d_mtl_load decimalLib alloc_ok (one_file "newmtl red\nKd 1 0 0\n") junk
          (some "red.mtl".toList) (some old)
        = .returned .SUCCESS (some ⟨some [⟨"red".toList, (⟨0, 0⟩, ⟨0, 0⟩, ⟨0, 0⟩),
            (⟨1, 0⟩, ⟨0, 0⟩, ⟨0, 0⟩), (⟨0, 0⟩, ⟨0, 0⟩, ⟨0, 0⟩), ⟨0, 0⟩, ⟨0, 0⟩, 0⟩], 1⟩)) := by
  constructor
  · intro hshort pre decl mid post hsplit hdecl hmid hpost
    rw [← fgets_all_short text hshort] at hsplit
    obtain ⟨ms, mat, a1, -, a2, a3⟩ := mtl_unset_fields L alloc fopen line0 path text lib0 lib ht h
      pre decl mid post hsplit hdecl hmid hpost
    exact ⟨ms, mat, a1, a2, a3⟩
  · intro junk old
    rw [mtl_load_line0 decimalLib alloc_ok _ junk [] _ _
      (fun p t hp ht => scenario_C_names_in_line p t ht)]
    rfl

theorem C9_unset_fields_zero_witness :
    ∃ ms mat, ms[0]? = some mat ∧ mat.Ka = ((⟨0, 0⟩, ⟨0, 0⟩, ⟨0, 0⟩) : Decimal × Decimal × Decimal) ∧
      mat.Ns = ⟨0, 0⟩ ∧ mat.d = ⟨0, 0⟩ ∧ mat.illum = 0 ∧
      cjelly_format_3d_mtl_load decimalLib alloc_ok (one_file "newmtl a\nKd 1 0 0\nnewmtl b\n") []
        (some "two.mtl".toList) (some ⟨none, 0⟩) = .returned .SUCCESS (some ⟨some ms, 2⟩) := by
  have h := (C9_unset_fields_zero decimalLib alloc_ok (one_file "newmtl a\nKd 1 0 0\nnewmtl b\n") []
    "two.mtl".toList "newmtl a\nKd 1 0 0\nnewmtl b\n".toList ⟨none, 0⟩
    ⟨some [⟨"a".toList, (⟨0, 0⟩, ⟨0, 0⟩, ⟨0, 0⟩), (⟨1, 0⟩, ⟨0, 0⟩, ⟨0, 0⟩), (⟨0, 0⟩, ⟨0, 0⟩, ⟨0, 0⟩),
        ⟨0, 0⟩, ⟨0, 0⟩, 0⟩,
      ⟨"b".toList, (⟨0, 0⟩, ⟨0, 0⟩, ⟨0, 0⟩), (⟨0, 0⟩, ⟨0, 0⟩, ⟨0, 0⟩), (⟨0, 0⟩, ⟨0, 0⟩, ⟨0, 0⟩),
        ⟨0, 0⟩, ⟨0, 0⟩, 0⟩], 2⟩ rfl (by decide)).1 (by unfold ShortLines; decide)
    [] "newmtl a\n".toList ["Kd 1 0 0\n".toList] ["newmtl b\n".toList] (by decide) (by decide)
    (by decide) (by decide)
  obtain ⟨ms, mat, a1, a2, b1, -, -, b4, b5, b6⟩ := h
  simp only [Option.some.injEq] at a1
  subst a1
  exact ⟨_, mat, a2, b1 (by decide), b4 (by decide), b5 (by decide), b6 (by decide), by decide⟩

set_option maxRecDepth 100000 in
/-- Claim C10 as stated fails: on the input `newmtl red`, `Kd 1 0 0`, which has no `d` line,
the material `red` is stored with dissolve 0 (the value `memset` gives), not 1.  Nor is the
value always 0: in the text `newmtl a` followed by the one line of 255 characters `#` and
`d 0.5`, a comment line longer than the line array, no line is a `d` line and the material is
stored with dissolve 0.5. -/
theorem C10_dissolve_default_counterexample :
    (∃ mat, cjelly_format_3d_mtl_load decimalLib alloc_ok (one_file "newmtl red\nKd 1 0 0\n") []
        (some "red.mtl".toList) (some ⟨none, 0⟩) = .returned .SUCCESS (some ⟨some [mat], 1⟩) ∧
      mat.d = ⟨0, 0⟩ ∧ mat.d.mant ≠ 10 ^ mat.d.frac) ∧
    text_lines ("newmtl a\n".toList ++ List.replicate 255 '#' ++ "d 0.5\n".toList)
      = ["newmtl a\n".toList, List.replicate 255 '#' ++ "d 0.5\n".toList] ∧
    sets_d (List.replicate 255 '#' ++ "d 0.5\n".toList) = false ∧
    cjelly_format_3d_mtl_load decimalLib alloc_ok
        (fun _ => some ("newmtl a\n".toList ++ List.replicate 255 '#' ++ "d 0.5\n".toList)) []
        (some "l.mtl".toList) (some ⟨none, 0⟩)
      = .returned .SUCCESS (some ⟨some [{ zero_material decimalLib with
          name := "a".toList, d := ⟨5, 1⟩ }], 1⟩) := by
  refine ⟨⟨_, rfl, by decide, by decide⟩, by decide, by decide, rfl⟩

/-- Claim C10, amended.  In a successfully parsed library whose text has lines of at most 255
characters, terminators included, a material declared by `newmtl` for which no `d` line
follows before the next `newmtl` line (or the end of the input) has dissolve 0, the value
given by the zero-initialization of the record. -/
theorem C10_dissolve_default_zero {F : Type} (L : FloatLib F) (alloc : Nat → Bool)
    (fopen : List Char → Option (List Char)) (line0 path text : List Char)
    (lib0 lib : CJellyFormat3dMtl F) (ht : fopen path = some text)
    (hshort : ShortLines text)
    (h : cjelly_format_3d_mtl_load L alloc fopen line0 (some path) (some lib0)
      = .returned .SUCCESS (some lib))
    (pre : List (List Char)) (decl : List Char) (mid post : List (List Char))
    (hsplit : text_lines text = pre ++ decl :: (mid ++ post)) (hdecl : is_newmtl decl = true)
    (hmid : ∀ r ∈ mid, is_newmtl r = false)
    (hpost : ∀ d, post.head? = some d → is_newmtl d = true)
    (hd : ∀ r ∈ mid, sets_d r = false) :
    ∃ ms mat, lib.materials = some ms ∧ ms[(pre.filter is_newmtl).length]? = some mat ∧
      mat.d = L.zero := by
  rw [← fgets_all_short text hshort] at hsplit
  obtain ⟨ms, mat, a1, -, a2, -, -, -, -, a3, -⟩ :=
    mtl_unset_fields L alloc fopen line0 path text lib0 lib ht h pre decl mid post hsplit hdecl
      hmid hpost
  exact ⟨ms, mat, a1, a2, a3 hd⟩

theorem C10_dissolve_default_zero_witness :
    ∃ ms mat, ms[1]? = some mat ∧ mat.d = (⟨0, 0⟩ : Decimal) ∧
      cjelly_format_3d_mtl_load decimalLib alloc_ok (one_file "newmtl a\nd 0.5\nnewmtl b\nNs 2\n")
        [] (some "two.mtl".toList) (some ⟨none, 0⟩) = .returned .SUCCESS (some ⟨some ms, 2⟩) := by
  obtain ⟨ms, mat, a1, a2, a3⟩ := C10_dissolve_default_zero decimalLib alloc_ok
    (one_file "newmtl a\nd 0.5\nnewmtl b\nNs 2\n") [] "two.mtl".toList
    "newmtl a\nd 0.5\nnewmtl b\nNs 2\n".toList ⟨none, 0⟩
    ⟨some [⟨"a".toList, (⟨0, 0⟩, ⟨0, 0⟩, ⟨0, 0⟩), (⟨0, 0⟩, ⟨0, 0⟩, ⟨0, 0⟩), (⟨0, 0⟩, ⟨0, 0⟩, ⟨0, 0⟩),
        ⟨0, 0⟩, ⟨5, 1⟩, 0⟩,
      ⟨"b".toList, (⟨0, 0⟩, ⟨0, 0⟩, ⟨0, 0⟩), (⟨0, 0⟩, ⟨0, 0⟩, ⟨0, 0⟩), (⟨0, 0⟩, ⟨0, 0⟩, ⟨0, 0⟩),
        ⟨2, 0⟩, ⟨0, 0⟩, 0⟩], 2⟩ rfl (by unfold ShortLines; decide) (by decide)
    ["newmtl a\n".toList, "d 0.5\n".toList] "newmtl b\n".toList ["Ns 2\n".toList] []
    (by decide) (by decide) (by decide) (by decide) (by decide)
  simp only [Option.some.injEq] at a1
  subst a1
  exact ⟨_, mat, a2, a3, by decide⟩

/-! ## Failure paths and the error texts -/

/-- Claim C16.  When the arguments are not null and the file cannot be opened, the material
loader returns `ERR_FILE_NOT_FOUND` and leaves the caller's library with `material_count = 0`
and null storage, whatever the library held before the call, whatever the allocator would
do and whatever the line array holds. -/
theorem C16_mtl_file_not_found {F : Type} (L : FloatLib F) (alloc : Nat → Bool)
    (fopen : List Char → Option (List Char)) (line0 path : List Char)
    (lib0 : CJellyFormat3dMtl F) (ht : fopen path = none) :
    cjelly_format_3d_mtl_load L alloc fopen line0 (some path) (some lib0)
      = .returned .ERR_FILE_NOT_FOUND (some ⟨none, 0⟩) := by
  simp [cjelly_format_3d_mtl_load, ht]

theorem C16_mtl_file_not_found_witness :
    cjelly_format_3d_mtl_load decimalLib alloc_ok (fun _ => none) [] (some "missing.mtl".toList)
        (some ⟨some [zero_material decimalLib], 1⟩)
      = .returned .ERR_FILE_NOT_FOUND (some ⟨none, 0⟩) :=
  C16_mtl_file_not_found decimalLib alloc_ok (fun _ => none) [] "missing.mtl".toList
    ⟨some [zero_material decimalLib], 1⟩ rfl

theorem obj_load_returned {F : Type} (L : FloatLib F) (alloc : Nat → Bool)
    (fopen : List Char → Option (List Char)) (filename : Option (List Char))
    (outModel_ok : Bool) (err : CJellyFormat3dObjError)
    (out : Option (CJellyFormat3dObjModel F))
    (h : cjelly_format_3d_obj_load L alloc fopen filename outModel_ok = .returned err out) :
    (err ≠ .SUCCESS → out = none) ∧ (err = .SUCCESS → out.isSome = true) ∧
    ((filename = none ∨ outModel_ok = false) → err = .ERR_INVALID_FORMAT) ∧
    (∀ path, filename = some path → outModel_ok = true → fopen path = none →
      err = .ERR_FILE_NOT_FOUND) ∧
    (∀ path text, filename = some path → outModel_ok = true → fopen path = some text →
      err ≠ .SUCCESS → err = .ERR_OUT_OF_MEMORY) := by
  unfold cjelly_format_3d_obj_load at h
  cases filename with
  | none =>
    cases h
    simp
  | some path =>
    cases outModel_ok with
    | false =>
      cases h
      simp
    | true =>
      cases ht : fopen path with
      | none =>
        simp only [ht] at h
        cases h
        refine ⟨by simp, by simp, by simp, by simp, ?_⟩
        intro p t hp _ h2
        simp only [Option.some.injEq] at hp
        subst hp
        rw [ht] at h2
        cases h2
      | some text =>
        cases hl : obj_loop L alloc (fgets_all text) (obj_init F) with
        | error e =>
          have he := obj_loop_error L alloc _ _ _ hl
          subst he
          simp only [ht, hl, Bool.not_true, Bool.false_eq_true, if_false] at h
          repeat' split at h
          all_goals cases h
          all_goals simp [ht]
        | ok st =>
          simp only [ht, hl, Bool.not_true, Bool.false_eq_true, if_false] at h
          repeat' split at h
          all_goals cases h
          all_goals simp [ht]

/-- The geometry loader returns, except when the allocation of the vertex, texcoord, normal
or face array fails after the model has been allocated. -/
theorem obj_load_returns {F : Type} (L : FloatLib F) (alloc : Nat → Bool)
    (fopen : List Char → Option (List Char)) (filename : Option (List Char))
    (outModel_ok : Bool)
    (h : alloc 0 = false ∨ (alloc 1 = true ∧ alloc 2 = true ∧ alloc 3 = true ∧ alloc 4 = true)) :
    ∃ err out, (cjelly_format_3d_obj_load L alloc fopen filename outModel_ok : ObjOutcome F)
      = .returned err out := by
  unfold cjelly_format_3d_obj_load
  cases filename with
  | none => exact ⟨_, _, rfl⟩
  | some path =>
    cases outModel_ok with
    | false => exact ⟨_, _, rfl⟩
    | true =>
      cases ht : fopen path with
      | none => exact ⟨.ERR_FILE_NOT_FOUND, none, by simp [ht]⟩
      | some text =>
        simp only [Bool.not_true, Bool.false_eq_true, if_false]
        rcases h with h0 | ⟨h1, h2, h3, h4⟩
        · exact ⟨.ERR_OUT_OF_MEMORY, none, by simp [h0, ht]⟩
        · simp only [ht, h1, h2, h3, h4, Bool.not_true, Bool.false_eq_true, if_false]
          repeat' split
          all_goals exact ⟨_, _, rfl⟩

/-- Claim C17.  Whenever the geometry loader returns a code other than `SUCCESS`, it has not
written the caller's output pointer, and when it returns `SUCCESS` it has written a model:
the output is assigned on the success path only.  It returns `ERR_INVALID_FORMAT` for a null
argument, `ERR_FILE_NOT_FOUND` for a file that cannot be opened, and `ERR_OUT_OF_MEMORY` in
every other case of failure that returns; and it does return unless the allocation of the
vertex, texcoord, normal or face array fails after that of the model succeeded. -/
theorem C17_no_partial_model {F : Type} (L : FloatLib F) (alloc : Nat → Bool)
    (fopen : List Char → Option (List Char)) (filename : Option (List Char))
    (outModel_ok : Bool) :
    (∀ err out, cjelly_format_3d_obj_load L alloc fopen filename outModel_ok
        = (.returned err out : ObjOutcome F) →
      (err ≠ .SUCCESS → out = none) ∧ (err = .SUCCESS → out.isSome = true) ∧
      ((filename = none ∨ outModel_ok = false) → err = .ERR_INVALID_FORMAT) ∧
      (∀ path, filename = some path → outModel_ok = true → fopen path = none →
        err = .ERR_FILE_NOT_FOUND) ∧
      (∀ path text, filename = some path → outModel_ok = true → fopen path = some text →
        err ≠ .SUCCESS → err = .ERR_OUT_OF_MEMORY)) ∧
    ((alloc 0 = false ∨ (alloc 1 = true ∧ alloc 2 = true ∧ alloc 3 = true ∧ alloc 4 = true)) →
      ∃ err out, (cjelly_format_3d_obj_load L alloc fopen filename outModel_ok : ObjOutcome F)
        = .returned err out) :=
  ⟨fun err out h => obj_load_returned L alloc fopen filename outModel_ok err out h,
   obj_load_returns L alloc fopen filename outModel_ok⟩

theorem C17_no_partial_model_witness :
    cjelly_format_3d_obj_load decimalLib alloc_first_fails (one_file "v 1 2 3\n")
        (some "a.obj".toList) true
      = (.returned .ERR_OUT_OF_MEMORY none : ObjOutcome Decimal) ∧
    (CJellyFormat3dObjError.ERR_OUT_OF_MEMORY ≠ .SUCCESS →
      (none : Option (CJellyFormat3dObjModel Decimal)) = none) :=
  ⟨rfl, ((C17_no_partial_model decimalLib alloc_first_fails (one_file "v 1 2 3\n")
    (some "a.obj".toList) true).1 .ERR_OUT_OF_MEMORY none rfl).1⟩

/-- Claim C18.  What the material loader does when its initial allocation fails: on a text
without a `newmtl` line it returns `SUCCESS`, not `ERR_OUT_OF_MEMORY` (the library is left
with `material_count = 0` and null storage); on a text with a `newmtl` line it clears
memory through the null pointer.  The test that follows the `malloc` is on `materials`, the
argument already known not to be null, instead of `materials->materials`. -/
theorem C18_initial_allocation_unchecked :
    cjelly_format_3d_mtl_load decimalLib alloc_first_fails (one_file "# no material\nKd 1 0 0\n") []
        (some "a.mtl".toList) (some ⟨none, 0⟩)
      = .returned .SUCCESS (some ⟨none, 0⟩) ∧
    cjelly_format_3d_mtl_load decimalLib alloc_first_fails (one_file "newmtl red\n") []
        (some "a.mtl".toList) (some ⟨none, 0⟩)
      = .undefined := by
  constructor <;> rfl

/-- Claim C19.  With a null filename or a null output argument both loaders return
`ERR_INVALID_FORMAT`, whatever files exist and whatever the allocator would do; the geometry
loader does not write the output pointer and the material loader leaves the caller's library
as it was. -/
theorem C19_null_arguments {F : Type} (L : FloatLib F) (alloc : Nat → Bool)
    (fopen : List Char → Option (List Char)) (line0 : List Char)
    (filename : Option (List Char)) (outModel_ok : Bool)
    (materials : Option (CJellyFormat3dMtl F))
    (ho : filename = none ∨ outModel_ok = false)
    (hm : filename = none ∨ materials = none) :
    cjelly_format_3d_obj_load L alloc fopen filename outModel_ok
      = .returned .ERR_INVALID_FORMAT none ∧
    cjelly_format_3d_mtl_load L alloc fopen line0 filename materials
      = .returned .ERR_INVALID_FORMAT materials := by
  constructor
  · rcases ho with rfl | rfl
    · rfl
    · cases filename <;> rfl
  · rcases hm with rfl | rfl
    · rfl
    · cases filename <;> rfl

theorem C19_null_arguments_witness :
    cjelly_format_3d_obj_load decimalLib alloc_ok (one_file "v 1 2 3\n") none true
      = .returned .ERR_INVALID_FORMAT none ∧
    cjelly_format_3d_mtl_load decimalLib alloc_ok (one_file "newmtl a\n") [] none
        (some ⟨some [zero_material decimalLib], 1⟩)
      = .returned .ERR_INVALID_FORMAT (some ⟨some [zero_material decimalLib], 1⟩) :=
  C19_null_arguments decimalLib alloc_ok (one_file "v 1 2 3\n") [] none true
    (some ⟨some [zero_material decimalLib], 1⟩) (Or.inl rfl) (Or.inl rfl)

/-- Claim C20.  The error-to-text function of each loader is a lookup with fixed results:
`SUCCESS` gives "No error", `ERR_FILE_NOT_FOUND` gives "OBJ file not found" for the geometry
loader and "Material file not found" for the material loader, `ERR_OUT_OF_MEMORY` gives
"Out of memory", `ERR_INVALID_FORMAT` gives "Invalid OBJ file format" and "Invalid material
file format", and every integer that is none of the four codes gives "Unknown error"; within
each loader the texts of the four codes are pairwise distinct. -/
theorem C20_strerror_table :
    cjelly_format_3d_obj_strerror CJellyFormat3dObjError.SUCCESS.code = "No error" ∧
    cjelly_format_3d_obj_strerror CJellyFormat3dObjError.ERR_FILE_NOT_FOUND.code
      = "OBJ file not found" ∧
    cjelly_format_3d_obj_strerror CJellyFormat3dObjError.ERR_OUT_OF_MEMORY.code
      = "Out of memory" ∧
    cjelly_format_3d_obj_strerror CJellyFormat3dObjError.ERR_INVALID_FORMAT.code
      = "Invalid OBJ file format" ∧
    (∀ c : Int, (∀ e : CJellyFormat3dObjError, c ≠ e.code) →
      cjelly_format_3d_obj_strerror c = "Unknown error") ∧
    cjelly_format_3d_mtl_strerror CJellyFormat3dMtlError.SUCCESS.code = "No error" ∧
    cjelly_format_3d_mtl_strerror CJellyFormat3dMtlError.ERR_FILE_NOT_FOUND.code
      = "Material file not found" ∧
    cjelly_format_3d_mtl_strerror CJellyFormat3dMtlError.ERR_OUT_OF_MEMORY.code
      = "Out of memory" ∧
    cjelly_format_3d_mtl_strerror CJellyFormat3dMtlError.ERR_INVALID_FORMAT.code
      = "Invalid material file format" ∧
    (∀ c : Int, (∀ e : CJellyFormat3dMtlError, c ≠ e.code) →
      cjelly_format_3d_mtl_strerror c = "Unknown error") ∧
    (∀ e1 e2 : CJellyFormat3dObjError,
      cjelly_format_3d_obj_strerror e1.code = cjelly_format_3d_obj_strerror e2.code → e1 = e2) ∧
    (∀ e1 e2 : CJellyFormat3dMtlError,
      cjelly_format_3d_mtl_strerror e1.code = cjelly_format_3d_mtl_strerror e2.code → e1 = e2) := by
  refine ⟨by decide, by decide, by decide, by decide, ?_, by decide, by decide, by decide,
    by decide, ?_, ?_, ?_⟩
  · intro c hc
    have h0 := hc .SUCCESS
    have h1 := hc .ERR_FILE_NOT_FOUND
    have h2 := hc .ERR_OUT_OF_MEMORY
    have h3 := hc .ERR_INVALID_FORMAT
    simp [cjelly_format_3d_obj_strerror, h0, h1, h2, h3]
  · intro c hc
    have h0 := hc .SUCCESS
    have h1 := hc .ERR_FILE_NOT_FOUND
    have h2 := hc .ERR_OUT_OF_MEMORY
    have h3 := hc .ERR_INVALID_FORMAT
    simp [cjelly_format_3d_mtl_strerror, h0, h1, h2, h3]
  · intro e1 e2
    cases e1 <;> cases e2 <;> decide
  · intro e1 e2
    cases e1 <;> cases e2 <;> decide

theorem C20_strerror_table_witness :
    cjelly_format_3d_obj_strerror 7 = "Unknown error" ∧
    cjelly_format_3d_mtl_strerror (-1) = "Unknown error" :=
  ⟨C20_strerror_table.2.2.2.2.1 7 (fun e => by cases e <;> decide),
   C20_strerror_table.2.2.2.2.2.2.2.2.2.1 (-1) (fun e => by cases e <;> decide)⟩

/-! ## The dispatch of the material loader -/

theorem mtl_keys_take2 (raw : List Char) :
    (is_skipped raw = true → (chomp raw).take 2 = [] ∨ ((chomp raw).take 2).head? = some '#') ∧
    (is_newmtl raw = true → (chomp raw).take 2 = ['n', 'e']) ∧
    (sets_Ka raw = true → (chomp raw).take 2 = ['K', 'a']) ∧
    (sets_Kd raw = true → (chomp raw).take 2 = ['K', 'd']) ∧
    (sets_Ks raw = true → (chomp raw).take 2 = ['K', 's']) ∧
    (sets_Ns raw = true → (chomp raw).take 2 = ['N', 's']) ∧
    (sets_d raw = true → (chomp raw).take 2 = ['d', ' '] ∨ (chomp raw).take 2 = ['d', '\t']) ∧
    (sets_illum raw = true → (chomp raw).take 2 = ['i', 'l']) := by
  refine ⟨?_, fun h => strncmp_eq_take2 _ "newmtl" (by decide) h,
    fun h => strncmp_eq_take2 _ "Ka" (by decide) h, fun h => strncmp_eq_take2 _ "Kd" (by decide) h,
    fun h => strncmp_eq_take2 _ "Ks" (by decide) h, fun h => strncmp_eq_take2 _ "Ns" (by decide) h,
    ?_, fun h => strncmp_eq_take2 _ "illum" (by decide) h⟩
  · intro h
    simp only [is_skipped, Bool.decide_or, Bool.or_eq_true, decide_eq_true_eq] at h
    rcases h with h | h
    · right
      cases hc : chomp raw with
      | nil => simp [hc] at h
      | cons a t => simpa [hc] using h
    · left
      simp [h]
  · intro h
    simp only [sets_d, Bool.decide_and, Bool.decide_or, Bool.and_eq_true, Bool.or_eq_true,
      decide_eq_true_eq] at h
    obtain ⟨h1, h2⟩ := h
    cases hc : chomp raw with
    | nil => simp [hc] at h1
    | cons a t =>
      cases t with
      | nil => simp [hc] at h2
      | cons b t =>
        simp [hc] at h1 h2
        subst h1
        rcases h2 with rfl | rfl
        · left; simp
        · right; simp

/-- At most one of the dispatch tests of the material loader holds for a line. -/
theorem mtl_dispatch_excl (raw : List Char) :
    (is_skipped raw = true → is_newmtl raw = false ∧ sets_Ka raw = false ∧ sets_Kd raw = false ∧ sets_Ks raw = false ∧ sets_Ns raw = false ∧ sets_d raw = false ∧ sets_illum raw = false) ∧
    (is_newmtl raw = true → is_skipped raw = false ∧ sets_Ka raw = false ∧ sets_Kd raw = false ∧ sets_Ks raw = false ∧ sets_Ns raw = false ∧ sets_d raw = false ∧ sets_illum raw = false) ∧
    (sets_Ka raw = true → is_skipped raw = false ∧ is_newmtl raw = false ∧ sets_Kd raw = false ∧ sets_Ks raw = false ∧ sets_Ns raw = false ∧ sets_d raw = false ∧ sets_illum raw = false) ∧
    (sets_Kd raw = true → is_skipped raw = false ∧ is_newmtl raw = false ∧ sets_Ka raw = false ∧ sets_Ks raw = false ∧ sets_Ns raw = false ∧ sets_d raw = false ∧ sets_illum raw = false) ∧
    (sets_Ks raw = true → is_skipped raw = false ∧ is_newmtl raw = false ∧ sets_Ka raw = false ∧ sets_Kd raw = false ∧ sets_Ns raw = false ∧ sets_d raw = false ∧ sets_illum raw = false) ∧
    (sets_Ns raw = true → is_skipped raw = false ∧ is_newmtl raw = false ∧ sets_Ka raw = false ∧ sets_Kd raw = false ∧ sets_Ks raw = false ∧ sets_d raw = false ∧ sets_illum raw = false) ∧
    (sets_d raw = true → is_skipped raw = false ∧ is_newmtl raw = false ∧ sets_Ka raw = false ∧ sets_Kd raw = false ∧ sets_Ks raw = false ∧ sets_Ns raw = false ∧ sets_illum raw = false) ∧
    (sets_illum raw = true → is_skipped raw = false ∧ is_newmtl raw = false ∧ sets_Ka raw = false ∧ sets_Kd raw = false ∧ sets_Ks raw = false ∧ sets_Ns raw = false ∧ sets_d raw = false) := by
  obtain ⟨k1, k2, k3, k4, k5, k6, k7, k8⟩ := mtl_keys_take2 raw
  refine ⟨?_, ?_, ?_, ?_, ?_, ?_, ?_, ?_⟩ <;> intro hx <;>
    refine ⟨?_, ?_, ?_, ?_, ?_, ?_, ?_⟩ <;>
    (by_contra hy
     simp only [Bool.not_eq_false] at hy
     first
       | (simp_all; done)
       | (have a := k1 hx
          have b := k7 hy
          rcases a with a | a <;> rcases b with b | b <;> simp_all)
       | (have a := k1 hy
          have b := k7 hx
          rcases a with a | a <;> rcases b with b | b <;> simp_all))

/-- The loop body on a line that is neither skipped nor a `newmtl` line, with a current
material: the payload is read inside the line. -/
theorem mtl_line_property {F : Type} (L : FloatLib F) (alloc : Nat → Bool) (st : MtlState F)
    (raw : List Char) (k : Nat) (hs : is_skipped raw = false) (hn : is_newmtl raw = false)
    (hc : st.current = some k) :
    mtl_line L alloc st raw =
      match property_update L raw with
      | none => .ok { st with line := cut_line (fgets_store st.line raw) }
      | some none => .error (.error .ERR_INVALID_FORMAT)
      | some (some f) =>
        .ok { st with line := cut_line (fgets_store st.line raw)
                      materials := update_at f k st.materials } := by
  have hs1 : ¬ ((chomp raw).head? = some '#' ∨ chomp raw = []) := by
    simpa [is_skipped] using hs
  have hn1 : strncmp_eq (chomp raw) "newmtl" = false := hn
  unfold mtl_line property_update
  simp only [line_after_fgets, hs1, if_false, hn1, Bool.false_eq_true, hc]
  by_cases h1 : strncmp_eq (chomp raw) "Ka" = true
  · have e := payload_after_keyword st.line raw "Ka" h1
    have e2 : "Ka".length = 2 := rfl
    rw [e2] at e
    simp only [sets_Ka, h1, if_true, e]
    cases sscanf_fff L (List.drop 2 (chomp raw)) <;> rfl
  simp only [sets_Ka, h1, Bool.false_eq_true, if_false]
  by_cases h2 : strncmp_eq (chomp raw) "Kd" = true
  · have e := payload_after_keyword st.line raw "Kd" h2
    have e2 : "Kd".length = 2 := rfl
    rw [e2] at e
    simp only [sets_Kd, sets_Ks, sets_Ns, sets_illum, h2, if_true, e]
    cases sscanf_fff L (List.drop 2 (chomp raw)) <;> rfl
  simp only [sets_Kd, h2, Bool.false_eq_true, if_false]
  by_cases h3 : strncmp_eq (chomp raw) "Ks" = true
  · have e := payload_after_keyword st.line raw "Ks" h3
    have e2 : "Ks".length = 2 := rfl
    rw [e2] at e
    simp only [sets_Kd, sets_Ks, sets_Ns, sets_illum, h3, if_true, e]
    cases sscanf_fff L (List.drop 2 (chomp raw)) <;> rfl
  simp only [sets_Ks, h3, Bool.false_eq_true, if_false]
  by_cases h4 : strncmp_eq (chomp raw) "Ns" = true
  · have e := payload_after_keyword st.line raw "Ns" h4
    have e2 : "Ns".length = 2 := rfl
    rw [e2] at e
    simp only [sets_Kd, sets_Ks, sets_Ns, sets_illum, h4, if_true, e]
    cases sscanf_f L (List.drop 2 (chomp raw)) <;> rfl
  simp only [sets_Ns, h4, Bool.false_eq_true, if_false]
  by_cases h5 : (chomp raw).head? = some 'd' ∧
      ((chomp raw).get? 1 = some ' ' ∨ (chomp raw).get? 1 = some '\t')
  · have e := payload_of_d st.line raw h5.1
    have h5b : sets_d raw = true := by simpa [sets_d] using h5
    simp only [if_pos h5, h5b, if_true, e]
    cases sscanf_f L (List.drop 1 (chomp raw)) <;> rfl
  have h5b : sets_d raw = false := by simpa [sets_d] using h5
  simp only [if_neg h5, h5b, Bool.false_eq_true, if_false]
  by_cases h6 : strncmp_eq (chomp raw) "illum" = true
  · have e := payload_after_keyword st.line raw "illum" h6
    have e2 : "illum".length = 5 := rfl
    rw [e2] at e
    simp only [sets_illum, h6, if_true, e]
    cases hsc : scan_d (List.drop 5 (chomp raw)) with
    | none => rfl
    | some p =>
      obtain ⟨v, r⟩ := p
      rfl
  simp only [sets_illum, h6, Bool.false_eq_true, if_false]

/-- The loop body on a line that is skipped, or that is no `newmtl` line while there is no
current material: only the line array changes. -/
theorem mtl_line_ignored {F : Type} (L : FloatLib F) (alloc : Nat → Bool) (st : MtlState F)
    (raw : List Char)
    (h : is_skipped raw = true ∨ (is_newmtl raw = false ∧ st.current = none)) :
    mtl_line L alloc st raw = .ok { st with line := cut_line (fgets_store st.line raw) } := by
  unfold mtl_line
  simp only [line_after_fgets]
  rcases h with h | ⟨h1, h2⟩
  · have hs : (chomp raw).head? = some '#' ∨ chomp raw = [] := by simpa [is_skipped] using h
    simp only [hs, if_true]
  · have hn : strncmp_eq (chomp raw) "newmtl" = false := h1
    by_cases hs : (chomp raw).head? = some '#' ∨ chomp raw = []
    · simp only [hs, if_true]
    · simp only [hs, if_false, hn, Bool.false_eq_true, h2]

theorem mtl_loop_append_eq {F : Type} (L : FloatLib F) (alloc : Nat → Bool)
    (pre rest : List (List Char)) (st : MtlState F) :
    mtl_loop L alloc (pre ++ rest) st =
      match mtl_loop L alloc pre st with
      | .error e => .error e
      | .ok st1 => mtl_loop L alloc rest st1 := by
  induction pre generalizing st with
  | nil => rfl
  | cons raw pre ih =>
    simp only [List.cons_append, mtl_loop]
    cases mtl_line L alloc st raw with
    | error e => rfl
    | ok s1 => exact ih s1

/-- The outcome of the material loader is determined by the variables of the read loop other
than the line array. -/
theorem mtl_load_congr {F : Type} (L : FloatLib F) (alloc : Nat → Bool)
    (fopen fopen1 : List Char → Option (List Char)) (line0 line1 path path1 text text1 : List Char)
    (lib0 lib1 : CJellyFormat3dMtl F) (ht : fopen path = some text)
    (ht1 : fopen1 path1 = some text1)
    (h : (mtl_loop L alloc (fgets_all text) (mtl_init F alloc line0)).map MtlState.vars
      = (mtl_loop L alloc (fgets_all text1) (mtl_init F alloc line1)).map MtlState.vars) :
    cjelly_format_3d_mtl_load L alloc fopen line0 (some path) (some lib0)
      = cjelly_format_3d_mtl_load L alloc fopen1 line1 (some path1) (some lib1) := by
  unfold cjelly_format_3d_mtl_load
  simp only [ht, ht1]
  cases ha : mtl_loop L alloc (fgets_all text) (mtl_init F alloc line0) with
  | error e =>
    cases hb : mtl_loop L alloc (fgets_all text1) (mtl_init F alloc line1) with
    | error e1 =>
      rw [ha, hb] at h
      simp only [Except.map] at h
      injection h with h
      subst h
      rfl
    | ok b =>
      rw [ha, hb] at h
      simp [Except.map] at h
  | ok a =>
    cases hb : mtl_loop L alloc (fgets_all text1) (mtl_init F alloc line1) with
    | error e1 =>
      rw [ha, hb] at h
      simp [Except.map] at h
    | ok b =>
      rw [ha, hb] at h
      simp only [Except.map, MtlState.vars] at h
      injection h with h
      simp only [Prod.mk.injEq] at h
      obtain ⟨h1, h2, -⟩ := h
      simp only [h1, h2]

/-- Before the first `newmtl` line nothing but the line array changes, whatever the lines
hold, and the loop does not fail. -/
theorem mtl_loop_before_newmtl {F : Type} (L : FloatLib F) (alloc : Nat → Bool)
    (pre : List (List Char)) (st : MtlState F) (hc : st.current = none)
    (hpre : ∀ r ∈ pre, is_newmtl r = false) :
    ∃ st1, mtl_loop L alloc pre st = .ok st1 ∧ st1.vars = st.vars := by
  induction pre generalizing st with
  | nil => exact ⟨st, rfl, rfl⟩
  | cons raw rest ih =>
    have h1 := mtl_line_ignored L alloc st raw (Or.inr ⟨hpre raw (by simp), hc⟩)
    obtain ⟨s2, h2, h3⟩ := ih { st with line := cut_line (fgets_store st.line raw) } hc
      (fun r hr => hpre r (by simp [hr]))
    exact ⟨s2, by simp [mtl_loop, h1, h2], h3⟩

/-- A line before the first `newmtl` line causes no failure, and removing it changes neither
the code returned nor the library, provided the `newmtl` lines that follow have a character
behind the keyword. -/
theorem mtl_remove_line_before_newmtl {F : Type} (L : FloatLib F) (alloc : Nat → Bool)
    (fopen fopen1 : List Char → Option (List Char)) (line0 path path1 text text1 : List Char)
    (lib0 : CJellyFormat3dMtl F) (ht : fopen path = some text) (ht1 : fopen1 path1 = some text1)
    (pre : List (List Char)) (x : List Char) (post : List (List Char))
    (hsplit : fgets_all text = pre ++ x :: post) (hsplit1 : fgets_all text1 = pre ++ post)
    (hpre : ∀ r ∈ pre, is_newmtl r = false) (hx : is_newmtl x = false)
    (hpost : NamesInLine post) :
    cjelly_format_3d_mtl_load L alloc fopen line0 (some path) (some lib0)
      = cjelly_format_3d_mtl_load L alloc fopen1 line0 (some path1) (some lib0) := by
  apply mtl_load_congr L alloc fopen fopen1 line0 line0 path path1 text text1 lib0 lib0 ht ht1
  rw [hsplit, hsplit1, mtl_loop_append_eq, mtl_loop_append_eq]
  obtain ⟨s1, h1, h2⟩ := mtl_loop_before_newmtl L alloc pre (mtl_init F alloc line0) rfl hpre
  have hc1 : s1.current = none := by
    have := congrArg (fun v => v.2.2.2.1) h2
    simpa [MtlState.vars, mtl_init] using this
  rw [h1]
  simp only [mtl_loop, mtl_line_ignored L alloc s1 x (Or.inr ⟨hx, hc1⟩)]
  exact mtl_loop_vars L alloc post _ _ rfl hpost

/-- Claim C12.  What the material loader does on a file of two property lines followed by a
bare `newmtl` at the end of the file: it returns `SUCCESS` with one material named `0`, and
once the property line `Ka 1 0 0` is removed it returns one material named `5`.  The scan of
the name starts 7 characters into the array, behind the end of the 6-character line, where
the bytes of the line read before are still stored; so a line before the first `newmtl` line
is not without effect. -/
theorem C12_removed_line_changes_library :
    (∀ junk old, cjelly_format_3d_mtl_load decimalLib alloc_ok
        (one_file "Ns 12345\nKa 1 0 0\nnewmtl") junk (some "p.mtl".toList) (some old)
      = .returned .SUCCESS (some ⟨some [{ zero_material decimalLib with name := "0".toList }], 1⟩)) ∧
    (∀ junk old, cjelly_format_3d_mtl_load decimalLib alloc_ok
        (one_file "Ns 12345\nnewmtl") junk (some "p.mtl".toList) (some old)
      = .returned .SUCCESS (some ⟨some [{ zero_material decimalLib with name := "5".toList }], 1⟩)) :=
  ⟨fun _ _ => rfl, fun _ _ => rfl⟩

theorem update_malformed {F : Type} (L : FloatLib F) (raw : List Char)
    (h : property_update L raw = some none) : Malformed L raw := by
  unfold property_update at h
  unfold Malformed
  by_cases h1 : sets_Ka raw = true
  · simp only [h1, if_true, Option.some.injEq, Option.map_eq_none'] at h
    exact Or.inl ⟨h1, h⟩
  simp only [h1, Bool.false_eq_true, if_false] at h
  by_cases h2 : sets_Kd raw = true
  · simp only [h2, if_true, Option.some.injEq, Option.map_eq_none'] at h
    exact Or.inr (Or.inl ⟨h2, h⟩)
  simp only [h2, Bool.false_eq_true, if_false] at h
  by_cases h3 : sets_Ks raw = true
  · simp only [h3, if_true, Option.some.injEq, Option.map_eq_none'] at h
    exact Or.inr (Or.inr (Or.inl ⟨h3, h⟩))
  simp only [h3, Bool.false_eq_true, if_false] at h
  by_cases h4 : sets_Ns raw = true
  · simp only [h4, if_true, Option.some.injEq, Option.map_eq_none'] at h
    exact Or.inr (Or.inr (Or.inr (Or.inl ⟨h4, h⟩)))
  simp only [h4, Bool.false_eq_true, if_false] at h
  by_cases h5 : sets_d raw = true
  · simp only [h5, if_true, Option.some.injEq, Option.map_eq_none'] at h
    exact Or.inr (Or.inr (Or.inr (Or.inr (Or.inl ⟨h5, h⟩))))
  simp only [h5, Bool.false_eq_true, if_false] at h
  by_cases h6 : sets_illum raw = true
  · simp only [h6, if_true, Option.some.injEq, Option.map_eq_none'] at h
    exact Or.inr (Or.inr (Or.inr (Or.inr (Or.inr ⟨h6, h⟩))))
  simp only [h6, Bool.false_eq_true, if_false] at h
  cases h

/-- The loop body completes on every line that is neither a `newmtl` line nor a malformed
property line. -/
theorem mtl_line_wellformed {F : Type} (L : FloatLib F) (alloc : Nat → Bool) (st : MtlState F)
    (raw : List Char) (hn : is_newmtl raw = false) (hw : ¬ Malformed L raw) :
    ∃ st1, mtl_line L alloc st raw = .ok st1 := by
  by_cases hs : is_skipped raw = true
  · exact ⟨_, mtl_line_ignored L alloc st raw (Or.inl hs)⟩
  cases hc : st.current with
  | none => exact ⟨_, mtl_line_ignored L alloc st raw (Or.inr ⟨hn, hc⟩)⟩
  | some k =>
    have h := mtl_line_property L alloc st raw k (by simpa using hs) hn hc
    cases hp : property_update L raw with
    | none =>
      rw [hp] at h
      exact ⟨_, h⟩
    | some o =>
      cases o with
      | none => exact absurd (update_malformed L raw hp) hw
      | some f =>
        rw [hp] at h
        exact ⟨_, h⟩

theorem mtl_init_inv (F : Type) (alloc : Nat → Bool) (line0 : List Char) :
    MtlInv (mtl_init F alloc line0) := by
  simp [MtlInv, mtl_init]

theorem mtl_line_inv {F : Type} (L : FloatLib F) (alloc : Nat → Bool) (st st1 : MtlState F)
    (raw : List Char) (hi : MtlInv st) (h : mtl_line L alloc st raw = .ok st1) : MtlInv st1 := by
  obtain ⟨-, a2, a3⟩ := mtl_line_spec L alloc st st1 raw h
  cases hn : is_newmtl raw with
  | true =>
    obtain ⟨-, name, e1, e2⟩ := a2 hn
    simp [MtlInv, e1, e2]
  | false =>
    obtain ⟨e0, f, e1, -⟩ := a3 hn
    unfold MtlInv at hi ⊢
    rw [e0]
    cases hc : st.current with
    | none =>
      rw [hc] at hi e1
      simp only at hi e1 ⊢
      rw [e1, hi]
    | some k =>
      rw [hc] at hi e1
      simp only at hi e1 ⊢
      rw [e1, update_at_length]
      exact hi

theorem mtl_loop_inv {F : Type} (L : FloatLib F) (alloc : Nat → Bool)
    (lines : List (List Char)) (st st1 : MtlState F) (hi : MtlInv st)
    (h : mtl_loop L alloc lines st = .ok st1) : MtlInv st1 := by
  induction lines generalizing st with
  | nil =>
    cases h
    exact hi
  | cons raw rest ih =>
    obtain ⟨s1, h1, h2⟩ := mtl_loop_cons L alloc raw rest st st1 h
    exact ih s1 (mtl_line_inv L alloc st s1 raw hi h1) h2

/-- The materials that exist when a `newmtl` line is read are not changed by that line nor
by any line behind it. -/
theorem mtl_loop_after_newmtl {F : Type} (L : FloatLib F) (alloc : Nat → Bool)
    (decl : List Char) (rest : List (List Char)) (st st2 : MtlState F)
    (hd : is_newmtl decl = true) (h : mtl_loop L alloc (decl :: rest) st = .ok st2) :
    st2.materials.take st.materials.length = st.materials := by
  obtain ⟨s1, h1, h2⟩ := mtl_loop_cons L alloc decl rest st st2 h
  obtain ⟨-, name, e1, e2⟩ := (mtl_line_spec L alloc st s1 decl h1).2.1 hd
  obtain ⟨T, hT⟩ := mtl_loop_keep L alloc rest s1 st2 h2 st.materials _ e1 e2
  rw [hT]
  simp

set_option maxRecDepth 100000 in
/-- Claim C14 as stated fails on a line longer than the line array: the property line `Ka 1 0`,
250 spaces, `1` is well-formed (its payload scans into three floats), and read under the
current material `a` it makes the loader return `ERR_INVALID_FORMAT` with the library
released, since `fgets` hands over its first 255 characters only, which hold two floats. -/
theorem C14_long_line_counterexample :
    text_lines ("newmtl a\n".toList ++ ("Ka 1 0".toList ++ List.replicate 250 ' ' ++ "1\n".toList))
      = ["newmtl a\n".toList, "Ka 1 0".toList ++ List.replicate 250 ' ' ++ "1\n".toList] ∧
    sets_Ka ("Ka 1 0".toList ++ List.replicate 250 ' ' ++ "1\n".toList) = true ∧
    sscanf_fff decimalLib
        ((chomp ("Ka 1 0".toList ++ List.replicate 250 ' ' ++ "1\n".toList)).drop 2)
      = some (⟨1, 0⟩, ⟨0, 0⟩, ⟨1, 0⟩) ∧
    cjelly_format_3d_mtl_load decimalLib alloc_ok
        (fun _ => some ("newmtl a\n".toList ++
          ("Ka 1 0".toList ++ List.replicate 250 ' ' ++ "1\n".toList))) []
        (some "l.mtl".toList) (some ⟨none, 0⟩)
      = .returned .ERR_INVALID_FORMAT (some ⟨none, 0⟩) := by
  refine ⟨by decide, by decide, by decide, rfl⟩

/-- Claim C14, amended.  Let the lines of the text, terminators included, have at most 255
characters, and let the read loop of the material loader have reached one of these lines, a
well-formed line other than a `newmtl` line (so any well-formed `Ka`, `Kd`, `Ks`, `Ns`, `d `
or `illum` line).  The line is processed without failure, the loop goes on with the lines
behind it, and the line keeps the number of materials, the current material pointer and
every material but the last; the last material, the most recently declared one, differs
from what it was at most in the field that the line is dispatched to (its name and other
fields are kept).  Hence once a later `newmtl` line is read, none of the materials that
exist then is changed again. -/
theorem C14_property_line_frame {F : Type} (L : FloatLib F) (alloc : Nat → Bool)
    (line0 text : List Char) (pre : List (List Char)) (raw : List Char)
    (post : List (List Char)) (st : MtlState F)
    (hshort : ShortLines text) (hsplit : text_lines text = pre ++ raw :: post)
    (hpre : mtl_loop L alloc pre (mtl_init F alloc line0) = .ok st)
    (hn : is_newmtl raw = false) (hw : ¬ Malformed L raw) :
    ∃ st1, mtl_line L alloc st raw = .ok st1 ∧
      mtl_loop L alloc (fgets_all text) (mtl_init F alloc line0) = mtl_loop L alloc post st1 ∧
      st1.materials.length = st.materials.length ∧
      st1.current = st.current ∧
      st1.materials.dropLast = st.materials.dropLast ∧
      (∀ x, st.materials.getLast? = some x → ∃ x1, st1.materials.getLast? = some x1 ∧
        (sets_Ka raw = true → x1 = { x with Ka := x1.Ka }) ∧
        (sets_Kd raw = true → x1 = { x with Kd := x1.Kd }) ∧
        (sets_Ks raw = true → x1 = { x with Ks := x1.Ks }) ∧
        (sets_Ns raw = true → x1 = { x with Ns := x1.Ns }) ∧
        (sets_d raw = true → x1 = { x with d := x1.d }) ∧
        (sets_illum raw = true → x1 = { x with illum := x1.illum }) ∧
        (sets_Ka raw = false → sets_Kd raw = false → sets_Ks raw = false →
          sets_Ns raw = false → sets_d raw = false → sets_illum raw = false → x1 = x)) ∧
      (∀ decl rest st2, is_newmtl decl = true →
        mtl_loop L alloc (decl :: rest) st1 = .ok st2 →
        st2.materials.take st1.materials.length = st1.materials) := by
  have hi : MtlInv st := mtl_loop_inv L alloc pre _ st (mtl_init_inv F alloc line0) hpre
  obtain ⟨st1, h⟩ := mtl_line_wellformed L alloc st raw hn hw
  have hrun : mtl_loop L alloc (fgets_all text) (mtl_init F alloc line0)
      = mtl_loop L alloc post st1 := by
    rw [fgets_all_short text hshort, hsplit, mtl_loop_append_eq, hpre]
    simp only [mtl_loop, h]
  refine ⟨st1, h, hrun, ?_⟩
  have hlater : ∀ decl rest st2, is_newmtl decl = true →
      mtl_loop L alloc (decl :: rest) st1 = .ok st2 →
      st2.materials.take st1.materials.length = st1.materials :=
    fun decl rest st2 hd h2 => mtl_loop_after_newmtl L alloc decl rest st1 st2 hd h2
  obtain ⟨e0, f, e1, -⟩ := (mtl_line_spec L alloc st st1 raw h).2.2 hn
  cases hc : st.current with
  | none =>
    have hm : st.materials = [] := by simpa [MtlInv, hc] using hi
    rw [hc] at e1
    simp only at e1
    refine ⟨by rw [e1], by rw [e0, hc], by rw [e1], fun x hx => ?_, hlater⟩
    rw [hm] at hx
    simp at hx
  | some k =>
    have hk : k + 1 = st.materials.length := by simpa [MtlInv, hc] using hi
    have hne : st.materials ≠ [] := by
      intro h0
      rw [h0] at hk
      simp at hk
    rcases List.eq_nil_or_concat st.materials with h0 | ⟨A, x, hA⟩
    · exact absurd h0 hne
    rw [List.concat_eq_append] at hA
    have hAl : A.length = k := by
      rw [hA] at hk
      simp at hk
      omega
    obtain ⟨x1, a1, a2, a3, b1, b2, b3, b4, b5, b6⟩ :=
      mtl_line_tail L alloc st st1 raw h hn A x hA (by rw [hc, hAl])
    obtain ⟨-, -, k3, k4, k5, k6, k7, k8⟩ := mtl_dispatch_excl raw
    refine ⟨by rw [a1, hA]; simp, by rw [e0, hc], by rw [a1, hA]; simp, fun y hy => ?_, hlater⟩
    have hy1 : y = x := by
      rw [hA] at hy
      simpa using hy.symm
    subst hy1
    refine ⟨x1, by rw [a1]; simp, ?_, ?_, ?_, ?_, ?_, ?_, ?_⟩
    · intro hh
      obtain ⟨-, -, c1, c2, c3, c4, c5⟩ := k3 hh
      have d1 := b2 c1
      have d2 := b3 c2
      have d3 := b4 c3
      have d4 := b5 c4
      have d5 := b6 c5
      cases x1
      cases y
      simp_all
    · intro hh
      obtain ⟨-, -, c1, c2, c3, c4, c5⟩ := k4 hh
      have d1 := b1 c1
      have d2 := b3 c2
      have d3 := b4 c3
      have d4 := b5 c4
      have d5 := b6 c5
      cases x1
      cases y
      simp_all
    · intro hh
      obtain ⟨-, -, c1, c2, c3, c4, c5⟩ := k5 hh
      have d1 := b1 c1
      have d2 := b2 c2
      have d3 := b4 c3
      have d4 := b5 c4
      have d5 := b6 c5
      cases x1
      cases y
      simp_all
    · intro hh
      obtain ⟨-, -, c1, c2, c3, c4, c5⟩ := k6 hh
      have d1 := b1 c1
      have d2 := b2 c2
      have d3 := b3 c3
      have d4 := b5 c4
      have d5 := b6 c5
      cases x1
      cases y
      simp_all
    · intro hh
      obtain ⟨-, -, c1, c2, c3, c4, c5⟩ := k7 hh
      have d1 := b1 c1
      have d2 := b2 c2
      have d3 := b3 c3
      have d4 := b4 c4
      have d5 := b6 c5
      cases x1
      cases y
      simp_all
    · intro hh
      obtain ⟨-, -, c1, c2, c3, c4, c5⟩ := k8 hh
      have d1 := b1 c1
      have d2 := b2 c2
      have d3 := b3 c3
      have d4 := b4 c4
      have d5 := b5 c5
      cases x1
      cases y
      simp_all
    · intro c1 c2 c3 c4 c5 c6
      have d1 := b1 c1
      have d2 := b2 c2
      have d3 := b3 c3
      have d4 := b4 c4
      have d5 := b5 c5
      have d6 := b6 c6
      cases x1
      cases y
      simp_all

theorem C14_property_line_frame_witness :
    ∃ st1 : MtlState Decimal,
      mtl_line decimalLib alloc_ok
        { line := "newmtl b".toList ++ [NUL, NUL], null_storage := false,
          materials := [{ zero_material decimalLib with
                          name := "a".toList, Kd := (⟨1, 0⟩, ⟨0, 0⟩, ⟨0, 0⟩) },
                        { zero_material decimalLib with name := "b".toList }],
          capacity := 10, current := some 1, nalloc := 1 } "Ns 5\n".toList = .ok st1 ∧
      mtl_loop decimalLib alloc_ok (fgets_all "newmtl a\nKd 1 0 0\nnewmtl b\nNs 5\nd 1\n".toList)
          (mtl_init Decimal alloc_ok [])
        = mtl_loop decimalLib alloc_ok ["d 1\n".toList] st1 ∧
      st1.materials.length = 2 ∧
      st1.materials.dropLast = [{ zero_material decimalLib with
                                  name := "a".toList, Kd := (⟨1, 0⟩, ⟨0, 0⟩, ⟨0, 0⟩) }] ∧
      ∃ x1, st1.materials.getLast? = some x1 ∧
        x1 = { zero_material decimalLib with name := "b".toList, Ns := x1.Ns } := by
  have hw : ¬ Malformed decimalLib "Ns 5\n".toList := by
    unfold Malformed
    decide
  have hshort : ShortLines "newmtl a\nKd 1 0 0\nnewmtl b\nNs 5\nd 1\n".toList := by
    unfold ShortLines
    decide
  have hs : text_lines "newmtl a\nKd 1 0 0\nnewmtl b\nNs 5\nd 1\n".toList
      = ["newmtl a\n".toList, "Kd 1 0 0\n".toList, "newmtl b\n".toList] ++ "Ns 5\n".toList ::
        ["d 1\n".toList] := by decide
  obtain ⟨st1, h1, hrun, h2, -, h4, h5, -⟩ := C14_property_line_frame decimalLib alloc_ok []
    "newmtl a\nKd 1 0 0\nnewmtl b\nNs 5\nd 1\n".toList
    ["newmtl a\n".toList, "Kd 1 0 0\n".toList, "newmtl b\n".toList] "Ns 5\n".toList
    ["d 1\n".toList]
    { line := "newmtl b".toList ++ [NUL, NUL], null_storage := false,
      materials := [{ zero_material decimalLib with
                      name := "a".toList, Kd := (⟨1, 0⟩, ⟨0, 0⟩, ⟨0, 0⟩) },
                    { zero_material decimalLib with name := "b".toList }],
      capacity := 10, current := some 1, nalloc := 1 }
    hshort hs rfl (by decide) hw
  obtain ⟨x1, g1, -, -, -, g2, -⟩ := h5 _ rfl
  exact ⟨st1, h1, hrun, h2, h4, x1, g1, g2 (by decide)⟩

/-! ## Capacities -/

/-- The growth step in front of an append keeps the capacity invariant, and the element is
written below the capacity. -/
theorem cap_step (base : Nat) (alloc : Nat → Bool) (count cap n cap1 n1 : Nat) (hb : 0 < base)
    (hi : CapInv base count cap) (hg : grow alloc count cap n = some (cap1, n1)) :
    CapInv base (count + 1) cap1 ∧ count < cap1 := by
  obtain ⟨h1, k, h2, h3⟩ := hi
  have hpos : 0 < cap := by
    rw [h2]
    exact Nat.mul_pos hb (Nat.two_pow_pos k)
  unfold grow at hg
  by_cases hc : count ≥ cap
  · simp only [hc, if_true] at hg
    split at hg
    · simp only [Option.some.injEq, Prod.mk.injEq] at hg
      obtain ⟨rfl, -⟩ := hg
      have hcc : count = cap := by omega
      refine ⟨⟨by omega, k + 1, by rw [h2, pow_succ]; ring, ?_⟩, by omega⟩
      intro j hj
      have hlt : base * 2 ^ k < base * 2 ^ j := by
        rw [← h2]
        omega
      have hlt2 : 2 ^ k < 2 ^ j := Nat.lt_of_mul_lt_mul_left hlt
      have hkj : k < j := (Nat.pow_lt_pow_iff_right (by decide)).1 hlt2
      have hle : 2 ^ (k + 1) ≤ 2 ^ j := Nat.pow_le_pow_right (by decide) hkj
      calc cap * 2 = base * 2 ^ (k + 1) := by rw [h2, pow_succ]; ring
        _ ≤ base * 2 ^ j := Nat.mul_le_mul_left base hle
    · cases hg
  · simp only [hc, if_false, Option.some.injEq, Prod.mk.injEq] at hg
    obtain ⟨rfl, -⟩ := hg
    refine ⟨⟨by omega, k, h2, ?_⟩, by omega⟩
    intro j hj
    exact h3 j (by omega)

theorem cap_inv_init (base : Nat) : CapInv base 0 base :=
  ⟨Nat.zero_le _, 0, by simp, fun j _ => Nat.le_mul_of_pos_right base (Nat.two_pow_pos j)⟩


/-- What the loop body of the material loader does to the count and the capacity: a line
other than a `newmtl` line leaves them, and a `newmtl` line appends one record after the
growth step. -/
theorem mtl_line_grow {F : Type} (L : FloatLib F) (alloc : Nat → Bool) (st st1 : MtlState F)
    (raw : List Char) (h : mtl_line L alloc st raw = .ok st1) :
    (is_newmtl raw = false →
      st1.materials.length = st.materials.length ∧ st1.capacity = st.capacity) ∧
    (is_newmtl raw = true → st1.materials.length = st.materials.length + 1 ∧
      ∃ n1, grow alloc st.materials.length st.capacity st.nalloc = some (st1.capacity, n1)) := by
  unfold mtl_line at h
  simp only [line_after_fgets] at h
  by_cases hn : strncmp_eq (chomp raw) "newmtl" = true
  · have hs := newmtl_not_skipped _ hn
    simp only [hs, if_false, hn, if_true] at h
    repeat' split at h
    all_goals cases h
    refine ⟨fun hc => ?_, fun _ => ⟨by simp, _, by assumption⟩⟩
    simp [is_newmtl, hn] at hc
  · have hn1 : is_newmtl raw = false := by simpa [is_newmtl] using hn
    simp only [hn, Bool.false_eq_true, if_false] at h
    refine ⟨fun _ => ?_, fun hc => by simp [hn1] at hc⟩
    repeat' split at h
    all_goals cases h
    all_goals first
      | exact ⟨rfl, rfl⟩
      | exact ⟨update_at_length _ _ _, rfl⟩

theorem mtl_line_caps {F : Type} (L : FloatLib F) (alloc : Nat → Bool) (st st1 : MtlState F)
    (raw : List Char) (hi : CapInv 10 st.materials.length st.capacity)
    (h : mtl_line L alloc st raw = .ok st1) :
    CapInv 10 st1.materials.length st1.capacity := by
  obtain ⟨g1, g2⟩ := mtl_line_grow L alloc st st1 raw h
  cases hn : is_newmtl raw with
  | false =>
    obtain ⟨e1, e2⟩ := g1 hn
    rw [e1, e2]
    exact hi
  | true =>
    obtain ⟨e1, n1, e2⟩ := g2 hn
    rw [e1]
    exact (cap_step 10 alloc _ _ _ _ n1 (by decide) hi e2).1

theorem mtl_loop_caps {F : Type} (L : FloatLib F) (alloc : Nat → Bool)
    (lines : List (List Char)) (st st1 : MtlState F)
    (hi : CapInv 10 st.materials.length st.capacity)
    (h : mtl_loop L alloc lines st = .ok st1) :
    CapInv 10 st1.materials.length st1.capacity := by
  induction lines generalizing st with
  | nil =>
    cases h
    exact hi
  | cons raw rest ih =>
    obtain ⟨s1, h1, h2⟩ := mtl_loop_cons L alloc raw rest st st1 h
    exact ih s1 (mtl_line_caps L alloc st s1 raw hi h1) h2

/-! ## The materials in declaration order -/


/-- The loop body on a `newmtl` line, when it completes: the record appended is the zeroed
one with the name scanned at offset 7 of the line array. -/
theorem mtl_line_newmtl {F : Type} (L : FloatLib F) (alloc : Nat → Bool) (st st1 : MtlState F)
    (raw : List Char) (h : mtl_line L alloc st raw = .ok st1) (hn : is_newmtl raw = true) :
    ∃ name, scan_s 127 (cstr_at (cut_line (fgets_store st.line raw)) 7) = some name ∧
      st1.materials = st.materials ++ [{ zero_material L with name := name }] := by
  unfold mtl_line at h
  simp only [line_after_fgets] at h
  have hn1 : strncmp_eq (chomp raw) "newmtl" = true := hn
  have hs := newmtl_not_skipped _ hn1
  simp only [hs, if_false, hn1, if_true] at h
  repeat' split at h
  all_goals cases h
  exact ⟨_, by assumption, rfl⟩

theorem map_name_update_at {F : Type}
    (f : CJellyFormat3dMtlMaterial F → CJellyFormat3dMtlMaterial F)
    (hf : ∀ m, (f m).name = m.name) (k : Nat) (l : List (CJellyFormat3dMtlMaterial F)) :
    (update_at f k l).map (fun m => some m.name) = l.map (fun m => some m.name) := by
  induction l generalizing k with
  | nil => cases k <;> rfl
  | cons a t ih => cases k <;> simp [update_at, hf, ih]

/-- The names of the materials grow by the names scanned from the `newmtl` lines read, in
the order of these lines. -/
theorem mtl_loop_names {F : Type} (L : FloatLib F) (alloc : Nat → Bool)
    (lines : List (List Char)) (st st1 : MtlState F) (h : mtl_loop L alloc lines st = .ok st1)
    (hl : NamesInLine lines) :
    st1.materials.map (fun m => some m.name) =
      st.materials.map (fun m => some m.name) ++
        (lines.filter is_newmtl).map (fun raw => scan_s 127 ((chomp raw).drop 7)) := by
  induction lines generalizing st with
  | nil =>
    cases h
    simp
  | cons raw rest ih =>
    obtain ⟨s1, h1, h2⟩ := mtl_loop_cons L alloc raw rest st st1 h
    have hrest : NamesInLine rest := fun r hr => hl r (by simp [hr])
    rw [ih s1 h2 hrest]
    cases hn : is_newmtl raw with
    | true =>
      obtain ⟨name, e1, e2⟩ := mtl_line_newmtl L alloc st s1 raw h1 hn
      rw [cstr_after_fgets _ _ 7 (hl raw (by simp) hn)] at e1
      simp [List.filter_cons, hn, e2, e1]
    | false =>
      obtain ⟨-, f, e1, f0, -⟩ := (mtl_line_spec L alloc st s1 raw h1).2.2 hn
      have e2 : s1.materials.map (fun m => some m.name)
          = st.materials.map (fun m => some m.name) := by
        rw [e1]
        split
        · exact map_name_update_at f f0 _ _
        · rfl
      simp [List.filter_cons, hn, e2]

/-- With null storage the loop completes only when it reads no `newmtl` line. -/
theorem mtl_loop_null_no_newmtl {F : Type} (L : FloatLib F) (alloc : Nat → Bool)
    (lines : List (List Char)) (st st1 : MtlState F) (h : mtl_loop L alloc lines st = .ok st1)
    (hns : st.null_storage = true) : lines.filter is_newmtl = [] := by
  induction lines generalizing st with
  | nil => rfl
  | cons raw rest ih =>
    obtain ⟨s1, h1, h2⟩ := mtl_loop_cons L alloc raw rest st st1 h
    obtain ⟨a1, a2, -⟩ := mtl_line_spec L alloc st s1 raw h1
    cases hn : is_newmtl raw with
    | true =>
      rw [(a2 hn).1] at hns
      cases hns
    | false =>
      simp [List.filter_cons, hn, ih s1 h2 (by rw [a1, hns])]

theorem scan_s_after_space (width : Nat) (c : Char) (s : List Char) (hc : isspace c = true) :
    scan_s width (c :: s) = scan_s width s := by
  simp [scan_s, List.dropWhile_cons, hc]

set_option maxRecDepth 100000 in
/-- Claim C15 as stated fails: the line `newmtlred` is read as a `newmtl` line and gives a
material named `ed` (the name is scanned from the 8th character of the line on), and the
name token of 128 characters of a `newmtl` line is stored cut to 127 characters.  It also
fails on a line longer than the line array: the text that consists of the one line of 255
characters `#` followed by `newmtl x` has no `newmtl` line, and the library is returned
with one material, named `x`. -/
theorem C15_name_token_counterexample :
    is_newmtl "newmtlred\n".toList = true ∧
    (∀ junk old, cjelly_format_3d_mtl_load decimalLib alloc_ok (one_file "newmtlred\n") junk
        (some "n.mtl".toList) (some old)
      = .returned .SUCCESS (some ⟨some [{ zero_material decimalLib with name := "ed".toList }], 1⟩)) ∧
    (∀ junk old, cjelly_format_3d_mtl_load decimalLib alloc_ok
        (fun _ => some ("newmtl ".toList ++ List.replicate 128 'a' ++ ['\n'])) junk
        (some "n.mtl".toList) (some old)
      = .returned .SUCCESS
          (some ⟨some [{ zero_material decimalLib with name := List.replicate 127 'a' }], 1⟩)) ∧
    text_lines (List.replicate 255 '#' ++ "newmtl x\n".toList)
      = [List.replicate 255 '#' ++ "newmtl x\n".toList] ∧
    is_newmtl (List.replicate 255 '#' ++ "newmtl x\n".toList) = false ∧
    (∀ junk old, cjelly_format_3d_mtl_load decimalLib alloc_ok
        (fun _ => some (List.replicate 255 '#' ++ "newmtl x\n".toList)) junk
        (some "n.mtl".toList) (some old)
      = .returned .SUCCESS (some ⟨some [{ zero_material decimalLib with name := "x".toList }], 1⟩)) :=
  ⟨by decide, fun _ _ => rfl, fun _ _ => rfl, by decide, by decide, fun _ _ => rfl⟩

/-- Claim C15, amended.  On a successful material parse of a text whose lines, terminators
included, have at most 255 characters, `material_count` is the number of lines that start
with the six characters `newmtl`, and the library holds that many records.  When each of
these lines has a character behind the keyword, the names of the records are, in the order
of the lines and with duplicates kept, the white-space-delimited tokens scanned from the 8th
character of each line on and cut to 127 characters; for a line whose 7th character is white
space that is the token that follows the keyword, cut to 127 characters.  At every `newmtl`
line the count is within the capacity, the capacity is the smallest number `10 * 2 ^ k` that
is at least the count, before and after the line, the record is written at the index of the
count, which is below the capacity the array has then, the records written before are kept
by the line, and they are the same in the library returned: this holds at every growth of
the array beyond the initial capacity of 10. -/
theorem C15_materials_in_declaration_order {F : Type} (L : FloatLib F) (alloc : Nat → Bool)
    (fopen : List Char → Option (List Char)) (line0 path text : List Char)
    (lib0 lib : CJellyFormat3dMtl F) (ht : fopen path = some text)
    (hshort : ShortLines text)
    (h : cjelly_format_3d_mtl_load L alloc fopen line0 (some path) (some lib0)
      = .returned .SUCCESS (some lib)) :
    lib.material_count = (((text_lines text).filter is_newmtl).length : Int) ∧
    (lib.materials.getD []).length = ((text_lines text).filter is_newmtl).length ∧
    (alloc 0 = true → lib.materials.isSome = true) ∧
    (NamesInLine (text_lines text) →
      (lib.materials.getD []).map (fun m => some m.name) =
        ((text_lines text).filter is_newmtl).map (fun raw => scan_s 127 ((chomp raw).drop 7))) ∧
    (∀ raw c, (chomp raw).get? 6 = some c → isspace c = true →
      scan_s 127 ((chomp raw).drop 7) = scan_s 127 ((chomp raw).drop 6)) ∧
    (∀ pre raw post, text_lines text = pre ++ raw :: post → is_newmtl raw = true →
      ∃ s s1, mtl_loop L alloc pre (mtl_init F alloc line0) = .ok s ∧
        mtl_line L alloc s raw = .ok s1 ∧
        s.materials.length = (pre.filter is_newmtl).length ∧
        CapInv 10 s.materials.length s.capacity ∧
        CapInv 10 s1.materials.length s1.capacity ∧
        s.materials.length < s1.capacity ∧
        s1.materials.length = s.materials.length + 1 ∧
        s1.materials.dropLast = s.materials ∧
        (lib.materials.getD []).take s.materials.length = s.materials) := by
  obtain ⟨st, hl, rfl⟩ := mtl_load_success L alloc fopen line0 path text lib0 lib ht h
  rw [fgets_all_short text hshort] at hl
  have hc := mtl_loop_count L alloc _ _ st hl
  have hns := mtl_loop_null_storage L alloc _ _ st hl
  simp only [mtl_init, List.length_nil, Nat.zero_add] at hc hns
  have hget : (if st.null_storage = true then none else some st.materials).getD []
      = st.materials := by
    cases hb : st.null_storage with
    | false => simp
    | true =>
      have h0 := mtl_loop_null_no_newmtl L alloc _ _ st hl (by simp [mtl_init, ← hns, hb])
      rw [h0] at hc
      simp only [List.length_nil, List.length_eq_zero] at hc
      simp [hc]
  refine ⟨by simp [hc], by rw [hget, hc], ?_, ?_, ?_, ?_⟩
  · intro ha
    simp [hns, ha]
  · intro hn
    rw [hget, mtl_loop_names L alloc _ _ st hl hn]
    simp [mtl_init]
  · intro raw c h6 hsp
    have hd : (chomp raw).drop 6 = c :: (chomp raw).drop 7 := by
      rw [List.get?_eq_getElem?] at h6
      obtain ⟨hlt, hget6⟩ := List.getElem?_eq_some_iff.1 h6
      rw [List.drop_eq_getElem_cons hlt, hget6]
    rw [hd, scan_s_after_space 127 c _ hsp]
  · intro pre raw post hsplit hraw
    rw [hsplit] at hl
    obtain ⟨s, p1, p2⟩ := mtl_loop_append L alloc pre _ _ _ hl
    obtain ⟨s1, p3, p4⟩ := mtl_loop_cons L alloc raw post _ _ p2
    have c0 : CapInv 10 s.materials.length s.capacity :=
      mtl_loop_caps L alloc pre _ s (by simpa [mtl_init] using cap_inv_init 10) p1
    have cnt : s.materials.length = (pre.filter is_newmtl).length := by
      simpa [mtl_init] using mtl_loop_count L alloc _ _ _ p1
    obtain ⟨e1, n1, e2⟩ := (mtl_line_grow L alloc s s1 raw p3).2 hraw
    obtain ⟨name, -, e3⟩ := mtl_line_newmtl L alloc s s1 raw p3 hraw
    have hkeep := mtl_loop_after_newmtl L alloc raw post s st hraw p2
    refine ⟨s, s1, p1, p3, cnt, c0, mtl_line_caps L alloc s s1 raw c0 p3,
      (cap_step 10 alloc _ _ _ _ n1 (by decide) c0 e2).2, e1, ?_, ?_⟩
    · rw [e3]
      simp
    · rw [hget]
      exact hkeep

theorem C15_materials_in_declaration_order_witness :
    ∃ lib : CJellyFormat3dMtl Decimal,
      cjelly_format_3d_mtl_load decimalLib alloc_ok
          (one_file ("newmtl m0\nKd 1 0 0\nnewmtl m1\nnewmtl m2\nnewmtl m3\nnewmtl m4\n" ++
            "newmtl m5\nnewmtl m6\nnewmtl m7\nnewmtl m8\nnewmtl m9\nNs 2\nnewmtl m0\n"))
          [] (some "many.mtl".toList) (some ⟨none, 0⟩)
        = .returned .SUCCESS (some lib) ∧
      lib.material_count = 11 ∧
      (lib.materials.getD []).map (fun m => some m.name) =
        [some "m0".toList, some "m1".toList, some "m2".toList, some "m3".toList,
         some "m4".toList, some "m5".toList, some "m6".toList, some "m7".toList,
         some "m8".toList, some "m9".toList, some "m0".toList] ∧
      ∃ s s1 : MtlState Decimal, s.materials.length = 10 ∧ CapInv 10 10 s.capacity ∧
        CapInv 10 11 s1.capacity ∧ s.materials.length < s1.capacity ∧
        (lib.materials.getD []).take s.materials.length = s.materials := by
  have hload : ∃ lib : CJellyFormat3dMtl Decimal,
      cjelly_format_3d_mtl_load decimalLib alloc_ok
          (one_file ("newmtl m0\nKd 1 0 0\nnewmtl m1\nnewmtl m2\nnewmtl m3\nnewmtl m4\n" ++
            "newmtl m5\nnewmtl m6\nnewmtl m7\nnewmtl m8\nnewmtl m9\nNs 2\nnewmtl m0\n"))
          [] (some "many.mtl".toList) (some ⟨none, 0⟩)
        = .returned .SUCCESS (some lib) := ⟨_, rfl⟩
  obtain ⟨lib, hlib⟩ := hload
  have hn : NamesInLine (text_lines
      ("newmtl m0\nKd 1 0 0\nnewmtl m1\nnewmtl m2\nnewmtl m3\nnewmtl m4\n" ++
        "newmtl m5\nnewmtl m6\nnewmtl m7\nnewmtl m8\nnewmtl m9\nNs 2\nnewmtl m0\n").toList) := by
    unfold NamesInLine
    decide
  have hshort : ShortLines
      ("newmtl m0\nKd 1 0 0\nnewmtl m1\nnewmtl m2\nnewmtl m3\nnewmtl m4\n" ++
        "newmtl m5\nnewmtl m6\nnewmtl m7\nnewmtl m8\nnewmtl m9\nNs 2\nnewmtl m0\n").toList := by
    unfold ShortLines
    decide
  have hs : text_lines
      ("newmtl m0\nKd 1 0 0\nnewmtl m1\nnewmtl m2\nnewmtl m3\nnewmtl m4\n" ++
        "newmtl m5\nnewmtl m6\nnewmtl m7\nnewmtl m8\nnewmtl m9\nNs 2\nnewmtl m0\n").toList
      = ["newmtl m0\n".toList, "Kd 1 0 0\n".toList, "newmtl m1\n".toList, "newmtl m2\n".toList,
          "newmtl m3\n".toList, "newmtl m4\n".toList, "newmtl m5\n".toList, "newmtl m6\n".toList,
          "newmtl m7\n".toList, "newmtl m8\n".toList, "newmtl m9\n".toList, "Ns 2\n".toList]
        ++ "newmtl m0\n".toList :: [] := by decide
  obtain ⟨h1, -, -, h4, -, h6⟩ := C15_materials_in_declaration_order decimalLib alloc_ok
    (one_file ("newmtl m0\nKd 1 0 0\nnewmtl m1\nnewmtl m2\nnewmtl m3\nnewmtl m4\n" ++
      "newmtl m5\nnewmtl m6\nnewmtl m7\nnewmtl m8\nnewmtl m9\nNs 2\nnewmtl m0\n"))
    [] "many.mtl".toList _ ⟨none, 0⟩ lib rfl hshort hlib
  obtain ⟨s, s1, -, -, k1, k2, k3, k4, k5, -, k7⟩ := h6 _ _ _ hs (by decide)
  have k1a : s.materials.length = 10 := k1.trans (by decide)
  rw [k5, k1a] at k3
  have k2a := k2
  rw [k1a] at k2a
  exact ⟨lib, hlib, h1.trans (by decide), (h4 hn).trans (by decide), s, s1, k1a, k2a, k3, k4, k7⟩

/-! ## Releasing a material library -/

/-- Claim C21.  For a material library whose storage pointer is null or the address of an
allocated block, the release returns, leaves the library with null storage and
`material_count = 0`, has released that block and no other, and a second release of the
result is defined and leaves exactly that state: release after release equals release.  On
a library whose storage is null, populated or not, no block is released. -/
theorem C21_release_idempotent (mem : MtlMemory)
    (hvalid : ∀ a, mem.materials = some a → a ∈ mem.live) :
    ∃ m1, cjelly_format_3d_mtl_free mem = some m1 ∧
      m1.materials = none ∧ m1.material_count = 0 ∧
      (∀ b, b ∈ m1.live ↔ (b ∈ mem.live ∧ mem.materials ≠ some b)) ∧
      cjelly_format_3d_mtl_free m1 = some m1 ∧
      (cjelly_format_3d_mtl_free mem).bind cjelly_format_3d_mtl_free
        = cjelly_format_3d_mtl_free mem ∧
      (mem.materials = none → m1.live = mem.live) := by
  obtain ⟨p, n, live⟩ := mem
  cases p with
  | none =>
    refine ⟨⟨none, 0, live⟩, rfl, rfl, rfl, ?_, rfl, rfl, fun _ => rfl⟩
    intro b
    simp
  | some a =>
    have ha : a ∈ live := hvalid a rfl
    refine ⟨⟨none, 0, live.filter (fun b => b ≠ a)⟩, ?_, rfl, rfl, ?_, rfl, ?_, ?_⟩
    · simp [cjelly_format_3d_mtl_free, free, ha]
    · intro b
      simp only [List.mem_filter, decide_eq_true_eq, ne_eq, Option.some.injEq]
      constructor
      · rintro ⟨h1, h2⟩
        exact ⟨h1, fun h => h2 h.symm⟩
      · rintro ⟨h1, h2⟩
        exact ⟨h1, fun h => h2 h.symm⟩
    · simp [cjelly_format_3d_mtl_free, free, ha]
    · intro h
      cases h

theorem C21_release_idempotent_witness :
    cjelly_format_3d_mtl_free ⟨some 4096, 3, [512, 4096]⟩ = some ⟨none, 0, [512]⟩ ∧
    cjelly_format_3d_mtl_free ⟨none, 0, [512]⟩ = some ⟨none, 0, [512]⟩ := by
  obtain ⟨m1, h1, -, -, -, h5, -⟩ := C21_release_idempotent ⟨some 4096, 3, [512, 4096]⟩
    (fun a h => by
      simp only [Option.some.injEq] at h
      subst h
      decide)
  have e : cjelly_format_3d_mtl_free ⟨some 4096, 3, [512, 4096]⟩ = some ⟨none, 0, [512]⟩ := by
    decide
  rw [e] at h1
  simp only [Option.some.injEq] at h1
  subst h1
  exact ⟨e, h5⟩

/-! ## The `%s` conversion and the tokens of a line -/

theorem scan_s_none_iff (width : Nat) (s : List Char) :
    scan_s width s = none ↔ ∀ c ∈ s, isspace c = true := by
  induction s with
  | nil => simp [scan_s]
  | cons a s ih =>
    cases ha : isspace a with
    | true =>
      rw [scan_s_after_space width a s ha, ih]
      simp [ha]
    | false =>
      constructor
      · intro h
        simp [scan_s, List.dropWhile_cons, List.takeWhile_cons, ha] at h
      · intro h
        have := h a (by simp)
        rw [ha] at this
        cases this

theorem dropWhile_head {α : Type} (p : α → Bool) (l : List α) (x : α) (r : List α)
    (h : l.dropWhile p = x :: r) : p x = false := by
  induction l with
  | nil => simp at h
  | cons a l ih =>
    cases ha : p a with
    | true =>
      simp only [List.dropWhile_cons, ha, if_true] at h
      exact ih h
    | false =>
      simp only [List.dropWhile_cons, ha, Bool.false_eq_true, if_false] at h
      injection h with h1 h2
      rw [← h1]
      exact ha

theorem scan_s_some (width : Nat) (s t : List Char) (h : scan_s width s = some t) :
    ∃ token, FirstToken s token ∧ t = token.take width := by
  unfold scan_s at h
  simp only [] at h
  split at h
  · cases h
  · rename_i hne
    simp only [Option.some.injEq] at h
    refine ⟨(s.dropWhile isspace).takeWhile (fun c => !isspace c), ?_, h.symm⟩
    refine ⟨s.takeWhile isspace, (s.dropWhile isspace).dropWhile (fun c => !isspace c), ?_, ?_,
      hne, ?_, ?_⟩
    · rw [List.append_assoc, List.takeWhile_append_dropWhile, List.takeWhile_append_dropWhile]
    · intro c hc
      exact List.mem_takeWhile_imp hc
    · intro c hc
      have := List.mem_takeWhile_imp hc
      simpa using this
    · intro c hc
      cases hd : (s.dropWhile isspace).dropWhile (fun c => !isspace c) with
      | nil => simp [hd] at hc
      | cons x r =>
        rw [hd] at hc
        simp only [List.head?_cons, Option.some.injEq] at hc
        subst hc
        simpa using dropWhile_head _ _ _ _ hd

theorem scan_s_of_first_token (width : Nat) (s token : List Char) (h : FirstToken s token) :
    scan_s width s = some (token.take width) := by
  obtain ⟨ws, rest, rfl, hws, hne, htok, hrest⟩ := h
  induction ws with
  | nil =>
    cases token with
    | nil => exact absurd rfl hne
    | cons a tk =>
      have ha : isspace a = false := htok a (by simp)
      have htk : ∀ c ∈ a :: tk, (!isspace c) = true := fun c hc => by simp [htok c hc]
      have e : ((a :: tk) ++ rest).takeWhile (fun c => !isspace c) = a :: tk := by
        cases rest with
        | nil => simpa using List.takeWhile_eq_self_iff.2 htk
        | cons r rs =>
          exact takeWhile_append_stop _ _ _ _ htk (by simp [hrest r rfl])
      have e0 : (([] : List Char) ++ (a :: tk) ++ rest).dropWhile isspace = (a :: tk) ++ rest := by
        simp [List.dropWhile_cons, ha]
      unfold scan_s
      simp only [e0, e]
      simp
  | cons w ws ih =>
    have hw : isspace w = true := hws w (by simp)
    have := ih (fun c hc => hws c (by simp [hc]))
    simp only [List.cons_append]
    rw [scan_s_after_space width w _ hw]
    exact this

theorem first_token_length (s token : List Char) (h : FirstToken s token) :
    token.length ≤ s.length := by
  obtain ⟨ws, rest, rfl, -⟩ := h
  simp
  omega

theorem fgets_from_length (text cur : List Char) (h : cur.length < 255) :
    ∀ b ∈ fgets_from text cur, b.length ≤ 255 := by
  induction text generalizing cur with
  | nil =>
    intro b hb
    unfold fgets_from at hb
    split at hb
    · simp at hb
    · simp only [List.mem_singleton] at hb
      subst hb
      simp
      omega
  | cons c cs ih =>
    intro b hb
    unfold fgets_from at hb
    split at hb
    · rcases List.mem_cons.1 hb with rfl | hb
      · simp
        omega
      · exact ih [] (by simp) b hb
    · rename_i hc
      have hc1 : ¬ (cur.length + 1 = LINE_SIZE - 1) := fun h1 => hc (Or.inr h1)
      simp only [LINE_SIZE] at hc1
      exact ih (c :: cur) (by simp only [List.length_cons]; omega) b hb

/-- Every buffer that `fgets` returns has at most 255 characters. -/
theorem fgets_all_length (text : List Char) : ∀ b ∈ fgets_all text, b.length ≤ 255 :=
  fgets_from_length text [] (by simp)

theorem chomp_length (raw : List Char) : (chomp raw).length ≤ raw.length :=
  (List.takeWhile_prefix _).length_le

/-! ## The material library named by the geometry file -/

theorem mtllib_of_none_iff (raw : List Char) :
    mtllib_of raw = none ↔
      (strncmp_eq (chomp raw) "mtllib" = false ∨ ∀ c ∈ (chomp raw).drop 6, isspace c = true) := by
  unfold mtllib_of
  cases hk : strncmp_eq (chomp raw) "mtllib" with
  | false => simp
  | true => simp [scan_s_none_iff]

theorem mtllib_of_some_iff (raw name : List Char) (hlen : raw.length ≤ 255) :
    mtllib_of raw = some name ↔
      (strncmp_eq (chomp raw) "mtllib" = true ∧ FirstToken ((chomp raw).drop 6) name) := by
  have hc := chomp_length raw
  unfold mtllib_of
  cases hk : strncmp_eq (chomp raw) "mtllib" with
  | false => simp
  | true =>
    simp only [if_true, true_and]
    constructor
    · intro h
      obtain ⟨token, h1, h2⟩ := scan_s_some 255 _ _ h
      have := first_token_length _ _ h1
      simp only [List.length_drop] at this
      rw [List.take_of_length_le (by omega)] at h2
      rw [h2]
      exact h1
    · intro h
      have := first_token_length _ _ h
      simp only [List.length_drop] at this
      rw [scan_s_of_first_token 255 _ _ h, List.take_of_length_le (by omega)]

theorem getLast?_cons_getD {α : Type} (a d : α) (l : List α) :
    (a :: l).getLast?.getD d = l.getLast?.getD a := by
  cases l with
  | nil => rfl
  | cons b l =>
    rw [List.getLast?_cons_cons, List.getLast?_eq_getLast (b :: l) (by simp)]
    rfl

/-- The library name after the loop: the name declared by the last buffer that declares one,
and the name held before when no buffer does. -/
theorem obj_loop_mtllib {F : Type} (L : FloatLib F) (alloc : Nat → Bool)
    (lines : List (List Char)) (st st1 : ObjState F) (h : obj_loop L alloc lines st = .ok st1) :
    st1.model.mtllib = ((lines.filterMap mtllib_of).getLast?).getD st.model.mtllib := by
  induction lines generalizing st with
  | nil =>
    cases h
    rfl
  | cons raw rest ih =>
    obtain ⟨s1, h1, h2⟩ := obj_loop_cons L alloc raw rest st st1 h
    have a7 := (obj_line_spec L alloc st s1 raw h1).2.2.2.2.2.2
    rw [ih s1 h2, a7]
    cases hm : mtllib_of raw with
    | none => simp [List.filterMap_cons, hm]
    | some name => simp [List.filterMap_cons, hm, getLast?_cons_getD]

set_option maxRecDepth 100000 in
/-- Claim C22 as stated fails on a line longer than the line array: the text that consists
of the one line of 255 characters `#` followed by `mtllib x.mtl` has no `mtllib` line, and
the model is returned with the library filename `x.mtl`, since `fgets` hands over the last
13 characters of the line as a buffer of their own. -/
theorem C22_long_line_counterexample :
    text_lines (List.replicate 255 '#' ++ "mtllib x.mtl\n".toList)
      = [List.replicate 255 '#' ++ "mtllib x.mtl\n".toList] ∧
    mtllib_of (List.replicate 255 '#' ++ "mtllib x.mtl\n".toList) = none ∧
    (∃ m, cjelly_format_3d_obj_load decimalLib alloc_ok
        (fun _ => some (List.replicate 255 '#' ++ "mtllib x.mtl\n".toList)) (some "l.obj".toList)
        true = .returned .SUCCESS (some m) ∧
      m.mtllib = "x.mtl".toList) := by
  refine ⟨by decide, by decide, ⟨_, rfl, by decide⟩⟩

/-- Claim C22, amended.  After a successful geometry parse of a text whose lines, terminators
included, have at most 255 characters, the library filename of the model is empty when no
line declares a library name, and otherwise it is the name declared by the last line that
declares one.  A line declares a name exactly when it starts with `mtllib` and what follows
the keyword holds a character that is not white space, and the name is then the first
white-space-delimited token that follows the keyword (the bound of 255 characters of the scan
is never reached); a `mtllib` line without a token declares nothing and leaves the name as
it is. -/
theorem C22_mtllib_last_token {F : Type} (L : FloatLib F) (alloc : Nat → Bool)
    (fopen : List Char → Option (List Char)) (path text : List Char) (ok : Bool)
    (m : CJellyFormat3dObjModel F) (ht : fopen path = some text) (hshort : ShortLines text)
    (h : cjelly_format_3d_obj_load L alloc fopen (some path) ok = .returned .SUCCESS (some m)) :
    m.mtllib = (((text_lines text).filterMap mtllib_of).getLast?).getD [] ∧
    ((∀ raw ∈ text_lines text, mtllib_of raw = none) → m.mtllib = []) ∧
    (∀ pre raw post name, text_lines text = pre ++ raw :: post → mtllib_of raw = some name →
      (∀ r ∈ post, mtllib_of r = none) → m.mtllib = name) ∧
    (∀ raw ∈ text_lines text,
      (mtllib_of raw = none ↔
        (strncmp_eq (chomp raw) "mtllib" = false ∨
          ∀ c ∈ (chomp raw).drop 6, isspace c = true)) ∧
      (∀ name, mtllib_of raw = some name ↔
        (strncmp_eq (chomp raw) "mtllib" = true ∧ FirstToken ((chomp raw).drop 6) name))) := by
  obtain ⟨st, hl, rfl⟩ := obj_load_success L alloc fopen path text ok m ht h
  have hm := obj_loop_mtllib L alloc _ _ st hl
  rw [fgets_all_short text hshort] at hm
  simp only [obj_init] at hm
  refine ⟨hm, ?_, ?_, ?_⟩
  · intro hnone
    have e : (text_lines text).filterMap mtllib_of = [] :=
      List.filterMap_eq_nil_iff.2 hnone
    rw [hm, e]
    rfl
  · intro pre raw post name hsplit hraw hpost
    have e : post.filterMap mtllib_of = [] := List.filterMap_eq_nil_iff.2 hpost
    rw [hm, hsplit, List.filterMap_append, List.filterMap_cons, hraw, e]
    simp
  · intro raw hraw
    exact ⟨mtllib_of_none_iff raw, fun name => mtllib_of_some_iff raw name (hshort raw hraw)⟩

theorem C22_mtllib_last_token_witness :
    ∃ m : CJellyFormat3dObjModel Decimal,
      cjelly_format_3d_obj_load decimalLib alloc_ok
          (one_file "mtllib a.mtl\nv 1 2 3\nmtllib  b.mtl c.mtl\nmtllib \n") (some "m.obj".toList)
          true = .returned .SUCCESS (some m) ∧
      m.mtllib = "b.mtl".toList := by
  have hload : ∃ m : CJellyFormat3dObjModel Decimal,
      cjelly_format_3d_obj_load decimalLib alloc_ok
          (one_file "mtllib a.mtl\nv 1 2 3\nmtllib  b.mtl c.mtl\nmtllib \n") (some "m.obj".toList)
          true = .returned .SUCCESS (some m) := ⟨_, rfl⟩
  obtain ⟨m, hm⟩ := hload
  have hshort : ShortLines "mtllib a.mtl\nv 1 2 3\nmtllib  b.mtl c.mtl\nmtllib \n".toList := by
    unfold ShortLines
    decide
  have h := (C22_mtllib_last_token decimalLib alloc_ok
    (one_file "mtllib a.mtl\nv 1 2 3\nmtllib  b.mtl c.mtl\nmtllib \n") "m.obj".toList _ true m
    rfl hshort hm).1
  exact ⟨m, hm, h.trans (by decide)⟩

/-! ## Group lines without a name -/

/-- Claim C25.  A `g ` or `o ` line with nothing but white space after the prefix leaves
every variable of the read loop as it is, whatever the allocator would do: no group is
created, the groups and their number are unchanged and so is the active group.  Hence the
lines read after it are processed as if it were absent, and a face line read next increments
the face count of the group that was active before (of no group if there was none). -/
theorem C25_nameless_group_line {F : Type} (L : FloatLib F) (alloc : Nat → Bool)
    (st : ObjState F) (raw : List Char)
    (hk : strncmp_eq (chomp raw) "g " = true ∨ strncmp_eq (chomp raw) "o " = true)
    (hws : ∀ c ∈ (chomp raw).drop 2, isspace c = true) :
    obj_line L alloc st raw = .ok st ∧
    (∀ post, obj_loop L alloc (raw :: post) st = obj_loop L alloc post st) ∧
    (∀ fl st2, face_of fl ≠ none → obj_loop L alloc [raw, fl] st = .ok st2 →
      st2.model.groups =
        (if st.current_group ≥ 0 then incr_face_count st.current_group.toNat st.model.groups
         else st.model.groups) ∧
      st2.current_group = st.current_group) := by
  have hs : scan_s 127 ((chomp raw).drop 2) = none := (scan_s_none_iff 127 _).2 hws
  have h1 : obj_line L alloc st raw = .ok st := by
    unfold obj_line
    rcases obj_dispatch_cases (chomp raw) with
      ⟨h1, h2, h3, h4, h5, h6, h7⟩ | ⟨h1, h2, h3, h4, h5, h6, h7⟩ | ⟨h1, h2, h3, h4, h5, h6, h7⟩ |
      ⟨h1, h2, h3, h4, h5, h6, h7⟩ | ⟨h1, h2, h3, h4, h5, h6, h7⟩ | ⟨h1, h2, h3, h4, h5, h6, h7⟩ |
      ⟨h1, h2, h3, h4, h5, h6, h7⟩ | ⟨h1, h2, h3, h4, h5, h6, h7⟩
    all_goals simp only [h5, h6, Bool.false_eq_true, or_self] at hk
    all_goals simp [h1, h2, h3, h4, h5, h6, hs]
  have h2 : ∀ post, obj_loop L alloc (raw :: post) st = obj_loop L alloc post st := by
    intro post
    simp [obj_loop, h1]
  refine ⟨h1, h2, ?_⟩
  intro fl st2 hf hl
  rw [h2] at hl
  obtain ⟨s1, e1, e2⟩ := obj_loop_cons L alloc fl [] st st2 hl
  cases e2
  obtain ⟨-, -, -, -, a5, a6, -⟩ := obj_line_spec L alloc st _ fl e1
  have hg : group_of fl = none := by
    cases hg : group_of fl with
    | none => rfl
    | some name => exact absurd (group_face_excl fl name hg) hf
  rw [hg] at a5 a6
  simp only at a5 a6
  have hf1 : (face_of fl).isSome = true := by
    cases hx : face_of fl with
    | none => exact absurd hx hf
    | some f => rfl
  rw [a5, a6]
  simp [hf1]

theorem C25_nameless_group_line_witness :
    obj_line decimalLib alloc_ok
        { model := { (obj_init Decimal).model with groups := [⟨"a".toList, 0, 1⟩] }
          current_group := 0, nalloc := 6 } "g \t \r\n".toList
      = .ok { model := { (obj_init Decimal).model with groups := [⟨"a".toList, 0, 1⟩] }
              current_group := 0, nalloc := 6 } ∧
    cjelly_format_3d_obj_load decimalLib alloc_ok (one_file "g a\nf 1 2 3\ng \nf 1 2 3\no  \nf 3 2 1\n")
        (some "g.obj".toList) true
      = cjelly_format_3d_obj_load decimalLib alloc_ok (one_file "g a\nf 1 2 3\nf 1 2 3\nf 3 2 1\n")
        (some "g.obj".toList) true :=
  ⟨(C25_nameless_group_line decimalLib alloc_ok _ "g \t \r\n".toList (Or.inl (by decide))
    (by decide)).1, by decide⟩

/-! ## Capacities of the geometry loader -/

/-- What the loop body does to the count and the capacity of each sequence: it leaves them,
or it appends one element after the growth step. -/
theorem obj_line_grow {F : Type} (L : FloatLib F) (alloc : Nat → Bool) (st st1 : ObjState F)
    (raw : List Char) (h : obj_line L alloc st raw = .ok st1) :
    ((st1.model.vertices.length = st.model.vertices.length ∧
        st1.model.vertex_capacity = st.model.vertex_capacity) ∨
      (st1.model.vertices.length = st.model.vertices.length + 1 ∧ ∃ n n1,
        grow alloc st.model.vertices.length st.model.vertex_capacity n
          = some (st1.model.vertex_capacity, n1))) ∧
    ((st1.model.texcoords.length = st.model.texcoords.length ∧
        st1.model.texcoord_capacity = st.model.texcoord_capacity) ∨
      (st1.model.texcoords.length = st.model.texcoords.length + 1 ∧ ∃ n n1,
        grow alloc st.model.texcoords.length st.model.texcoord_capacity n
          = some (st1.model.texcoord_capacity, n1))) ∧
    ((st1.model.normals.length = st.model.normals.length ∧
        st1.model.normal_capacity = st.model.normal_capacity) ∨
      (st1.model.normals.length = st.model.normals.length + 1 ∧ ∃ n n1,
        grow alloc st.model.normals.length st.model.normal_capacity n
          = some (st1.model.normal_capacity, n1))) ∧
    ((st1.model.faces.length = st.model.faces.length ∧
        st1.model.face_capacity = st.model.face_capacity) ∨
      (st1.model.faces.length = st.model.faces.length + 1 ∧ ∃ n n1,
        grow alloc st.model.faces.length st.model.face_capacity n
          = some (st1.model.face_capacity, n1))) ∧
    ((st1.model.groups.length = st.model.groups.length ∧
        st1.model.group_capacity = st.model.group_capacity) ∨
      (st1.model.groups.length = st.model.groups.length + 1 ∧ ∃ n n1,
        grow alloc st.model.groups.length st.model.group_capacity n
          = some (st1.model.group_capacity, n1))) := by
  unfold obj_line at h
  simp only [] at h
  repeat' split at h
  all_goals cases h
  all_goals refine ⟨?_, ?_, ?_, ?_, ?_⟩
  all_goals first
    | exact Or.inl ⟨rfl, rfl⟩
    | exact Or.inr ⟨by simp, _, _, by assumption⟩
    | exact Or.inl ⟨incr_face_count_length _ _, rfl⟩

theorem obj_line_caps {F : Type} (L : FloatLib F) (alloc : Nat → Bool) (st st1 : ObjState F)
    (raw : List Char) (hi : ObjCaps st.model) (h : obj_line L alloc st raw = .ok st1) :
    ObjCaps st1.model := by
  obtain ⟨g1, g2, g3, g4, g5⟩ := obj_line_grow L alloc st st1 raw h
  obtain ⟨c1, c2, c3, c4, c5⟩ := hi
  simp only [ObjCaps, CJellyFormat3dObjModel.vertex_count, CJellyFormat3dObjModel.texcoord_count,
    CJellyFormat3dObjModel.normal_count, CJellyFormat3dObjModel.face_count,
    CJellyFormat3dObjModel.group_count] at c1 c2 c3 c4 c5 ⊢
  refine ⟨?_, ?_, ?_, ?_, ?_⟩
  · rcases g1 with ⟨e1, e2⟩ | ⟨e1, n, n1, e2⟩
    · rw [e1, e2]; exact c1
    · rw [e1]; exact (cap_step 128 alloc _ _ n _ n1 (by decide) c1 e2).1
  · rcases g2 with ⟨e1, e2⟩ | ⟨e1, n, n1, e2⟩
    · rw [e1, e2]; exact c2
    · rw [e1]; exact (cap_step 128 alloc _ _ n _ n1 (by decide) c2 e2).1
  · rcases g3 with ⟨e1, e2⟩ | ⟨e1, n, n1, e2⟩
    · rw [e1, e2]; exact c3
    · rw [e1]; exact (cap_step 128 alloc _ _ n _ n1 (by decide) c3 e2).1
  · rcases g4 with ⟨e1, e2⟩ | ⟨e1, n, n1, e2⟩
    · rw [e1, e2]; exact c4
    · rw [e1]; exact (cap_step 128 alloc _ _ n _ n1 (by decide) c4 e2).1
  · rcases g5 with ⟨e1, e2⟩ | ⟨e1, n, n1, e2⟩
    · rw [e1, e2]; exact c5
    · rw [e1]; exact (cap_step 16 alloc _ _ n _ n1 (by decide) c5 e2).1

theorem obj_loop_caps {F : Type} (L : FloatLib F) (alloc : Nat → Bool)
    (lines : List (List Char)) (st st1 : ObjState F) (hi : ObjCaps st.model)
    (h : obj_loop L alloc lines st = .ok st1) : ObjCaps st1.model := by
  induction lines generalizing st with
  | nil =>
    cases h
    exact hi
  | cons raw rest ih =>
    obtain ⟨s1, h1, h2⟩ := obj_loop_cons L alloc raw rest st st1 h
    exact ih s1 (obj_line_caps L alloc st s1 raw hi h1) h2

theorem obj_init_caps (F : Type) : ObjCaps (obj_init F).model :=
  ⟨cap_inv_init 128, cap_inv_init 128, cap_inv_init 128, cap_inv_init 128, cap_inv_init 16⟩

/-- Claim C24.  After the read loop of the geometry loader has processed any sequence of
buffers from its initial state, each of the vertex, texcoord, normal and face sequences has
its count within its capacity, the capacity being the smallest number `128 * 2 ^ k` that is
at least the count, and the group sequence has the same with `16 * 2 ^ k` (counts and
capacities are natural numbers: overflow is left aside).  Whenever the next pass of the loop
appends to a sequence, the index it writes, the count before, is strictly below the capacity
the sequence has then. -/
theorem C24_capacity_invariant {F : Type} (L : FloatLib F) (alloc : Nat → Bool)
    (pre : List (List Char)) (st : ObjState F)
    (h : obj_loop L alloc pre (obj_init F) = .ok st) :
    (CapInv 128 st.model.vertex_count st.model.vertex_capacity ∧
      CapInv 128 st.model.texcoord_count st.model.texcoord_capacity ∧
      CapInv 128 st.model.normal_count st.model.normal_capacity ∧
      CapInv 128 st.model.face_count st.model.face_capacity ∧
      CapInv 16 st.model.group_count st.model.group_capacity) ∧
    (∀ raw st1, obj_line L alloc st raw = .ok st1 →
      (st1.model.vertex_count = st.model.vertex_count ∨
        (st1.model.vertex_count = st.model.vertex_count + 1 ∧
          st.model.vertex_count < st1.model.vertex_capacity)) ∧
      (st1.model.texcoord_count = st.model.texcoord_count ∨
        (st1.model.texcoord_count = st.model.texcoord_count + 1 ∧
          st.model.texcoord_count < st1.model.texcoord_capacity)) ∧
      (st1.model.normal_count = st.model.normal_count ∨
        (st1.model.normal_count = st.model.normal_count + 1 ∧
          st.model.normal_count < st1.model.normal_capacity)) ∧
      (st1.model.face_count = st.model.face_count ∨
        (st1.model.face_count = st.model.face_count + 1 ∧
          st.model.face_count < st1.model.face_capacity)) ∧
      (st1.model.group_count = st.model.group_count ∨
        (st1.model.group_count = st.model.group_count + 1 ∧
          st.model.group_count < st1.model.group_capacity))) := by
  have hi : ObjCaps st.model := obj_loop_caps L alloc pre _ st (obj_init_caps F) h
  refine ⟨hi, ?_⟩
  intro raw st1 h1
  obtain ⟨g1, g2, g3, g4, g5⟩ := obj_line_grow L alloc st st1 raw h1
  obtain ⟨c1, c2, c3, c4, c5⟩ := hi
  simp only [CJellyFormat3dObjModel.vertex_count, CJellyFormat3dObjModel.texcoord_count,
    CJellyFormat3dObjModel.normal_count, CJellyFormat3dObjModel.face_count,
    CJellyFormat3dObjModel.group_count] at c1 c2 c3 c4 c5 ⊢
  refine ⟨?_, ?_, ?_, ?_, ?_⟩
  · rcases g1 with ⟨e1, -⟩ | ⟨e1, n, n1, e2⟩
    · exact Or.inl e1
    · exact Or.inr ⟨e1, (cap_step 128 alloc _ _ n _ n1 (by decide) c1 e2).2⟩
  · rcases g2 with ⟨e1, -⟩ | ⟨e1, n, n1, e2⟩
    · exact Or.inl e1
    · exact Or.inr ⟨e1, (cap_step 128 alloc _ _ n _ n1 (by decide) c2 e2).2⟩
  · rcases g3 with ⟨e1, -⟩ | ⟨e1, n, n1, e2⟩
    · exact Or.inl e1
    · exact Or.inr ⟨e1, (cap_step 128 alloc _ _ n _ n1 (by decide) c3 e2).2⟩
  · rcases g4 with ⟨e1, -⟩ | ⟨e1, n, n1, e2⟩
    · exact Or.inl e1
    · exact Or.inr ⟨e1, (cap_step 128 alloc _ _ n _ n1 (by decide) c4 e2).2⟩
  · rcases g5 with ⟨e1, -⟩ | ⟨e1, n, n1, e2⟩
    · exact Or.inl e1
    · exact Or.inr ⟨e1, (cap_step 16 alloc _ _ n _ n1 (by decide) c5 e2).2⟩

set_option maxRecDepth 100000 in
theorem C24_capacity_invariant_witness :
    obj_loop decimalLib alloc_ok (List.replicate 129 "v 1 2 3\n".toList) (obj_init Decimal)
      = .ok { model := { (obj_init Decimal).model with
                vertices := List.replicate 129 ⟨⟨1, 0⟩, ⟨2, 0⟩, ⟨3, 0⟩⟩
                vertex_capacity := 256 }
              current_group := -1
              nalloc := 7 } ∧
    CapInv 128 129 256 ∧ CapInv 16 0 16 :=
  have h : obj_loop decimalLib alloc_ok (List.replicate 129 "v 1 2 3\n".toList) (obj_init Decimal)
      = .ok { model := { (obj_init Decimal).model with
                vertices := List.replicate 129 ⟨⟨1, 0⟩, ⟨2, 0⟩, ⟨3, 0⟩⟩
                vertex_capacity := 256 }
              current_group := -1
              nalloc := 7 } := rfl
  ⟨h, (C24_capacity_invariant decimalLib alloc_ok _ _ h).1.1,
    (C24_capacity_invariant decimalLib alloc_ok _ _ h).1.2.2.2.2⟩

/-! ## Line terminators: how `fgets` cuts a text into buffers -/

theorem fgets_from_cons (c : Char) (cs cur : List Char) :
    fgets_from (c :: cs) cur =
      if c = '\n' ∨ cur.length + 1 = LINE_SIZE - 1 then (c :: cur).reverse :: fgets_from cs []
      else fgets_from cs (c :: cur) := by
  rw [fgets_from]

theorem fgets_from_append_line (l rest cur : List Char) (hl : '\n' ∉ l) :
    fgets_from (l ++ '\n' :: rest) cur = fgets_from (l ++ ['\n']) cur ++ fgets_from rest [] := by
  induction l generalizing cur with
  | nil => simp [fgets_from]
  | cons c l ih =>
    have hc : c ≠ '\n' := fun h => hl (by simp [h])
    have hl1 : '\n' ∉ l := fun h => hl (by simp [h])
    simp only [List.cons_append, fgets_from_cons, hc, false_or]
    split
    · rw [ih [] hl1]
      rfl
    · exact ih (c :: cur) hl1

theorem fgets_all_lf_cons (l : List Char) (ls : List (List Char)) (hl : '\n' ∉ l) :
    fgets_all (lf_text (l :: ls)) = fgets_all (l ++ ['\n']) ++ fgets_all (lf_text ls) := by
  simp only [lf_text, List.map_cons, List.flatten_cons, List.append_assoc, List.singleton_append,
    fgets_all]
  exact fgets_from_append_line l _ [] hl

theorem fgets_all_crlf_cons (l : List Char) (ls : List (List Char)) (hl : '\n' ∉ l) :
    fgets_all (crlf_text (l :: ls))
      = fgets_all (l ++ ['\r', '\n']) ++ fgets_all (crlf_text ls) := by
  have h1 : '\n' ∉ l ++ ['\r'] := by
    simp only [List.mem_append, List.mem_singleton, not_or]
    exact ⟨hl, by decide⟩
  have := fgets_from_append_line (l ++ ['\r']) (crlf_text ls) [] h1
  simp only [crlf_text, List.map_cons, List.flatten_cons, List.append_assoc, List.cons_append,
    List.nil_append, fgets_all] at this ⊢
  exact this

/-- A buffer is full after 255 characters without a newline. -/
theorem fgets_from_full (a t cur : List Char) (ha : a ≠ []) (hlen : cur.length + a.length = 255)
    (hnl : '\n' ∉ a) : fgets_from (a ++ t) cur = (cur.reverse ++ a) :: fgets_from t [] := by
  induction a generalizing cur with
  | nil => exact absurd rfl ha
  | cons c a ih =>
    have hc : c ≠ '\n' := fun h => hnl (by simp [h])
    have hl1 : '\n' ∉ a := fun h => hnl (by simp [h])
    simp only [List.length_cons] at hlen
    cases a with
    | nil =>
      have h1 : cur.length + 1 = LINE_SIZE - 1 := by
        simp only [List.length_nil] at hlen
        simp only [LINE_SIZE]
        omega
      simp [fgets_from, hc, h1]
    | cons d a =>
      have h1 : ¬ (cur.length + 1 = LINE_SIZE - 1) := by
        simp only [List.length_cons] at hlen
        simp only [LINE_SIZE]
        omega
      have := ih (c :: cur) (by simp) (by simp only [List.length_cons] at hlen ⊢; omega) hl1
      simp only [List.cons_append] at this ⊢
      rw [fgets_from_cons c, if_neg (by simp [hc, h1]), this]
      simp

/-! ## Line terminators: read loops -/

theorem except_map_cases {E S V : Type} (view : S → V) (r r1 : Except E S)
    (h : r.map view = r1.map view) :
    (∃ e, r = .error e ∧ r1 = .error e) ∨
    (∃ s s1, r = .ok s ∧ r1 = .ok s1 ∧ view s = view s1) := by
  cases r with
  | error e =>
    cases r1 with
    | error e1 =>
      simp only [Except.map] at h
      injection h with h
      subst h
      exact Or.inl ⟨e, rfl, rfl⟩
    | ok s1 => simp [Except.map] at h
  | ok s =>
    cases r1 with
    | error e1 => simp [Except.map] at h
    | ok s1 =>
      simp only [Except.map] at h
      injection h with h
      exact Or.inr ⟨s, s1, rfl, rfl, h⟩

theorem read_loop_cons_congr {E S V : Type} (step : S → List Char → Except E S) (view : S → V)
    (raw raw1 : List Char) (rest rest1 : List (List Char)) (s s1 : S)
    (h : (step s raw).map view = (step s1 raw1).map view)
    (hrest : ∀ t t1, view t = view t1 →
      (read_loop step rest t).map view = (read_loop step rest1 t1).map view) :
    (read_loop step (raw :: rest) s).map view = (read_loop step (raw1 :: rest1) s1).map view := by
  rcases except_map_cases view _ _ h with ⟨e, h1, h2⟩ | ⟨t, t1, h1, h2, h3⟩
  · simp only [read_loop, h1, h2]
  · simp only [read_loop, h1, h2]
    exact hrest t t1 h3

theorem read_loop_append_eq {E S : Type} (step : S → List Char → Except E S)
    (pre rest : List (List Char)) (s : S) :
    read_loop step (pre ++ rest) s =
      match read_loop step pre s with
      | .error e => .error e
      | .ok s1 => read_loop step rest s1 := by
  induction pre generalizing s with
  | nil => rfl
  | cons raw pre ih =>
    simp only [List.cons_append, read_loop]
    cases step s raw with
    | error e => rfl
    | ok s1 => exact ih s1

theorem read_loop_append_congr {E S V : Type} (step : S → List Char → Except E S) (view : S → V)
    (A B C D : List (List Char)) (s s1 : S)
    (h : (read_loop step A s).map view = (read_loop step B s1).map view)
    (hrest : ∀ t t1, view t = view t1 →
      (read_loop step C t).map view = (read_loop step D t1).map view) :
    (read_loop step (A ++ C) s).map view = (read_loop step (B ++ D) s1).map view := by
  rw [read_loop_append_eq, read_loop_append_eq]
  rcases except_map_cases view _ _ h with ⟨e, h1, h2⟩ | ⟨t, t1, h1, h2, h3⟩
  · simp only [h1, h2]
  · simp only [h1, h2]
    exact hrest t t1 h3

/-- One line of a text, read with either terminator, by a loop body that looks at a buffer
only up to its first carriage return or newline and for which a buffer holding a newline
alone changes nothing. -/
theorem read_line_crlf {E S V : Type} (step : S → List Char → Except E S) (view : S → V)
    (hstep : ∀ s s1 l ws ws1, view s = view s1 →
      (∀ c ∈ ws, c = '\r' ∨ c = '\n') → (∀ c ∈ ws1, c = '\r' ∨ c = '\n') →
      ((ws ≠ [] ∧ ws1 ≠ []) ∨ 7 ≤ l.length) →
      (step s (l ++ ws)).map view = (step s1 (l ++ ws1)).map view)
    (hnl : ∀ s, (step s ['\n']).map view = .ok (view s)) :
    ∀ (n : Nat) (l : List Char), l.length = n → '\n' ∉ l → ∀ s s1, view s = view s1 →
      (read_loop step (fgets_all (l ++ ['\n'])) s).map view
        = (read_loop step (fgets_all (l ++ ['\r', '\n'])) s1).map view := by
  intro n
  induction n using Nat.strong_induction_on with
  | _ n ih =>
    intro l hl hnl1 s s1 hv
    by_cases hlong : 255 ≤ l.length
    · obtain ⟨a, b, rfl, ha⟩ : ∃ a b, l = a ++ b ∧ a.length = 255 :=
        ⟨l.take 255, l.drop 255, (List.take_append_drop 255 l).symm, by simp; omega⟩
      have hna : '\n' ∉ a := fun h => hnl1 (by simp [h])
      have hnb : '\n' ∉ b := fun h => hnl1 (by simp [h])
      have hane : a ≠ [] := by
        intro h0
        rw [h0] at ha
        simp at ha
      have e1 : fgets_all (a ++ b ++ ['\n']) = a :: fgets_all (b ++ ['\n']) := by
        have := fgets_from_full a (b ++ ['\n']) [] hane (by simp [ha]) hna
        simpa [fgets_all] using this
      have e2 : fgets_all (a ++ b ++ ['\r', '\n']) = a :: fgets_all (b ++ ['\r', '\n']) := by
        have := fgets_from_full a (b ++ ['\r', '\n']) [] hane (by simp [ha]) hna
        simpa [fgets_all] using this
      rw [e1, e2]
      apply read_loop_cons_congr
      · have := hstep s s1 a [] [] hv (by simp) (by simp) (Or.inr (by omega))
        simpa using this
      · intro t t1 ht
        simp only [List.length_append] at hl
        exact ih b.length (by omega) b rfl hnb t t1 ht
    · by_cases h254 : l.length = 254
      · have e1 : fgets_all (l ++ ['\n']) = [l ++ ['\n']] := by
          have := fgets_from_line l [] [] hnl1 (by simp; omega)
          simpa [fgets_all, fgets_from] using this
        have hn1 : '\n' ∉ l ++ ['\r'] := by
          simp only [List.mem_append, List.mem_singleton, not_or]
          exact ⟨hnl1, by decide⟩
        have e2 : fgets_all (l ++ ['\r', '\n']) = [l ++ ['\r'], ['\n']] := by
          have := fgets_from_full (l ++ ['\r']) ['\n'] [] (by simp) (by simp [h254]) hn1
          simp only [List.append_assoc, List.singleton_append, List.reverse_nil,
            List.nil_append] at this
          have e3 : fgets_from ['\n'] [] = [['\n']] := by decide
          rw [fgets_all, this, e3]
        rw [e1, e2]
        apply read_loop_cons_congr
        · exact hstep s s1 l ['\n'] ['\r'] hv (by simp) (by simp)
            (Or.inl ⟨by simp, by simp⟩)
        · intro t t1 ht
          have h2 := hnl t1
          rcases except_map_cases view (step t1 ['\n']) (.ok t1) (by simpa [Except.map] using h2)
            with ⟨e, -, h4⟩ | ⟨t2, t3, h3, h4, h5⟩
          · cases h4
          · injection h4 with h4
            subst h4
            simp only [read_loop, h3, Except.map]
            rw [ht, h5]
      · have e1 : fgets_all (l ++ ['\n']) = [l ++ ['\n']] := by
          have := fgets_from_line l [] [] hnl1 (by simp; omega)
          simpa [fgets_all, fgets_from] using this
        have hn1 : '\n' ∉ l ++ ['\r'] := by
          simp only [List.mem_append, List.mem_singleton, not_or]
          exact ⟨hnl1, by decide⟩
        have e2 : fgets_all (l ++ ['\r', '\n']) = [l ++ ['\r', '\n']] := by
          have := fgets_from_line (l ++ ['\r']) [] [] hn1 (by simp; omega)
          simpa [fgets_all, fgets_from] using this
        rw [e1, e2]
        apply read_loop_cons_congr
        · exact hstep s s1 l ['\n'] ['\r', '\n'] hv (by simp) (by simp)
            (Or.inl ⟨by simp, by simp⟩)
        · intro t t1 ht
          simp only [read_loop, Except.map, ht]

/-- A text read with either line terminator, by a loop body as in `read_line_crlf`. -/
theorem read_loop_crlf {E S V : Type} (step : S → List Char → Except E S) (view : S → V)
    (hstep : ∀ s s1 l ws ws1, view s = view s1 →
      (∀ c ∈ ws, c = '\r' ∨ c = '\n') → (∀ c ∈ ws1, c = '\r' ∨ c = '\n') →
      ((ws ≠ [] ∧ ws1 ≠ []) ∨ 7 ≤ l.length) →
      (step s (l ++ ws)).map view = (step s1 (l ++ ws1)).map view)
    (hnl : ∀ s, (step s ['\n']).map view = .ok (view s))
    (ls : List (List Char)) (hls : ∀ l ∈ ls, '\n' ∉ l) (s s1 : S) (hv : view s = view s1) :
    (read_loop step (fgets_all (lf_text ls)) s).map view
      = (read_loop step (fgets_all (crlf_text ls)) s1).map view := by
  induction ls generalizing s s1 with
  | nil => simp [lf_text, crlf_text, fgets_all, fgets_from, read_loop, Except.map, hv]
  | cons l ls ih =>
    have hl : '\n' ∉ l := hls l (by simp)
    rw [fgets_all_lf_cons l ls hl, fgets_all_crlf_cons l ls hl]
    apply read_loop_append_congr
    · exact read_line_crlf step view hstep hnl l.length l rfl hl s s1 hv
    · intro t t1 ht
      exact ih (fun x hx => hls x (by simp [hx])) t t1 ht

/-! ## Line terminators: the two loaders -/

theorem obj_loop_eq_read_loop {F : Type} (L : FloatLib F) (alloc : Nat → Bool)
    (lines : List (List Char)) (st : ObjState F) :
    obj_loop L alloc lines st = read_loop (obj_line L alloc) lines st := by
  induction lines generalizing st with
  | nil => rfl
  | cons raw rest ih =>
    simp only [obj_loop, read_loop]
    cases obj_line L alloc st raw with
    | error e => rfl
    | ok s1 => exact ih s1

theorem mtl_loop_eq_read_loop {F : Type} (L : FloatLib F) (alloc : Nat → Bool)
    (lines : List (List Char)) (st : MtlState F) :
    mtl_loop L alloc lines st = read_loop (mtl_line L alloc) lines st := by
  induction lines generalizing st with
  | nil => rfl
  | cons raw rest ih =>
    simp only [mtl_loop, read_loop]
    cases mtl_line L alloc st raw with
    | error e => rfl
    | ok s1 => exact ih s1

theorem takeWhile_append_fail {α : Type} (p : α → Bool) (y : List α) (a : α) (z : List α)
    (h : p a = false) : (y ++ a :: z).takeWhile p = y.takeWhile p := by
  induction y with
  | nil => simp [List.takeWhile, h]
  | cons b y ih =>
    cases hb : p b <;> simp [List.takeWhile, hb, ih]

theorem takeWhile_append_all_fail {α : Type} (p : α → Bool) (y ws : List α)
    (h : ∀ c ∈ ws, p c = false) : (y ++ ws).takeWhile p = y.takeWhile p := by
  cases ws with
  | nil => simp
  | cons a z => exact takeWhile_append_fail p y a z (h a (by simp))

theorem chomp_append_eol (l ws : List Char) (hws : ∀ c ∈ ws, c = '\r' ∨ c = '\n') :
    chomp (l ++ ws) = chomp l := by
  apply takeWhile_append_all_fail
  intro c hc
  rcases hws c hc with rfl | rfl <;> decide

/-- The loop body of the geometry loader looks at a buffer only up to its first carriage
return, newline or NUL. -/
theorem obj_line_chomp {F : Type} (L : FloatLib F) (alloc : Nat → Bool) (st : ObjState F)
    (raw raw1 : List Char) (h : chomp raw = chomp raw1) :
    obj_line L alloc st raw = obj_line L alloc st raw1 := by
  unfold obj_line
  rw [h]

theorem obj_line_newline {F : Type} (L : FloatLib F) (alloc : Nat → Bool) (st : ObjState F) :
    obj_line L alloc st ['\n'] = .ok st := by
  have hc : chomp ['\n'] = [] := by decide
  unfold obj_line
  rw [hc]
  rfl

/-- The array after `fgets` and the cut: the line, a NUL, and what the array held behind the
character at which the line was cut. -/
theorem buffer_after_fgets_tail (buf raw : List Char) :
    cut_line (fgets_store buf raw)
      = chomp raw ++ NUL :: (fgets_store buf raw).drop ((chomp raw).length + 1) := by
  obtain ⟨t0, t, ht, hstop⟩ := fgets_store_split raw (buf.drop (raw.length + 1))
  have hc := chomp_not_eol raw
  have hlen : ((cstr_at (fgets_store buf raw) 0).takeWhile
      (fun c => !(c = '\r' || c = '\n'))).length = (chomp raw).length := by
    rw [cstr_at, List.drop_zero, takeWhile_takeWhile, fgets_store, ht]
    congr 1
    apply takeWhile_append_stop
    · intro a ha
      have := hc a ha
      simp [eol] at this
      simp [this]
    · simp [eol] at hstop
      rcases hstop with (h | h) | h <;> simp [h]
  have hd : (fgets_store buf raw).drop ((chomp raw).length + 1) = t := by
    rw [fgets_store, ht]
    have : chomp raw ++ t0 :: t = (chomp raw ++ [t0]) ++ t := by simp
    rw [this]
    exact List.drop_left' (by simp)
  rw [hd, cut_line, hlen, fgets_store, ht, set_append_length]

/-- The C string at offset 7 of the array after a buffer of at least 7 characters that holds
a line of at least 6: it lies in what `fgets` has just stored. -/
theorem name_in_buffer (buf raw : List Char) (h7 : 7 ≤ raw.length)
    (h6 : 6 ≤ (chomp raw).length) :
    cstr_at (cut_line (fgets_store buf raw)) 7 = name_text raw := by
  unfold name_text
  by_cases hn : 7 ≤ (chomp raw).length
  · rw [if_pos hn]
    exact cstr_after_fgets buf raw 7 hn
  · rw [if_neg hn]
    have hn6 : (chomp raw).length = 6 := by omega
    rw [buffer_after_fgets_tail, cstr_at, hn6]
    have e1 : chomp raw ++ NUL :: (fgets_store buf raw).drop (6 + 1)
        = (chomp raw ++ [NUL]) ++ (fgets_store buf raw).drop 7 := by simp
    rw [e1, List.drop_left' (by simp [hn6]), fgets_store,
      List.drop_append_of_le_length (by omega)]
    exact takeWhile_append_fail _ _ _ _ (by simp)

theorem scan_s_nonspace (width : Nat) (a : Char) (s : List Char) (ha : isspace a = false) :
    scan_s width (a :: s) = some ((a :: s.takeWhile (fun c => !isspace c)).take width) := by
  simp [scan_s, List.dropWhile_cons, List.takeWhile_cons, ha]

/-- White space at the end of a C string does not change what `%s` scans. -/
theorem scan_s_trailing (width : Nat) (x ws : List Char) (hws : ∀ c ∈ ws, isspace c = true) :
    scan_s width ((x ++ ws).takeWhile (fun c => !(c = NUL)))
      = scan_s width (x.takeWhile (fun c => !(c = NUL))) := by
  induction x with
  | nil =>
    have h1 : scan_s width (([] ++ ws).takeWhile (fun c => !(c = NUL))) = none := by
      rw [scan_s_none_iff]
      intro c hc
      have hc1 : c ∈ ws := (List.takeWhile_prefix _).subset (by simpa using hc)
      exact hws c hc1
    rw [h1]
    rfl
  | cons a x ih =>
    by_cases ha : a = NUL
    · simp [List.takeWhile, ha]
    · have e1 : ((a :: x) ++ ws).takeWhile (fun c => !(c = NUL))
          = a :: (x ++ ws).takeWhile (fun c => !(c = NUL)) := by
        simp [List.takeWhile, ha]
      have e2 : (a :: x).takeWhile (fun c => !(c = NUL))
          = a :: x.takeWhile (fun c => !(c = NUL)) := by
        simp [List.takeWhile, ha]
      rw [e1, e2]
      cases hs : isspace a with
      | true => rw [scan_s_after_space _ _ _ hs, scan_s_after_space _ _ _ hs, ih]
      | false =>
        rw [scan_s_nonspace _ _ _ hs, scan_s_nonspace _ _ _ hs, takeWhile_takeWhile,
          takeWhile_takeWhile]
        rw [takeWhile_append_all_fail _ _ _ (fun c hc => by simp [hws c hc])]

theorem scan_name_text (width : Nat) (l ws : List Char) (hws : ∀ c ∈ ws, c = '\r' ∨ c = '\n') :
    scan_s width (name_text (l ++ ws)) = scan_s width (name_text l) := by
  unfold name_text
  rw [chomp_append_eol l ws hws]
  by_cases hn : 7 ≤ (chomp l).length
  · rw [if_pos hn, if_pos hn]
  · rw [if_neg hn, if_neg hn, List.drop_append_eq_append_drop]
    apply scan_s_trailing
    intro c hc
    rcases hws c (List.mem_of_mem_drop hc) with rfl | rfl <;> decide

/-- The loop body of the material loader looks at a buffer only up to its first carriage
return, newline or NUL, and at what it scans the name of a `newmtl` line from. -/
theorem mtl_line_vars2 {F : Type} (L : FloatLib F) (alloc : Nat → Bool) (st st1 : MtlState F)
    (raw raw1 : List Char) (hv : st.vars = st1.vars) (hc : chomp raw = chomp raw1)
    (hname : is_newmtl raw = true →
      scan_s 127 (cstr_at (cut_line (fgets_store st.line raw)) 7)
        = scan_s 127 (cstr_at (cut_line (fgets_store st1.line raw1)) 7)) :
    (mtl_line L alloc st raw).map MtlState.vars
      = (mtl_line L alloc st1 raw1).map MtlState.vars := by
  obtain ⟨l, ns, ms, cap, cur, na⟩ := st
  obtain ⟨l1, ns1, ms1, cap1, cur1, na1⟩ := st1
  simp only [MtlState.vars, Prod.mk.injEq] at hv
  obtain ⟨rfl, rfl, rfl, rfl, rfl⟩ := hv
  simp only at hname
  unfold mtl_line
  simp only [line_after_fgets]
  rw [← hc]
  by_cases hs : (chomp raw).head? = some '#' ∨ chomp raw = []
  · simp only [hs, if_true]
    rfl
  simp only [hs, if_false]
  by_cases hn : strncmp_eq (chomp raw) "newmtl" = true
  · simp only [hn, if_true, hname hn]
    repeat' split
    all_goals rfl
  simp only [hn, Bool.false_eq_true, if_false]
  cases cur with
  | none => rfl
  | some k =>
    simp only []
    by_cases h1 : strncmp_eq (chomp raw) "Ka" = true
    · have e := payload_after_keyword l raw "Ka" h1
      have e1 := payload_after_keyword l1 raw1 "Ka" (by rw [← hc]; exact h1)
      rw [← hc] at e1
      have e2 : "Ka".length = 2 := rfl
      rw [e2] at e e1
      simp only [h1, if_true, e, e1]
      split <;> rfl
    simp only [h1, Bool.false_eq_true, if_false]
    by_cases h2 : strncmp_eq (chomp raw) "Kd" = true
    · have e := payload_after_keyword l raw "Kd" h2
      have e1 := payload_after_keyword l1 raw1 "Kd" (by rw [← hc]; exact h2)
      rw [← hc] at e1
      have e2 : "Kd".length = 2 := rfl
      rw [e2] at e e1
      simp only [h2, if_true, e, e1]
      split <;> rfl
    simp only [h2, Bool.false_eq_true, if_false]
    by_cases h3 : strncmp_eq (chomp raw) "Ks" = true
    · have e := payload_after_keyword l raw "Ks" h3
      have e1 := payload_after_keyword l1 raw1 "Ks" (by rw [← hc]; exact h3)
      rw [← hc] at e1
      have e2 : "Ks".length = 2 := rfl
      rw [e2] at e e1
      simp only [h3, if_true, e, e1]
      split <;> rfl
    simp only [h3, Bool.false_eq_true, if_false]
    by_cases h4 : strncmp_eq (chomp raw) "Ns" = true
    · have e := payload_after_keyword l raw "Ns" h4
      have e1 := payload_after_keyword l1 raw1 "Ns" (by rw [← hc]; exact h4)
      rw [← hc] at e1
      have e2 : "Ns".length = 2 := rfl
      rw [e2] at e e1
      simp only [h4, if_true, e, e1]
      split <;> rfl
    simp only [h4, Bool.false_eq_true, if_false]
    by_cases h5 : (chomp raw).head? = some 'd' ∧
        ((chomp raw).get? 1 = some ' ' ∨ (chomp raw).get? 1 = some '\t')
    · have e := payload_of_d l raw h5.1
      have e1 := payload_of_d l1 raw1 (by rw [← hc]; exact h5.1)
      rw [← hc] at e1
      simp only [if_pos h5, e, e1]
      split <;> rfl
    simp only [if_neg h5]
    by_cases h6 : strncmp_eq (chomp raw) "illum" = true
    · have e := payload_after_keyword l raw "illum" h6
      have e1 := payload_after_keyword l1 raw1 "illum" (by rw [← hc]; exact h6)
      rw [← hc] at e1
      have e2 : "illum".length = 5 := rfl
      rw [e2] at e e1
      simp only [h6, if_true, e, e1]
      split <;> rfl
    simp only [h6, Bool.false_eq_true, if_false]
    rfl

theorem mtl_line_similar {F : Type} (L : FloatLib F) (alloc : Nat → Bool) (s s1 : MtlState F)
    (l ws ws1 : List Char) (hv : s.vars = s1.vars)
    (hws : ∀ c ∈ ws, c = '\r' ∨ c = '\n') (hws1 : ∀ c ∈ ws1, c = '\r' ∨ c = '\n')
    (hlen : (ws ≠ [] ∧ ws1 ≠ []) ∨ 7 ≤ l.length) :
    (mtl_line L alloc s (l ++ ws)).map MtlState.vars
      = (mtl_line L alloc s1 (l ++ ws1)).map MtlState.vars := by
  apply mtl_line_vars2 L alloc s s1 _ _ hv
  · rw [chomp_append_eol l ws hws, chomp_append_eol l ws1 hws1]
  · intro hn
    have h6 := strncmp_eq_length _ _ hn
    have e6 : "newmtl".length = 6 := rfl
    rw [e6] at h6
    have h61 : 6 ≤ (chomp (l ++ ws1)).length := by
      rw [chomp_append_eol l ws1 hws1, ← chomp_append_eol l ws hws]
      exact h6
    have hl6 : 6 ≤ l.length := by
      have := chomp_length l
      rw [chomp_append_eol l ws hws] at h6
      omega
    have a7 : 7 ≤ (l ++ ws).length := by
      rcases hlen with ⟨h, -⟩ | h
      · have : 0 < ws.length := List.length_pos.2 h
        simp only [List.length_append]
        omega
      · simp only [List.length_append]
        omega
    have a71 : 7 ≤ (l ++ ws1).length := by
      rcases hlen with ⟨-, h⟩ | h
      · have : 0 < ws1.length := List.length_pos.2 h
        simp only [List.length_append]
        omega
      · simp only [List.length_append]
        omega
    rw [name_in_buffer _ _ a7 h6, name_in_buffer _ _ a71 h61, scan_name_text _ l ws hws,
      scan_name_text _ l ws1 hws1]

theorem except_map_id {E S : Type} (r : Except E S) : r.map id = r := by
  cases r <;> rfl

/-- The read loops of both loaders on a text with either line terminator. -/
theorem loops_crlf {F : Type} (L : FloatLib F) (alloc : Nat → Bool) (ls : List (List Char))
    (hls : ∀ l ∈ ls, '\n' ∉ l) :
    (∀ st : ObjState F, obj_loop L alloc (fgets_all (lf_text ls)) st
      = obj_loop L alloc (fgets_all (crlf_text ls)) st) ∧
    (∀ st st1 : MtlState F, st.vars = st1.vars →
      (mtl_loop L alloc (fgets_all (lf_text ls)) st).map MtlState.vars
        = (mtl_loop L alloc (fgets_all (crlf_text ls)) st1).map MtlState.vars) := by
  constructor
  · intro st
    have := read_loop_crlf (obj_line L alloc) id
      (fun s s1 l ws ws1 hv hws hws1 _ => by
        simp only [id] at hv
        subst hv
        rw [obj_line_chomp L alloc s (l ++ ws) (l ++ ws1)
          (by rw [chomp_append_eol l ws hws, chomp_append_eol l ws1 hws1])])
      (fun s => by rw [obj_line_newline]; rfl)
      ls hls st st rfl
    rw [except_map_id, except_map_id] at this
    rw [obj_loop_eq_read_loop, obj_loop_eq_read_loop]
    exact this
  · intro st st1 hv
    rw [mtl_loop_eq_read_loop, mtl_loop_eq_read_loop]
    exact read_loop_crlf (mtl_line L alloc) MtlState.vars
      (fun s s1 l ws ws1 hv hws hws1 hlen => mtl_line_similar L alloc s s1 l ws ws1 hv hws hws1 hlen)
      (fun s => by rw [mtl_line_ignored L alloc s ['\n'] (Or.inl (by decide))]; rfl)
      ls hls st st1 hv

/-- When the last line has no terminator the material loader can tell the two line endings
apart: a bare `newmtl` at the end of the file is given the name `0` from the bytes that the
first line left in the array, and with carriage returns those bytes lie one place further. -/
theorem mtl_crlf_unterminated_last_line :
    cjelly_format_3d_mtl_load decimalLib alloc_ok (one_file "Ka 1 0 0\nNs 12\nnewmtl") []
        (some "u.mtl".toList) (some ⟨none, 0⟩)
      = .returned .SUCCESS (some ⟨some [{ zero_material decimalLib with name := "0".toList }], 1⟩) ∧
    cjelly_format_3d_mtl_load decimalLib alloc_ok (one_file "Ka 1 0 0\r\nNs 12\r\nnewmtl") []
        (some "u.mtl".toList) (some ⟨none, 0⟩)
      = .returned .ERR_INVALID_FORMAT (some ⟨none, 0⟩) :=
  ⟨rfl, rfl⟩

/-- Claim C23.  For every text whose lines are all terminated by a newline, and the text in
which every one of these terminators is replaced by a carriage return and a newline, the
geometry loader gives the same result (code and model) on both, and so does the material
loader (code and library), whatever the allocator does, whatever the line array holds at the
start of either call and whatever the lines hold, lines of 255 characters and more
included. -/
theorem C23_line_ending_independence {F : Type} (L : FloatLib F) (alloc : Nat → Bool)
    (fopen fopen1 : List Char → Option (List Char)) (line0 line1 path path1 : List Char)
    (ls : List (List Char)) (ok : Bool) (lib0 lib1 : CJellyFormat3dMtl F)
    (hls : ∀ l ∈ ls, '\n' ∉ l)
    (ht : fopen path = some (lf_text ls)) (ht1 : fopen1 path1 = some (crlf_text ls)) :
    cjelly_format_3d_obj_load L alloc fopen (some path) ok
      = cjelly_format_3d_obj_load L alloc fopen1 (some path1) ok ∧
    cjelly_format_3d_mtl_load L alloc fopen line0 (some path) (some lib0)
      = cjelly_format_3d_mtl_load L alloc fopen1 line1 (some path1) (some lib1) := by
  obtain ⟨ho, hm⟩ := loops_crlf L alloc ls hls
  constructor
  · unfold cjelly_format_3d_obj_load
    simp only [ht, ht1, ho]
  · exact mtl_load_congr L alloc fopen fopen1 line0 line1 path path1 _ _ lib0 lib1 ht ht1
      (hm _ _ rfl)

theorem C23_line_ending_independence_witness :
    cjelly_format_3d_obj_load decimalLib alloc_ok (one_file "v 1 2 3\nnewmtl a\nKd 1 0 0\n")
        (some "t".toList) true
      = cjelly_format_3d_obj_load decimalLib alloc_ok
        (one_file "v 1 2 3\r\nnewmtl a\r\nKd 1 0 0\r\n") (some "t".toList) true ∧
    cjelly_format_3d_mtl_load decimalLib alloc_ok (one_file "v 1 2 3\nnewmtl a\nKd 1 0 0\n") []
        (some "t".toList) (some ⟨none, 0⟩)
      = cjelly_format_3d_mtl_load decimalLib alloc_ok
        (one_file "v 1 2 3\r\nnewmtl a\r\nKd 1 0 0\r\n") "junk".toList (some "t".toList)
        (some ⟨none, 0⟩) :=
  C23_line_ending_independence decimalLib alloc_ok
    (one_file "v 1 2 3\nnewmtl a\nKd 1 0 0\n") (one_file "v 1 2 3\r\nnewmtl a\r\nKd 1 0 0\r\n")
    [] "junk".toList "t".toList "t".toList ["v 1 2 3".toList, "newmtl a".toList, "Kd 1 0 0".toList]
    true ⟨none, 0⟩ ⟨none, 0⟩ (by decide) rfl rfl

end CJelly
